import Mathlib

/-!
# Deploy-key rotation handler (`handler.go`)

A shallow embedding of `New` from `handler.go`.  The handler is sequential
code that talks to seven `Manager` methods, the template resolver, the
clock and the logger.  The collaborators are state transformers over an
arbitrary world state `σ`; every call the handler makes and every warning it
logs is appended to an event trace, one trace per repository.
-/

namespace Handler

/-! ## Data model -/

/-- Go `error` values.  `code` is the `awserr.Error` code when the value
implements that interface, `msg` the text of `Error()`. -/
structure Err where
  code : Option String
  msg : String
  deriving DecidableEq, Repr

/-- Constant `secretsmanager.ErrCodeResourceNotFoundException`. -/
def ErrCodeResourceNotFoundException : String := "ResourceNotFoundException"

/-- Type `Repository`: name, owner and the desired read-only flag
(`BooleanString`, a Go `bool`). -/
structure Repository where
  Name : String
  Owner : String
  ReadOnly : Bool
  deriving DecidableEq, Repr

/-- Type `Team`: a name and the ordered repositories. -/
structure Team where
  Name : String
  Repositories : List Repository
  deriving DecidableEq, Repr

/-- Type `github.Key` as the handler reads it.  `ID` and `Title` are
dereferenced without a check by the handler and are modelled as present;
`ReadOnly` is tested against `nil` and is optional. -/
structure Key where
  ID : Int
  Title : String
  ReadOnly : Option Bool
  deriving DecidableEq, Repr

/-- The two call sites of `manager.writeSecret`: the owner token (line 50)
and the private key (line 103). -/
inductive Site where
  | token
  | key
  deriving DecidableEq, Repr

/-- One observable step of the handler: a collaborator call with its
arguments and outcome, the grace sleep, or a logged warning. -/
inductive Event where
  | createAccessToken (owner : String) (ok : Bool)
  | writeSecret (site : Site) (path value : String) (ok : Bool)
  | listKeys (repository : Repository) (ok : Bool)
  | getLastUpdated (path : String) (ok : Bool)
  | generateKeyPair (title : String) (result : Option (String × String))
  | createKey (repository : Repository) (title pub : String) (ok : Bool)
  | sleep (nanoseconds : Int)
  | deleteKey (repository : Repository) (id : Int) (ok : Bool)
  | warnf (message : String)
  deriving DecidableEq, Repr

/-- The methods of `*Manager` the handler calls, over a world state `σ`.
A method returning `error` yields `none` for `nil`. -/
structure Manager (σ : Type) where
  createAccessToken : String → σ → Except Err String × σ
  writeSecret : String → String → σ → Option Err × σ
  listKeys : Repository → σ → Except Err (List Key) × σ
  getLastUpdated : String → σ → Except Err Int × σ
  generateKeyPair : String → σ → Except Err (String × String) × σ
  createKey : Repository → String → String → σ → Option Err × σ
  deleteKey : Repository → Int → σ → Option Err × σ

/-- Everything the handler depends on: the manager, the template resolver
`NewTemplate(team, repository, owner, template).String()`, and the `time`
package.  Instants are nanoseconds; `now` is `time.Now`, `sleep` is
`time.Sleep`, and `AddDate years months days t` is `t.AddDate(years, months,
days)`, calendar arithmetic in the zone of the process, which is why it is a
parameter: seven days back is 168 hours only when no zone transition lies in
between. -/
structure Env (σ : Type) where
  manager : Manager σ
  NewTemplate : String → String → String → String → Except Err String
  now : σ → Int
  AddDate : Int → Int → Int → Int → Int
  sleep : Int → σ → σ

/-- The map `tokenAdded` (`map[string]bool`) as an association list. -/
abbrev TokenAdded := List (String × Bool)

/-- One second, `time.Second`, in nanoseconds. -/
def second : Int := 1000000000

/-- Outcome of the scan over the listed keys: `continue Loop` or fall
through to the rotate sequence with the recorded `oldKey`. -/
inductive Verdict where
  | skip
  | rotate (oldKey : Option Key)
  deriving DecidableEq, Repr

/-! ## The handler -/

/-- Lines 43-55: mint and store the owner token unless the owner is in
`tokenAdded`.  The boolean is `false` when the repository is abandoned. -/
def ensureToken {σ : Type} (env : Env σ) (tokenPath : String) (repository : Repository)
    (tokenAdded : TokenAdded) (s : σ) : Bool × TokenAdded × σ × List Event :=
  match tokenAdded.lookup repository.Owner with
  | some _ => (true, tokenAdded, s, [])
  | none =>
    match env.manager.createAccessToken repository.Owner s with
    | (.error e, s1) =>
      (false, tokenAdded, s1,
        [.createAccessToken repository.Owner false,
         .warnf ("failed to get access token: " ++ e.msg)])
    | (.ok token, s1) =>
      match env.manager.writeSecret tokenPath token s1 with
      | (some e, s2) =>
        (false, tokenAdded, s2,
          [.createAccessToken repository.Owner true,
           .writeSecret .token tokenPath token false,
           .warnf ("failed to write access token: " ++ e.msg)])
      | (none, s2) =>
        (true, (repository.Owner, true) :: tokenAdded, s2,
          [.createAccessToken repository.Owner true,
           .writeSecret .token tokenPath token true])

/-- Lines 64-87: the loop over the listed keys.  `oldKey` is the variable of
that name; `break` ends the scan with verdict `rotate`, `continue Loop` with
`skip`, and a stale timestamp falls through to the next key. -/
def scanKeys {σ : Type} (env : Env σ) (repository : Repository) (title keyPath : String) :
    List Key → Option Key → σ → Verdict × σ × List Event
  | [], oldKey, s => (.rotate oldKey, s, [])
  | key :: rest, oldKey, s =>
    if key.Title = title then
      if key.ReadOnly ≠ none ∧ key.ReadOnly ≠ some repository.ReadOnly then
        (.rotate (some key), s, [])
      else
        match env.manager.getLastUpdated keyPath s with
        | (.error e, s1) =>
          if e.code = some ErrCodeResourceNotFoundException then
            (.rotate (some key), s1, [.getLastUpdated keyPath false])
          else
            (.rotate (some key), s1,
              [.getLastUpdated keyPath false,
               .warnf ("failed to get last updated for secret: " ++ e.msg)])
        | (.ok updated, s1) =>
          if updated > env.AddDate 0 0 (-7) (env.now s1) then
            (.skip, s1, [.getLastUpdated keyPath true])
          else
            let r := scanKeys env repository title keyPath rest (some key) s1
            (r.1, r.2.1, .getLastUpdated keyPath true :: r.2.2)
    else
      scanKeys env repository title keyPath rest oldKey s

/-- Lines 89-115: generate, publish, persist, then sleep and delete the old
key when there is one. -/
def rotate {σ : Type} (env : Env σ) (repository : Repository) (title keyPath : String)
    (oldKey : Option Key) (s : σ) : σ × List Event :=
  match env.manager.generateKeyPair title s with
  | (.error e, s1) =>
    (s1, [.generateKeyPair title none,
          .warnf ("failed to generate new key pair: " ++ e.msg)])
  | (.ok (priv, pub), s1) =>
    match env.manager.createKey repository title pub s1 with
    | (some e, s2) =>
      (s2, [.generateKeyPair title (some (priv, pub)),
            .createKey repository title pub false,
            .warnf ("failed to create key on github: " ++ e.msg)])
    | (none, s2) =>
      match env.manager.writeSecret keyPath priv s2 with
      | (some e, s3) =>
        (s3, [.generateKeyPair title (some (priv, pub)),
              .createKey repository title pub true,
              .writeSecret .key keyPath priv false,
              .warnf ("failed to write secret key: " ++ e.msg)])
      | (none, s3) =>
        match oldKey with
        | none =>
          (s3, [.generateKeyPair title (some (priv, pub)),
                .createKey repository title pub true,
                .writeSecret .key keyPath priv true])
        | some old =>
          match env.manager.deleteKey repository old.ID (env.sleep (second * 1) s3) with
          | (some e, s4) =>
            (s4, [.generateKeyPair title (some (priv, pub)),
                  .createKey repository title pub true,
                  .writeSecret .key keyPath priv true,
                  .sleep (second * 1),
                  .deleteKey repository old.ID false,
                  .warnf ("failed to delete old github key: " ++ toString old.ID ++ ": " ++ e.msg)])
          | (none, s4) =>
            (s4, [.generateKeyPair title (some (priv, pub)),
                  .createKey repository title pub true,
                  .writeSecret .key keyPath priv true,
                  .sleep (second * 1),
                  .deleteKey repository old.ID true])

/-- Lines 57-115, after the templates resolved and the token step passed:
list the keys, scan them, and rotate unless the verdict is `skip`. -/
def rotateIfNeeded {σ : Type} (env : Env σ) (repository : Repository)
    (keyPath title : String) (s : σ) : σ × List Event :=
  match env.manager.listKeys repository s with
  | (.error e, s1) =>
    (s1, [.listKeys repository false, .warnf ("failed to list github keys: " ++ e.msg)])
  | (.ok keys, s1) =>
    match scanKeys env repository title keyPath keys none s1 with
    | (.skip, s2, evs) => (s2, .listKeys repository true :: evs)
    | (.rotate oldKey, s2, evs) =>
      let r := rotate env repository title keyPath oldKey s2
      (r.1, .listKeys repository true :: (evs ++ r.2))

/-- The body of the loop over `team.Repositories` (lines 18-117) for one
repository: the new `tokenAdded`, the new world and the events. -/
def processRepository {σ : Type} (env : Env σ) (tokenTemplate keyTemplate titleTemplate : String)
    (team : Team) (repository : Repository) (tokenAdded : TokenAdded) (s : σ) :
    TokenAdded × σ × List Event :=
  match env.NewTemplate team.Name repository.Name repository.Owner tokenTemplate with
  | .error e => (tokenAdded, s, [.warnf ("failed to parse token path template: " ++ e.msg)])
  | .ok tokenPath =>
    match env.NewTemplate team.Name repository.Name repository.Owner keyTemplate with
    | .error e => (tokenAdded, s, [.warnf ("failed to parse deploy key template: " ++ e.msg)])
    | .ok keyPath =>
      match env.NewTemplate team.Name repository.Name repository.Owner titleTemplate with
      | .error e => (tokenAdded, s, [.warnf ("failed to github title template: " ++ e.msg)])
      | .ok title =>
        match ensureToken env tokenPath repository tokenAdded s with
        | (false, added, s1, evs) => (added, s1, evs)
        | (true, added, s1, evs) =>
          let r := rotateIfNeeded env repository keyPath title s1
          (added, r.1, evs ++ r.2)

/-- The loop `for _, repository := range team.Repositories` from a given
`tokenAdded` and world: the final map and world, and per repository, in
order, the events of its iteration. -/
def processRepositories {σ : Type} (env : Env σ) (tokenTemplate keyTemplate titleTemplate : String)
    (team : Team) : List Repository → TokenAdded → σ →
    TokenAdded × σ × List (Repository × List Event)
  | [], tokenAdded, s => (tokenAdded, s, [])
  | repository :: rest, tokenAdded, s =>
    let r := processRepository env tokenTemplate keyTemplate titleTemplate team repository
      tokenAdded s
    let rs := processRepositories env tokenTemplate keyTemplate titleTemplate team rest r.1 r.2.1
    (rs.1, rs.2.1, (repository, r.2.2) :: rs.2.2)

/-- Function `New`: the handler for the given settings, applied to a team in
a world `s`.  It starts from an empty `tokenAdded` and returns the error of
the Go function (`none` is `nil`), the final world and the trace. -/
def New {σ : Type} (env : Env σ) (tokenTemplate keyTemplate titleTemplate : String)
    (team : Team) (s : σ) : Option Err × σ × List (Repository × List Event) :=
  let r := processRepositories env tokenTemplate keyTemplate titleTemplate team
    team.Repositories [] s
  (none, r.2.1, r.2.2)

/-! ## Reading traces -/

/-- Which call site an event comes from; `writeSecret` is split by site. -/
inductive Kind where
  | createAccessToken
  | writeToken
  | listKeys
  | getLastUpdated
  | generateKeyPair
  | createKey
  | writeKey
  | sleep
  | deleteKey
  | warnf
  deriving DecidableEq, Repr

/-- The kind of an event. -/
def Event.kind : Event → Kind
  | .createAccessToken _ _ => .createAccessToken
  | .writeSecret .token _ _ _ => .writeToken
  | .writeSecret .key _ _ _ => .writeKey
  | .listKeys _ _ => .listKeys
  | .getLastUpdated _ _ => .getLastUpdated
  | .generateKeyPair _ _ => .generateKeyPair
  | .createKey _ _ _ _ => .createKey
  | .sleep _ => .sleep
  | .deleteKey _ _ _ => .deleteKey
  | .warnf _ => .warnf

/-- Number of events of kind `k` in the iterations of the repositories
owned by `owner`. -/
def ownerCalls (k : Kind) (owner : String) (trace : List (Repository × List Event)) : Nat :=
  ((trace.filter (fun entry => decide (entry.1.Owner = owner))).map
    (fun entry => entry.2.countP (fun e => decide (e.kind = k)))).sum

/-- Whether an event is a token write that succeeded. -/
def Event.isTokenStored : Event → Bool
  | .writeSecret .token _ _ true => true
  | _ => false

/-- Number of successful token writes in the iterations of the repositories
owned by `owner`. -/
def ownerTokenStored (owner : String) (trace : List (Repository × List Event)) : Nat :=
  ((trace.filter (fun entry => decide (entry.1.Owner = owner))).map
    (fun entry => entry.2.countP Event.isTokenStored)).sum

/-- Whether an event is a collaborator call that returned an error. -/
def Event.failed : Event → Bool
  | .createAccessToken _ ok => !ok
  | .writeSecret _ _ _ ok => !ok
  | .listKeys _ ok => !ok
  | .getLastUpdated _ ok => !ok
  | .generateKeyPair _ result => result.isNone
  | .createKey _ _ _ ok => !ok
  | .deleteKey _ _ ok => !ok
  | .sleep _ => false
  | .warnf _ => false

/-- Whether an event is a step of the rotate sequence (generate, publish,
persist, delete) that returned an error. -/
def Event.isFailedStep : Event → Bool
  | .generateKeyPair _ none => true
  | .createKey _ _ _ false => true
  | .writeSecret .key _ _ false => true
  | .deleteKey _ _ false => true
  | _ => false

/-- The loop of `New` in which the world each iteration starts from is given
with the repository instead of being handed over by the previous iteration,
so that what a repository's calls are answered depends on that repository
alone; `tokenAdded` is handed over as in `processRepositories`. -/
def processScripted {σ : Type} (env : Env σ) (tokenTemplate keyTemplate titleTemplate : String)
    (team : Team) : List (Repository × σ) → TokenAdded →
    TokenAdded × List (Repository × List Event)
  | [], tokenAdded => (tokenAdded, [])
  | (repository, s) :: rest, tokenAdded =>
    let r := processRepository env tokenTemplate keyTemplate titleTemplate team repository
      tokenAdded s
    let rs := processScripted env tokenTemplate keyTemplate titleTemplate team rest r.1
    (rs.1, (repository, r.2.2) :: rs.2)

/-- The collaborator calls of an iteration other than the token mint and the
token write (warnings and the sleep are not calls). -/
def otherCalls (events : List Event) : List Event :=
  events.filter (fun e => decide (e.kind ≠ .createAccessToken ∧ e.kind ≠ .writeToken ∧
    e.kind ≠ .warnf ∧ e.kind ≠ .sleep))

/-! ## Fixtures

A resolver and a scripted manager in the manner of `handler_test.go` and
`models_test.go`, used to run the handler on concrete teams. -/

/-- Modelled from the spec: the template resolver (`NewTemplate(...).String()`
lives outside `handler.go`).  Copies the template, replacing the placeholders
`{{.Team}}`, `{{.Repository}}` and `{{.Owner}}`; any other placeholder is an
error.  The second argument is the placeholder name being read, if any. -/
def expand (team repository owner : String) : List Char → Option (List Char) →
    Except Err (List Char)
  | [], none => .ok []
  | [], some _ => .error ⟨none, "unclosed action"⟩
  | '{' :: '{' :: '.' :: cs, none => expand team repository owner cs (some [])
  | c :: cs, none => (expand team repository owner cs none).map (c :: ·)
  | '}' :: '}' :: cs, some name =>
    if name = "Team".toList then
      (expand team repository owner cs none).map (team.toList ++ ·)
    else if name = "Repository".toList then
      (expand team repository owner cs none).map (repository.toList ++ ·)
    else if name = "Owner".toList then
      (expand team repository owner cs none).map (owner.toList ++ ·)
    else .error ⟨none, "can't evaluate field " ++ String.mk name⟩
  | c :: cs, some name => expand team repository owner cs (some (name ++ [c]))

/-- Modelled from the spec: `NewTemplate(team, repository, owner, template).String()`,
by `expand`. -/
def testTemplate (team repository owner template : String) : Except Err String :=
  (expand team repository owner template.toList none).map String.mk

/-- Method `Time.AddDate` for whole days on a clock without zone transitions
(UTC): a day is 24 hours.  The handler passes zero years and months, which
are not looked at. -/
def addDateUTC (_years _months days : Int) (t : Int) : Int :=
  t + days * (24 * 60 * 60 * second)

/-- Method `Time.AddDate` for whole days in a week in which the clocks were
put forward by one hour: going back over the transition is one hour short. -/
def addDateSpringForward (_years _months days : Int) (t : Int) : Int :=
  if days < 0 then t + days * (24 * 60 * 60 * second) + 60 * 60 * second
  else t + days * (24 * 60 * 60 * second)

/-- A scripted world: the keys the host lists, what the secret store reports
as last update, the clock, and the names of the methods that fail. -/
structure World where
  keys : List Key
  lastUpdated : Except Err Int
  clock : Int
  failing : List String

/-- A manager over `World`: each method fails exactly when it is named in
`failing`; `getLastUpdated` answers `lastUpdated`. -/
def testManager : Manager World where
  createAccessToken := fun _ w =>
    (if "createAccessToken" ∈ w.failing then .error ⟨none, "mint"⟩ else .ok "token", w)
  writeSecret := fun _ _ w =>
    (if "writeSecret" ∈ w.failing then some ⟨none, "write"⟩ else none, w)
  listKeys := fun _ w =>
    (if "listKeys" ∈ w.failing then .error ⟨none, "list"⟩ else .ok w.keys, w)
  getLastUpdated := fun _ w => (w.lastUpdated, w)
  generateKeyPair := fun _ w =>
    (if "generateKeyPair" ∈ w.failing then .error ⟨none, "generate"⟩
     else .ok ("private", "public"), w)
  createKey := fun _ _ _ w =>
    (if "createKey" ∈ w.failing then some ⟨none, "create"⟩ else none, w)
  deleteKey := fun _ _ w =>
    (if "deleteKey" ∈ w.failing then some ⟨none, "delete"⟩ else none, w)

/-- The scripted environment: `testManager`, `testTemplate` and a UTC clock
that only `time.Sleep` advances. -/
def testEnv : Env World where
  manager := testManager
  NewTemplate := testTemplate
  now := fun w => w.clock
  AddDate := addDateUTC
  sleep := fun d w => { w with clock := w.clock + d }

/-- A world that is just the clock: every method succeeds, the host lists
`keys`, and the secret store reports a last update exactly seven days before
the current time. -/
def boundaryEnv (keys : List Key) : Env Int where
  manager :=
    { createAccessToken := fun _ t => (.ok "token", t)
      writeSecret := fun _ _ t => (none, t)
      listKeys := fun _ t => (.ok keys, t)
      getLastUpdated := fun _ t => (.ok (addDateUTC 0 0 (-7) t), t)
      generateKeyPair := fun _ t => (.ok ("private", "public"), t)
      createKey := fun _ _ _ t => (none, t)
      deleteKey := fun _ _ t => (none, t) }
  NewTemplate := testTemplate
  now := fun t => t
  AddDate := addDateUTC
  sleep := fun d t => t + d

/-- The repository of `handler_test.go`. -/
def testRepository : Repository := ⟨"test-repository", "telia-oss", true⟩

/-- The team of `handler_test.go`. -/
def testTeam : Team := ⟨"test-team", [testRepository]⟩

/-- Two repositories of one owner. -/
def sharedTeam : Team :=
  ⟨"test-team", [⟨"repository-a", "telia-oss", true⟩, ⟨"repository-b", "telia-oss", true⟩]⟩

/-- A key template with a placeholder the resolver does not know
(`models_test.go`). -/
def unknownFieldTemplate : String := "/concourse/{{.Team}}/{{.Repository}}/{{.Something}}"

/-- Token path template of `handler_test.go`. -/
def testTokenPath : String := "/concourse/{{.Team}}/{{.Owner}}"

/-- Key path template of `handler_test.go`. -/
def testKeyPath : String := "/concourse/{{.Team}}/{{.Repository}}"

/-- Key title template of `handler_test.go`. -/
def testKeyTitle : String := "concourse-{{.Team}}-deploy-key"

/-- Ten days in nanoseconds, the clock reading of the fixtures. -/
def tenDays : Int := 10 * 24 * 60 * 60 * second

/-- A world listing keys 1 and 2, both with the test title and the desired
flag, whose secret was last updated at time 0, at clock `tenDays`. -/
def duplicateWorld : World :=
  ⟨[⟨1, "concourse-test-team-deploy-key", some true⟩,
    ⟨2, "concourse-test-team-deploy-key", some true⟩], .ok 0, tenDays, []⟩

/-- A world without keys in which `createAccessToken` fails. -/
def mintFailsWorld : World := ⟨[], .ok 0, tenDays, ["createAccessToken"]⟩

/-- A world listing key 1 with the test title and flag `readOnly`, whose
secret was last updated at `updated`, at clock `tenDays`. -/
def testWorld (readOnly : Option Bool) (updated : Int) : World :=
  ⟨[⟨1, "concourse-test-team-deploy-key", readOnly⟩], .ok updated, tenDays, []⟩

/-- A world without keys in which `createKey` fails. -/
def createFailsWorld : World := ⟨[], .ok 0, tenDays, ["createKey"]⟩

/-- A world listing key 1 with the test title and the desired flag, whose
secret the store does not find. -/
def secretMissingWorld : World :=
  ⟨[⟨1, "concourse-test-team-deploy-key", some true⟩],
    .error ⟨some ErrCodeResourceNotFoundException, "secret not found"⟩, tenDays, []⟩

/-- A world without keys in which every call succeeds. -/
def emptyWorld : World := ⟨[], .ok 0, tenDays, []⟩

/-- First repository of `sharedTeam`. -/
def repositoryA : Repository := ⟨"repository-a", "telia-oss", true⟩

/-- Second repository of `sharedTeam`. -/
def repositoryB : Repository := ⟨"repository-b", "telia-oss", true⟩

/-- A world listing key 1 with the test title and the desired flag, whose
secret the store refuses to describe. -/
def secretUnreadableWorld : World :=
  ⟨[⟨1, "concourse-test-team-deploy-key", some true⟩],
    .error ⟨some "AccessDeniedException", "access denied"⟩, tenDays, []⟩

/-- The scripted environment in a week in which the clocks were put forward:
seven days back is 167 hours. -/
def springForwardEnv : Env World :=
  { testEnv with AddDate := addDateSpringForward }

/-! ## Shape of the traces -/

section Kinds

@[simp] theorem kind_createAccessToken (o : String) (ok : Bool) :
    (Event.createAccessToken o ok).kind = .createAccessToken := rfl
@[simp] theorem kind_writeToken (p v : String) (ok : Bool) :
    (Event.writeSecret .token p v ok).kind = .writeToken := rfl
@[simp] theorem kind_writeKey (p v : String) (ok : Bool) :
    (Event.writeSecret .key p v ok).kind = .writeKey := rfl
@[simp] theorem kind_listKeys (r : Repository) (ok : Bool) :
    (Event.listKeys r ok).kind = .listKeys := rfl
@[simp] theorem kind_getLastUpdated (p : String) (ok : Bool) :
    (Event.getLastUpdated p ok).kind = .getLastUpdated := rfl
@[simp] theorem kind_generateKeyPair (t : String) (r : Option (String × String)) :
    (Event.generateKeyPair t r).kind = .generateKeyPair := rfl
@[simp] theorem kind_createKey (r : Repository) (t p : String) (ok : Bool) :
    (Event.createKey r t p ok).kind = .createKey := rfl
@[simp] theorem kind_sleep (d : Int) : (Event.sleep d).kind = .sleep := rfl
@[simp] theorem kind_deleteKey (r : Repository) (i : Int) (ok : Bool) :
    (Event.deleteKey r i ok).kind = .deleteKey := rfl
@[simp] theorem kind_warnf (m : String) : (Event.warnf m).kind = .warnf := rfl

end Kinds

section Shape

variable {σ : Type} (env : Env σ)

/-- The token step only mints, writes the token and warns. -/
theorem ensureToken_kind (tokenPath : String) (repository : Repository)
    (tokenAdded : TokenAdded) (s : σ) :
    ∀ e ∈ (ensureToken env tokenPath repository tokenAdded s).2.2.2,
      e.kind = .createAccessToken ∨ e.kind = .writeToken ∨ e.kind = .warnf := by
  unfold ensureToken
  cases tokenAdded.lookup repository.Owner with
  | some b => simp
  | none =>
    rcases h1 : env.manager.createAccessToken repository.Owner s with ⟨_ | token, s1⟩
    · simp
    · dsimp only
      rcases h2 : env.manager.writeSecret tokenPath token s1 with ⟨_ | e, s2⟩ <;> simp

/-- The scan only queries `getLastUpdated` and warns. -/
theorem scanKeys_kind (repository : Repository) (title keyPath : String) :
    ∀ (keys : List Key) (oldKey : Option Key) (s : σ),
      ∀ e ∈ (scanKeys env repository title keyPath keys oldKey s).2.2,
        e.kind = .getLastUpdated ∨ e.kind = .warnf
  | [], _, _ => by simp [scanKeys]
  | key :: rest, oldKey, s => by
    unfold scanKeys
    by_cases ht : key.Title = title
    · by_cases hd : key.ReadOnly ≠ none ∧ key.ReadOnly ≠ some repository.ReadOnly
      · simp [ht, hd]
      · rcases h1 : env.manager.getLastUpdated keyPath s with ⟨e | updated, s1⟩
        · by_cases hc : e.code = some ErrCodeResourceNotFoundException <;>
            simp [ht, hd, hc]
        · by_cases hf : updated > env.AddDate 0 0 (-7) (env.now s1)
          · simp [ht, hd, hf]
          · have ih := scanKeys_kind repository title keyPath rest (some key) s1
            simp only [ht, hd, hf, if_true, if_false, List.mem_cons]
            rintro e (rfl | he)
            · simp
            · exact ih e he
    · simpa [ht] using scanKeys_kind repository title keyPath rest oldKey s

/-- The rotate sequence either never deletes, or is generate, publish,
persist, sleep, delete, followed by at most a warning. -/
theorem rotate_shape (repository : Repository) (title keyPath : String)
    (oldKey : Option Key) (s : σ) :
    (∀ e ∈ (rotate env repository title keyPath oldKey s).2, e.kind ≠ .deleteKey) ∨
    ∃ priv pub old ok tail, oldKey = some old ∧
      (rotate env repository title keyPath oldKey s).2 =
        [.generateKeyPair title (some (priv, pub)), .createKey repository title pub true,
         .writeSecret .key keyPath priv true, .sleep (second * 1)] ++
        .deleteKey repository old.ID ok :: tail ∧
      ∀ e ∈ tail, e.kind ≠ .deleteKey := by
  unfold rotate
  rcases h1 : env.manager.generateKeyPair title s with ⟨e | ⟨priv, pub⟩, s1⟩
  · left; simp
  · dsimp only
    rcases h2 : env.manager.createKey repository title pub s1 with ⟨_ | e, s2⟩
    · dsimp only
      rcases h3 : env.manager.writeSecret keyPath priv s2 with ⟨_ | e, s3⟩
      · cases oldKey with
        | none => left; simp
        | some old =>
          right
          dsimp only
          rcases h4 : env.manager.deleteKey repository old.ID (env.sleep (second * 1) s3)
            with ⟨_ | e, s4⟩
          · exact ⟨priv, pub, old, true, [], rfl, by simp, by simp⟩
          · exact ⟨priv, pub, old, false,
              [.warnf ("failed to delete old github key: " ++ toString old.ID ++ ": " ++ e.msg)],
              rfl, by simp, by simp⟩
      · left; simp
    · left; simp

/-- The list-scan-rotate part either never deletes, or ends in generate,
publish, persist, sleep, delete and at most a warning. -/
theorem rotateIfNeeded_shape (repository : Repository) (keyPath title : String) (s : σ) :
    (∀ e ∈ (rotateIfNeeded env repository keyPath title s).2, e.kind ≠ .deleteKey) ∨
    ∃ priv pub id ok pre tail,
      (rotateIfNeeded env repository keyPath title s).2 =
        pre ++ [.generateKeyPair title (some (priv, pub)), .createKey repository title pub true,
         .writeSecret .key keyPath priv true, .sleep (second * 1)] ++
        .deleteKey repository id ok :: tail ∧
      (∀ e ∈ pre, e.kind ≠ .deleteKey) ∧ ∀ e ∈ tail, e.kind ≠ .deleteKey := by
  unfold rotateIfNeeded
  rcases h1 : env.manager.listKeys repository s with ⟨e | keys, s1⟩
  · left; simp
  · dsimp only
    have hk := scanKeys_kind env repository title keyPath keys none s1
    rcases h2 : scanKeys env repository title keyPath keys none s1 with ⟨_ | oldKey, s2, evs⟩
    · left
      rw [h2] at hk
      intro e he
      rcases List.mem_cons.1 he with rfl | he
      · simp
      · rcases hk e he with h | h <;> simp [h]
    · rw [h2] at hk
      have hevs : ∀ e ∈ Event.listKeys repository true :: evs, e.kind ≠ .deleteKey := by
        intro e he
        rcases List.mem_cons.1 he with rfl | he
        · simp
        · rcases hk e he with h | h <;> simp [h]
      rcases rotate_shape env repository title keyPath oldKey s2 with h | h
      · left
        intro e he
        rcases List.mem_cons.1 he with rfl | he
        · simp
        · rcases List.mem_append.1 he with he | he
          · exact hevs e (List.mem_cons_of_mem _ he)
          · exact h e he
      · right
        obtain ⟨priv, pub, old, ok, tail, -, hrot, htail⟩ := h
        refine ⟨priv, pub, old.ID, ok, Event.listKeys repository true :: evs, tail, ?_,
          hevs, htail⟩
        simp [hrot]

/-- When a template does not resolve the iteration is a single warning and
changes neither `tokenAdded` nor the world. -/
theorem processRepository_unresolved (tokenTemplate keyTemplate titleTemplate : String)
    (team : Team) (repository : Repository) (tokenAdded : TokenAdded) (s : σ)
    (hfail : (∃ e, env.NewTemplate team.Name repository.Name repository.Owner tokenTemplate
        = .error e) ∨
      (∃ e, env.NewTemplate team.Name repository.Name repository.Owner keyTemplate
        = .error e) ∨
      (∃ e, env.NewTemplate team.Name repository.Name repository.Owner titleTemplate
        = .error e)) :
    ∃ message, processRepository env tokenTemplate keyTemplate titleTemplate team repository
      tokenAdded s = (tokenAdded, s, [Event.warnf message]) := by
  unfold processRepository
  rcases h1 : env.NewTemplate team.Name repository.Name repository.Owner tokenTemplate
    with e1 | tokenPath
  · exact ⟨_, rfl⟩
  · rcases h2 : env.NewTemplate team.Name repository.Name repository.Owner keyTemplate
      with e2 | keyPath
    · exact ⟨_, rfl⟩
    · rcases h3 : env.NewTemplate team.Name repository.Name repository.Owner titleTemplate
        with e3 | title
      · exact ⟨_, rfl⟩
      · rcases hfail with ⟨e, h⟩ | ⟨e, h⟩ | ⟨e, h⟩
        · rw [h1] at h; cases h
        · rw [h2] at h; cases h
        · rw [h3] at h; cases h

/-- When the three templates resolve the iteration is the token step
followed, if it passes, by the list-scan-rotate part. -/
theorem processRepository_resolved (tokenTemplate keyTemplate titleTemplate : String)
    (team : Team) (repository : Repository) (tokenAdded : TokenAdded) (s : σ)
    (tokenPath keyPath title : String)
    (hToken : env.NewTemplate team.Name repository.Name repository.Owner tokenTemplate
      = .ok tokenPath)
    (hKey : env.NewTemplate team.Name repository.Name repository.Owner keyTemplate
      = .ok keyPath)
    (hTitle : env.NewTemplate team.Name repository.Name repository.Owner titleTemplate
      = .ok title) :
    processRepository env tokenTemplate keyTemplate titleTemplate team repository tokenAdded s =
      match ensureToken env tokenPath repository tokenAdded s with
      | (false, added, s1, evs) => (added, s1, evs)
      | (true, added, s1, evs) =>
        (added, (rotateIfNeeded env repository keyPath title s1).1,
          evs ++ (rotateIfNeeded env repository keyPath title s1).2) := by
  unfold processRepository
  simp only [hToken, hKey, hTitle]

/-- Either every template resolves or one of them fails. -/
theorem resolved_or_not (tokenTemplate keyTemplate titleTemplate : String)
    (team : Team) (repository : Repository) :
    (∃ tokenPath keyPath title,
      env.NewTemplate team.Name repository.Name repository.Owner tokenTemplate = .ok tokenPath ∧
      env.NewTemplate team.Name repository.Name repository.Owner keyTemplate = .ok keyPath ∧
      env.NewTemplate team.Name repository.Name repository.Owner titleTemplate = .ok title) ∨
    ((∃ e, env.NewTemplate team.Name repository.Name repository.Owner tokenTemplate
        = .error e) ∨
      (∃ e, env.NewTemplate team.Name repository.Name repository.Owner keyTemplate
        = .error e) ∨
      (∃ e, env.NewTemplate team.Name repository.Name repository.Owner titleTemplate
        = .error e)) := by
  rcases h1 : env.NewTemplate team.Name repository.Name repository.Owner tokenTemplate
    with e1 | tokenPath
  · exact Or.inr (Or.inl ⟨_, rfl⟩)
  · rcases h2 : env.NewTemplate team.Name repository.Name repository.Owner keyTemplate
      with e2 | keyPath
    · exact Or.inr (Or.inr (Or.inl ⟨_, rfl⟩))
    · rcases h3 : env.NewTemplate team.Name repository.Name repository.Owner titleTemplate
        with e3 | title
      · exact Or.inr (Or.inr (Or.inr ⟨_, rfl⟩))
      · exact Or.inl ⟨_, _, _, rfl, rfl, rfl⟩

/-- An iteration either never deletes, or its templates resolve and its
events end in generate, publish, persist, sleep, delete and at most a
warning. -/
theorem processRepository_shape (tokenTemplate keyTemplate titleTemplate : String)
    (team : Team) (repository : Repository) (tokenAdded : TokenAdded) (s : σ) :
    (∀ e ∈ (processRepository env tokenTemplate keyTemplate titleTemplate team repository
        tokenAdded s).2.2, e.kind ≠ .deleteKey) ∨
    ∃ keyPath title priv pub id ok pre tail,
      env.NewTemplate team.Name repository.Name repository.Owner keyTemplate = .ok keyPath ∧
      env.NewTemplate team.Name repository.Name repository.Owner titleTemplate = .ok title ∧
      (processRepository env tokenTemplate keyTemplate titleTemplate team repository
        tokenAdded s).2.2 =
        pre ++ [.generateKeyPair title (some (priv, pub)), .createKey repository title pub true,
         .writeSecret .key keyPath priv true, .sleep (second * 1)] ++
        .deleteKey repository id ok :: tail ∧
      (∀ e ∈ pre, e.kind ≠ .deleteKey) ∧ ∀ e ∈ tail, e.kind ≠ .deleteKey := by
  rcases resolved_or_not env tokenTemplate keyTemplate titleTemplate team repository with
    ⟨tokenPath, keyPath, title, hT, hK, hTi⟩ | hfail
  · rw [processRepository_resolved env _ _ _ team repository tokenAdded s _ _ _ hT hK hTi]
    have hk := ensureToken_kind env tokenPath repository tokenAdded s
    rcases h1 : ensureToken env tokenPath repository tokenAdded s with ⟨_ | _, added, s1, evs⟩
    · left
      rw [h1] at hk
      intro e he
      rcases hk e he with h | h | h <;> simp [h]
    · rw [h1] at hk
      have hevs : ∀ e ∈ evs, e.kind ≠ .deleteKey := by
        intro e he
        rcases hk e he with h | h | h <;> simp [h]
      dsimp only
      rcases rotateIfNeeded_shape env repository keyPath title s1 with h | h
      · left
        intro e he
        rcases List.mem_append.1 he with he | he
        · exact hevs e he
        · exact h e he
      · right
        obtain ⟨priv, pub, id, ok, pre, tail, hrot, hpre, htail⟩ := h
        refine ⟨keyPath, title, priv, pub, id, ok, evs ++ pre, tail, hK, hTi, ?_, ?_, htail⟩
        · simp [hrot]
        · intro e he
          rcases List.mem_append.1 he with he | he
          · exact hevs e he
          · exact hpre e he
  · obtain ⟨message, hm⟩ :=
      processRepository_unresolved env _ _ _ team repository tokenAdded s hfail
    left
    simp [hm]

/-- Every entry of the trace of the loop is the trace of one iteration from
some `tokenAdded` and world. -/
theorem mem_processRepositories (tokenTemplate keyTemplate titleTemplate : String)
    (team : Team) :
    ∀ (repositories : List Repository) (tokenAdded : TokenAdded) (s : σ)
      (repository : Repository) (events : List Event),
      (repository, events) ∈ (processRepositories env tokenTemplate keyTemplate titleTemplate
        team repositories tokenAdded s).2.2 →
      ∃ added s1, events = (processRepository env tokenTemplate keyTemplate titleTemplate
        team repository added s1).2.2
  | [], _, _, _, _ => by simp [processRepositories]
  | r :: rest, tokenAdded, s, repository, events => by
    intro h
    simp only [processRepositories, List.mem_cons, Prod.mk.injEq] at h
    rcases h with ⟨rfl, rfl⟩ | h
    · exact ⟨tokenAdded, s, rfl⟩
    · exact mem_processRepositories tokenTemplate keyTemplate titleTemplate team rest _ _ _ _ h

/-- A list with a single event of a kind splits at that event in one way. -/
theorem split_unique (k : Kind) :
    ∀ (xs : List Event) (d : Event) (ys pre : List Event) (d1 : Event) (post : List Event),
      (∀ e ∈ xs, e.kind ≠ k) → (∀ e ∈ ys, e.kind ≠ k) → d1.kind = k →
      xs ++ d :: ys = pre ++ d1 :: post → pre = xs ∧ d1 = d ∧ post = ys
  | [], d, ys, pre, d1, post, _, hys, hd1, h => by
    cases pre with
    | nil =>
      simp only [List.nil_append, List.cons.injEq] at h
      exact ⟨rfl, h.1.symm, h.2.symm⟩
    | cons a pre1 =>
      simp only [List.nil_append, List.cons_append, List.cons.injEq] at h
      exact absurd hd1 (hys d1 (by rw [h.2]; simp))
  | x :: xs, d, ys, pre, d1, post, hxs, hys, hd1, h => by
    cases pre with
    | nil =>
      simp only [List.nil_append, List.cons_append, List.cons.injEq] at h
      exact absurd hd1 (by rw [← h.1]; exact hxs x (by simp))
    | cons a pre1 =>
      simp only [List.cons_append, List.cons.injEq] at h
      obtain ⟨h1, h2, h3⟩ := split_unique k xs d ys pre1 d1 post
        (fun e he => hxs e (List.mem_cons_of_mem _ he)) hys hd1 h.2
      exact ⟨by rw [h.1, h1], h2, h3⟩

/-- The rotate sequence makes no token, list or timestamp call. -/
theorem rotate_kind (repository : Repository) (title keyPath : String)
    (oldKey : Option Key) (s : σ) :
    ∀ e ∈ (rotate env repository title keyPath oldKey s).2,
      e.kind = .generateKeyPair ∨ e.kind = .createKey ∨ e.kind = .writeKey ∨
      e.kind = .sleep ∨ e.kind = .deleteKey ∨ e.kind = .warnf := by
  unfold rotate
  rcases h1 : env.manager.generateKeyPair title s with ⟨e | ⟨priv, pub⟩, s1⟩
  · simp
  · dsimp only
    rcases h2 : env.manager.createKey repository title pub s1 with ⟨_ | e, s2⟩
    · dsimp only
      rcases h3 : env.manager.writeSecret keyPath priv s2 with ⟨_ | e, s3⟩
      · cases oldKey with
        | none => simp
        | some old =>
          dsimp only
          rcases h4 : env.manager.deleteKey repository old.ID (env.sleep (second * 1) s3)
            with ⟨_ | e, s4⟩ <;> simp
      · simp
    · simp

/-- The rotate sequence starts with `generateKeyPair` on the title; when
that succeeds `createKey` with the public key follows; when that succeeds
`writeSecret` of the private key at the key path follows. -/
theorem rotate_order (repository : Repository) (title keyPath : String)
    (oldKey : Option Key) (s : σ) :
    ∃ result rest,
      (rotate env repository title keyPath oldKey s).2 =
        Event.generateKeyPair title result :: rest ∧
      (result.isSome = true ↔ ∃ pair s1, env.manager.generateKeyPair title s = (.ok pair, s1)) ∧
      ∀ priv pub, result = some (priv, pub) →
        ∃ ok rest1, rest = Event.createKey repository title pub ok :: rest1 ∧
          (ok = true → ∃ ok1 rest2, rest1 = Event.writeSecret .key keyPath priv ok1 :: rest2) := by
  unfold rotate
  rcases h1 : env.manager.generateKeyPair title s with ⟨e | ⟨priv, pub⟩, s1⟩
  · exact ⟨none, _, rfl, by simp, by simp⟩
  · dsimp only
    rcases h2 : env.manager.createKey repository title pub s1 with ⟨_ | e, s2⟩
    · dsimp only
      rcases h3 : env.manager.writeSecret keyPath priv s2 with ⟨_ | e, s3⟩
      · cases oldKey with
        | none =>
          refine ⟨some (priv, pub), _, rfl, by simp, ?_⟩
          rintro p q ⟨⟩
          exact ⟨true, _, rfl, fun _ => ⟨true, _, rfl⟩⟩
        | some old =>
          dsimp only
          rcases h4 : env.manager.deleteKey repository old.ID (env.sleep (second * 1) s3)
            with ⟨_ | e, s4⟩
          · refine ⟨some (priv, pub), _, rfl, by simp, ?_⟩
            rintro p q ⟨⟩
            exact ⟨true, _, rfl, fun _ => ⟨true, _, rfl⟩⟩
          · refine ⟨some (priv, pub), _, rfl, by simp, ?_⟩
            rintro p q ⟨⟩
            exact ⟨true, _, rfl, fun _ => ⟨true, _, rfl⟩⟩
      · refine ⟨some (priv, pub), _, rfl, by simp, ?_⟩
        rintro p q ⟨⟩
        exact ⟨true, _, rfl, fun _ => ⟨false, _, rfl⟩⟩
    · refine ⟨some (priv, pub), _, rfl, by simp, ?_⟩
      rintro p q ⟨⟩
      exact ⟨false, _, rfl, by simp⟩

/-- With an old key and generate, publish and persist succeeding, the rotate
sequence is those three calls, the one-second sleep, the delete of the old
key's id, and at most a warning. -/
theorem rotate_success (repository : Repository) (title keyPath : String)
    (old : Key) (s s1 s2 s3 : σ) (priv pub : String)
    (hgen : env.manager.generateKeyPair title s = (.ok (priv, pub), s1))
    (hcreate : env.manager.createKey repository title pub s1 = (none, s2))
    (hwrite : env.manager.writeSecret keyPath priv s2 = (none, s3)) :
    ∃ ok tail,
      (rotate env repository title keyPath (some old) s).2 =
        [.generateKeyPair title (some (priv, pub)), .createKey repository title pub true,
         .writeSecret .key keyPath priv true, .sleep (second * 1),
         .deleteKey repository old.ID ok] ++ tail ∧
      ∀ e ∈ tail, e.kind = .warnf := by
  unfold rotate
  simp only [hgen, hcreate, hwrite]
  rcases h4 : env.manager.deleteKey repository old.ID (env.sleep (second * 1) s3)
    with ⟨_ | e, s4⟩
  · exact ⟨true, [], rfl, by simp⟩
  · exact ⟨false,
      [.warnf ("failed to delete old github key: " ++ toString old.ID ++ ": " ++ e.msg)],
      rfl, by simp⟩

/-- Keys with another title are passed over: with no key of the title the
scan ends with verdict `rotate` on the incoming `oldKey`, without any call. -/
theorem scanKeys_no_match (repository : Repository) (title keyPath : String) :
    ∀ (keys : List Key) (oldKey : Option Key) (s : σ),
      keys.find? (fun k => decide (k.Title = title)) = none →
      scanKeys env repository title keyPath keys oldKey s = (.rotate oldKey, s, [])
  | [], _, _, _ => rfl
  | key :: rest, oldKey, s, h => by
    rw [List.find?_cons] at h
    by_cases ht : key.Title = title
    · simp [ht] at h
    · simp only [ht, decide_False] at h
      unfold scanKeys
      simp only [ht, if_false]
      exact scanKeys_no_match repository title keyPath rest oldKey s h

/-- The scan skips to the first key with the title. -/
theorem scanKeys_first_match (repository : Repository) (title keyPath : String) :
    ∀ (keys : List Key) (key : Key),
      keys.find? (fun k => decide (k.Title = title)) = some key →
      key.Title = title ∧ ∃ rest, ∀ (oldKey : Option Key) (s : σ),
        scanKeys env repository title keyPath keys oldKey s =
          scanKeys env repository title keyPath (key :: rest) oldKey s
  | [], _, h => by simp at h
  | k :: rest, key, h => by
    rw [List.find?_cons] at h
    by_cases ht : k.Title = title
    · simp only [ht, decide_True, Option.some.injEq] at h
      subst h
      exact ⟨ht, rest, fun _ _ => rfl⟩
    · simp only [ht, decide_False] at h
      obtain ⟨h1, rest1, h2⟩ := scanKeys_first_match repository title keyPath rest key h
      refine ⟨h1, rest1, fun oldKey s => ?_⟩
      rw [← h2 oldKey s]
      conv_lhs => unfold scanKeys
      simp only [ht, if_false]

/-- The list-scan-rotate part after a successful `listKeys`. -/
theorem rotateIfNeeded_listed (repository : Repository) (keyPath title : String) (s s1 : σ)
    (keys : List Key) (hlist : env.manager.listKeys repository s = (.ok keys, s1)) :
    rotateIfNeeded env repository keyPath title s =
      match scanKeys env repository title keyPath keys none s1 with
      | (.skip, s2, evs) => (s2, .listKeys repository true :: evs)
      | (.rotate oldKey, s2, evs) =>
        ((rotate env repository title keyPath oldKey s2).1,
          .listKeys repository true :: (evs ++ (rotate env repository title keyPath oldKey s2).2)) := by
  unfold rotateIfNeeded
  simp only [hlist]

/-- The iteration of a repository whose templates resolve, whose token step
passes and whose keys are listed. -/
theorem processRepository_listed (tokenTemplate keyTemplate titleTemplate : String)
    (team : Team) (repository : Repository) (tokenAdded : TokenAdded) (s : σ)
    (tokenPath keyPath title : String)
    (hToken : env.NewTemplate team.Name repository.Name repository.Owner tokenTemplate
      = .ok tokenPath)
    (hKey : env.NewTemplate team.Name repository.Name repository.Owner keyTemplate
      = .ok keyPath)
    (hTitle : env.NewTemplate team.Name repository.Name repository.Owner titleTemplate
      = .ok title)
    (added : TokenAdded) (s1 : σ) (evs : List Event)
    (htok : ensureToken env tokenPath repository tokenAdded s = (true, added, s1, evs))
    (keys : List Key) (s2 : σ)
    (hlist : env.manager.listKeys repository s1 = (.ok keys, s2)) :
    processRepository env tokenTemplate keyTemplate titleTemplate team repository tokenAdded s =
      match scanKeys env repository title keyPath keys none s2 with
      | (.skip, s3, evs2) => (added, s3, evs ++ .listKeys repository true :: evs2)
      | (.rotate oldKey, s3, evs2) =>
        (added, (rotate env repository title keyPath oldKey s3).1,
          evs ++ .listKeys repository true ::
            (evs2 ++ (rotate env repository title keyPath oldKey s3).2)) := by
  rw [processRepository_resolved env _ _ _ team repository tokenAdded s _ _ _ hToken hKey hTitle,
    htok]
  dsimp only
  rw [rotateIfNeeded_listed env repository keyPath title s1 s2 keys hlist]
  rcases scanKeys env repository title keyPath keys none s2 with ⟨_ | oldKey, s3, evs2⟩ <;> rfl

/-- No event of a kind, none counted. -/
theorem countP_kind_eq_zero (k : Kind) (l : List Event) (h : ∀ e ∈ l, e.kind ≠ k) :
    l.countP (fun e => decide (e.kind = k)) = 0 := by
  rw [List.countP_eq_zero]
  intro e he
  simpa using h e he

/-- Every rotate sequence calls `generateKeyPair` exactly once. -/
theorem rotate_count_generate (repository : Repository) (title keyPath : String)
    (oldKey : Option Key) (s : σ) :
    (rotate env repository title keyPath oldKey s).2.countP
      (fun e => decide (e.kind = .generateKeyPair)) = 1 := by
  unfold rotate
  rcases h1 : env.manager.generateKeyPair title s with ⟨e | ⟨priv, pub⟩, s1⟩
  · simp [List.countP_cons]
  · dsimp only
    rcases h2 : env.manager.createKey repository title pub s1 with ⟨_ | e, s2⟩
    · dsimp only
      rcases h3 : env.manager.writeSecret keyPath priv s2 with ⟨_ | e, s3⟩
      · cases oldKey with
        | none => simp [List.countP_cons]
        | some old =>
          dsimp only
          rcases h4 : env.manager.deleteKey repository old.ID (env.sleep (second * 1) s3)
            with ⟨_ | e, s4⟩ <;> simp [List.countP_cons]
      · simp [List.countP_cons]
    · simp [List.countP_cons]

/-- The scan queries `getLastUpdated` at most once per listed key with the
title, each time in the world the previous query left.  When each of these
queries answers a timestamp that is not after `time.Now().AddDate(0, 0, -7)`,
the scan ends with verdict `rotate`, and with an old key as soon as a listed
key has the title. -/
theorem scanKeys_stale (repository : Repository) (title keyPath : String) :
    ∀ (keys : List Key) (oldKey : Option Key) (s : σ),
      (∀ i, i < keys.countP (fun k => decide (k.Title = title)) →
        ∃ updated t1,
          env.manager.getLastUpdated keyPath
            ((fun t => (env.manager.getLastUpdated keyPath t).2)^[i] s) = (.ok updated, t1) ∧
          updated ≤ env.AddDate 0 0 (-7) (env.now t1)) →
      ∃ old, (scanKeys env repository title keyPath keys oldKey s).1 = .rotate old ∧
        ((oldKey.isSome = true ∨ ∃ k ∈ keys, k.Title = title) → old.isSome = true)
  | [], oldKey, s, _ => ⟨oldKey, rfl, by simp⟩
  | key :: rest, oldKey, s, hstale => by
    unfold scanKeys
    by_cases ht : key.Title = title
    · by_cases hd : key.ReadOnly ≠ none ∧ key.ReadOnly ≠ some repository.ReadOnly
      · exact ⟨some key, by simp [ht, hd], fun _ => rfl⟩
      · obtain ⟨updated, t1, hupd, hle⟩ := hstale 0 (by simp [List.countP_cons, ht])
        rw [Function.iterate_zero, id] at hupd
        obtain ⟨old, h1, h2⟩ := scanKeys_stale repository title keyPath rest (some key) t1
          (by
            intro i hi
            have h := hstale (i + 1) (by simp [List.countP_cons, ht]; exact hi)
            rw [Function.iterate_succ_apply, hupd] at h
            exact h)
        refine ⟨old, ?_, fun _ => h2 (Or.inl rfl)⟩
        simp only [ht, hd, hupd, if_true, if_false, not_lt.2 hle, gt_iff_lt]
        exact h1
    · obtain ⟨old, h1, h2⟩ := scanKeys_stale repository title keyPath rest oldKey s
        (by
          intro i hi
          exact hstale i (by simpa [List.countP_cons, ht] using hi))
      refine ⟨old, by simpa [ht] using h1, ?_⟩
      rintro (h | ⟨k, hk, hkt⟩)
      · exact h2 (Or.inl h)
      · rcases List.mem_cons.1 hk with rfl | hk
        · exact absurd hkt ht
        · exact h2 (Or.inr ⟨k, hk, hkt⟩)

/-- The list-scan-rotate part makes no token call. -/
theorem rotateIfNeeded_kind (repository : Repository) (keyPath title : String) (s : σ) :
    ∀ e ∈ (rotateIfNeeded env repository keyPath title s).2,
      e.kind ≠ .createAccessToken ∧ e.kind ≠ .writeToken := by
  unfold rotateIfNeeded
  rcases h1 : env.manager.listKeys repository s with ⟨e | keys, s1⟩
  · simp
  · dsimp only
    have hk := scanKeys_kind env repository title keyPath keys none s1
    rcases h2 : scanKeys env repository title keyPath keys none s1 with ⟨_ | oldKey, s2, evs⟩
    · rw [h2] at hk
      intro e he
      rcases List.mem_cons.1 he with rfl | he
      · simp
      · rcases hk e he with h | h <;> simp [h]
    · rw [h2] at hk
      intro e he
      rcases List.mem_cons.1 he with rfl | he
      · simp
      · rcases List.mem_append.1 he with he | he
        · rcases hk e he with h | h <;> simp [h]
        · rcases rotate_kind env repository title keyPath oldKey s2 e he with
            h | h | h | h | h | h <;> simp [h]

/-- A successful token write is an event of kind `writeToken`. -/
theorem kind_of_isTokenStored (e : Event) (h : e.isTokenStored = true) :
    e.kind = .writeToken := by
  cases e with
  | writeSecret site p v ok => cases site <;> cases ok <;> simp_all [Event.isTokenStored]
  | _ => simp [Event.isTokenStored] at h

/-- What one iteration does to `tokenAdded`.  Either the map is unchanged and
no token write succeeded; or the owner was absent, is added, and the events
start with the successful mint and token write, the only token calls.  With
the owner present no token call is made at all. -/
theorem processRepository_token (tokenTemplate keyTemplate titleTemplate : String)
    (team : Team) (repository : Repository) (tokenAdded : TokenAdded) (s : σ) :
    ((processRepository env tokenTemplate keyTemplate titleTemplate team repository
        tokenAdded s).1 = tokenAdded ∧
      (∀ e ∈ (processRepository env tokenTemplate keyTemplate titleTemplate team repository
        tokenAdded s).2.2, e.isTokenStored = false) ∧
      (tokenAdded.lookup repository.Owner ≠ none →
        ∀ e ∈ (processRepository env tokenTemplate keyTemplate titleTemplate team repository
          tokenAdded s).2.2, e.kind ≠ .createAccessToken ∧ e.kind ≠ .writeToken)) ∨
    (tokenAdded.lookup repository.Owner = none ∧
      (processRepository env tokenTemplate keyTemplate titleTemplate team repository
        tokenAdded s).1 = (repository.Owner, true) :: tokenAdded ∧
      ∃ tokenPath token rest,
        env.NewTemplate team.Name repository.Name repository.Owner tokenTemplate
          = .ok tokenPath ∧
        (processRepository env tokenTemplate keyTemplate titleTemplate team repository
          tokenAdded s).2.2 =
          Event.createAccessToken repository.Owner true ::
            Event.writeSecret .token tokenPath token true :: rest ∧
        ∀ e ∈ rest, e.kind ≠ .createAccessToken ∧ e.kind ≠ .writeToken) := by
  rcases resolved_or_not env tokenTemplate keyTemplate titleTemplate team repository with
    ⟨tokenPath, keyPath, title, hT, hK, hTi⟩ | hfail
  · rw [processRepository_resolved env _ _ _ team repository tokenAdded s _ _ _ hT hK hTi]
    unfold ensureToken
    rcases hl : tokenAdded.lookup repository.Owner with _ | b
    · dsimp only
      rcases h1 : env.manager.createAccessToken repository.Owner s with ⟨e | token, s1⟩
      · left; simp [Event.isTokenStored]
      · dsimp only
        rcases h2 : env.manager.writeSecret tokenPath token s1 with ⟨_ | e, s2⟩
        · right
          exact ⟨rfl, rfl, tokenPath, token, _, hT, rfl,
            rotateIfNeeded_kind env repository keyPath title s2⟩
        · left; simp [Event.isTokenStored]
    · left
      dsimp only
      have hk := rotateIfNeeded_kind env repository keyPath title s
      refine ⟨rfl, ?_, fun _ => ?_⟩
      · intro e he
        rw [List.nil_append] at he
        by_contra hne
        exact (hk e he).2 (kind_of_isTokenStored e (by simpa using hne))
      · intro e he
        rw [List.nil_append] at he
        exact hk e he
  · obtain ⟨message, hm⟩ :=
      processRepository_unresolved env _ _ _ team repository tokenAdded s hfail
    left
    simp [hm, Event.isTokenStored]

/-- With the owner absent from `tokenAdded` and the templates resolved, the
iteration starts by minting. -/
theorem processRepository_mints (tokenTemplate keyTemplate titleTemplate : String)
    (team : Team) (repository : Repository) (tokenAdded : TokenAdded) (s : σ)
    (tokenPath keyPath title : String)
    (hToken : env.NewTemplate team.Name repository.Name repository.Owner tokenTemplate
      = .ok tokenPath)
    (hKey : env.NewTemplate team.Name repository.Name repository.Owner keyTemplate
      = .ok keyPath)
    (hTitle : env.NewTemplate team.Name repository.Name repository.Owner titleTemplate
      = .ok title)
    (habsent : tokenAdded.lookup repository.Owner = none) :
    ∃ ok rest, (processRepository env tokenTemplate keyTemplate titleTemplate team repository
      tokenAdded s).2.2 = Event.createAccessToken repository.Owner ok :: rest := by
  rw [processRepository_resolved env _ _ _ team repository tokenAdded s _ _ _ hToken hKey hTitle]
  unfold ensureToken
  rw [habsent]
  dsimp only
  rcases h1 : env.manager.createAccessToken repository.Owner s with ⟨e | token, s1⟩
  · exact ⟨false, _, rfl⟩
  · dsimp only
    rcases h2 : env.manager.writeSecret tokenPath token s1 with ⟨_ | e, s2⟩
    · exact ⟨true, _, rfl⟩
    · exact ⟨true, _, rfl⟩

/-- With the owner absent, the templates resolved and the mint or the token
write failing, the iteration stops there: `tokenAdded` is unchanged and the
events are token calls and a final warning. -/
theorem processRepository_token_failed (tokenTemplate keyTemplate titleTemplate : String)
    (team : Team) (repository : Repository) (tokenAdded : TokenAdded) (s : σ)
    (tokenPath keyPath title : String)
    (hToken : env.NewTemplate team.Name repository.Name repository.Owner tokenTemplate
      = .ok tokenPath)
    (hKey : env.NewTemplate team.Name repository.Name repository.Owner keyTemplate
      = .ok keyPath)
    (hTitle : env.NewTemplate team.Name repository.Name repository.Owner titleTemplate
      = .ok title)
    (habsent : tokenAdded.lookup repository.Owner = none)
    (hfail : (∃ e s1, env.manager.createAccessToken repository.Owner s = (.error e, s1)) ∨
      ∃ token s1 e s2, env.manager.createAccessToken repository.Owner s = (.ok token, s1) ∧
        env.manager.writeSecret tokenPath token s1 = (some e, s2)) :
    (processRepository env tokenTemplate keyTemplate titleTemplate team repository
      tokenAdded s).1 = tokenAdded ∧
    (∀ e ∈ (processRepository env tokenTemplate keyTemplate titleTemplate team repository
      tokenAdded s).2.2,
      e.kind = .createAccessToken ∨ e.kind = .writeToken ∨ e.kind = .warnf) ∧
    ∃ pre message, (processRepository env tokenTemplate keyTemplate titleTemplate team
      repository tokenAdded s).2.2 = pre ++ [Event.warnf message] := by
  rw [processRepository_resolved env _ _ _ team repository tokenAdded s _ _ _ hToken hKey hTitle]
  unfold ensureToken
  rw [habsent]
  dsimp only
  rcases hfail with ⟨e, s1, h1⟩ | ⟨token, s1, e, s2, h1, h2⟩
  · rw [h1]
    exact ⟨rfl, by simp, [_], _, rfl⟩
  · rw [h1]
    dsimp only
    rw [h2]
    exact ⟨rfl, by simp, [_, _], _, rfl⟩

/-- With the owner absent, the templates resolved and the mint and the token
write succeeding, the owner is added and the events are the mint, the token
write and then no further token call. -/
theorem processRepository_token_stored (tokenTemplate keyTemplate titleTemplate : String)
    (team : Team) (repository : Repository) (tokenAdded : TokenAdded) (s : σ)
    (tokenPath keyPath title : String)
    (hToken : env.NewTemplate team.Name repository.Name repository.Owner tokenTemplate
      = .ok tokenPath)
    (hKey : env.NewTemplate team.Name repository.Name repository.Owner keyTemplate
      = .ok keyPath)
    (hTitle : env.NewTemplate team.Name repository.Name repository.Owner titleTemplate
      = .ok title)
    (habsent : tokenAdded.lookup repository.Owner = none)
    (token : String) (s1 s2 : σ)
    (hmint : env.manager.createAccessToken repository.Owner s = (.ok token, s1))
    (hwrite : env.manager.writeSecret tokenPath token s1 = (none, s2)) :
    (processRepository env tokenTemplate keyTemplate titleTemplate team repository
      tokenAdded s).1 = (repository.Owner, true) :: tokenAdded ∧
    ∃ rest, (processRepository env tokenTemplate keyTemplate titleTemplate team repository
      tokenAdded s).2.2 =
        Event.createAccessToken repository.Owner true ::
          Event.writeSecret .token tokenPath token true :: rest ∧
      ∀ e ∈ rest, e.kind ≠ .createAccessToken ∧ e.kind ≠ .writeToken := by
  rw [processRepository_resolved env _ _ _ team repository tokenAdded s _ _ _ hToken hKey hTitle]
  unfold ensureToken
  rw [habsent]
  dsimp only
  rw [hmint]
  dsimp only
  rw [hwrite]
  exact ⟨rfl, _, rfl, rotateIfNeeded_kind env repository keyPath title s2⟩

/-- The loop over a concatenation runs the first part, then the second from
where the first ended. -/
theorem processRepositories_append (tokenTemplate keyTemplate titleTemplate : String)
    (team : Team) :
    ∀ (xs ys : List Repository) (tokenAdded : TokenAdded) (s : σ),
      processRepositories env tokenTemplate keyTemplate titleTemplate team (xs ++ ys)
        tokenAdded s =
      ((processRepositories env tokenTemplate keyTemplate titleTemplate team ys
          (processRepositories env tokenTemplate keyTemplate titleTemplate team xs
            tokenAdded s).1
          (processRepositories env tokenTemplate keyTemplate titleTemplate team xs
            tokenAdded s).2.1).1,
       (processRepositories env tokenTemplate keyTemplate titleTemplate team ys
          (processRepositories env tokenTemplate keyTemplate titleTemplate team xs
            tokenAdded s).1
          (processRepositories env tokenTemplate keyTemplate titleTemplate team xs
            tokenAdded s).2.1).2.1,
       (processRepositories env tokenTemplate keyTemplate titleTemplate team xs
          tokenAdded s).2.2 ++
       (processRepositories env tokenTemplate keyTemplate titleTemplate team ys
          (processRepositories env tokenTemplate keyTemplate titleTemplate team xs
            tokenAdded s).1
          (processRepositories env tokenTemplate keyTemplate titleTemplate team xs
            tokenAdded s).2.1).2.2)
  | [], ys, tokenAdded, s => by simp [processRepositories]
  | x :: xs, ys, tokenAdded, s => by
    simp only [List.cons_append, processRepositories, List.append_eq]
    rw [processRepositories_append tokenTemplate keyTemplate titleTemplate team xs ys]

/-- The trace of the loop has one entry per repository. -/
theorem processRepositories_length (tokenTemplate keyTemplate titleTemplate : String)
    (team : Team) :
    ∀ (xs : List Repository) (tokenAdded : TokenAdded) (s : σ),
      (processRepositories env tokenTemplate keyTemplate titleTemplate team xs
        tokenAdded s).2.2.length = xs.length
  | [], _, _ => rfl
  | x :: xs, tokenAdded, s => by
    simp only [processRepositories, List.length_cons]
    rw [processRepositories_length tokenTemplate keyTemplate titleTemplate team xs]

/-- Repositories of other owners, and repositories whose templates do not
resolve, leave an absent owner absent. -/
theorem processRepositories_absent (tokenTemplate keyTemplate titleTemplate : String)
    (team : Team) (owner : String) :
    ∀ (xs : List Repository) (tokenAdded : TokenAdded) (s : σ),
      tokenAdded.lookup owner = none →
      (∀ r ∈ xs, r.Owner ≠ owner ∨
        ((∃ e, env.NewTemplate team.Name r.Name r.Owner tokenTemplate = .error e) ∨
         (∃ e, env.NewTemplate team.Name r.Name r.Owner keyTemplate = .error e) ∨
         (∃ e, env.NewTemplate team.Name r.Name r.Owner titleTemplate = .error e))) →
      (processRepositories env tokenTemplate keyTemplate titleTemplate team xs
        tokenAdded s).1.lookup owner = none
  | [], _, _, h, _ => h
  | x :: xs, tokenAdded, s, h, hxs => by
    simp only [processRepositories]
    apply processRepositories_absent tokenTemplate keyTemplate titleTemplate team owner xs
    · rcases hxs x (List.mem_cons_self _ _) with hne | hfail
      · rcases processRepository_token env tokenTemplate keyTemplate titleTemplate team x
          tokenAdded s with ⟨h1, -⟩ | ⟨-, h1, -⟩
        · rw [h1]; exact h
        · rw [h1, List.lookup_cons]
          have : (owner == x.Owner) = false := by
            simpa using fun hh : owner = x.Owner => hne hh.symm
          rw [this]
          exact h
      · obtain ⟨message, hm⟩ :=
          processRepository_unresolved env _ _ _ team x tokenAdded s hfail
        rw [hm]; exact h
    · exact fun r hr => hxs r (List.mem_cons_of_mem _ hr)

/-- Once an owner is in `tokenAdded`, no later iteration of a repository of
that owner makes a token call. -/
theorem processRepositories_present (tokenTemplate keyTemplate titleTemplate : String)
    (team : Team) (owner : String) :
    ∀ (xs : List Repository) (tokenAdded : TokenAdded) (s : σ),
      tokenAdded.lookup owner ≠ none →
      ∀ entry ∈ (processRepositories env tokenTemplate keyTemplate titleTemplate team xs
        tokenAdded s).2.2, entry.1.Owner = owner →
        ∀ e ∈ entry.2, e.kind ≠ .createAccessToken ∧ e.kind ≠ .writeToken
  | [], _, _, _ => by simp [processRepositories]
  | x :: xs, tokenAdded, s, h => by
    intro entry hentry howner
    simp only [processRepositories, List.mem_cons] at hentry
    rcases processRepository_token env tokenTemplate keyTemplate titleTemplate team x
      tokenAdded s with ⟨h1, -, h3⟩ | ⟨h0, h1, -⟩
    · rcases hentry with rfl | hentry
      · dsimp only at howner ⊢
        exact h3 (by rw [howner]; exact h)
      · rw [h1] at hentry
        exact processRepositories_present tokenTemplate keyTemplate titleTemplate team owner
          xs tokenAdded _ h entry hentry howner
    · rcases hentry with rfl | hentry
      · dsimp only at howner
        rw [howner] at h0
        exact absurd h0 h
      · rw [h1] at hentry
        refine processRepositories_present tokenTemplate keyTemplate titleTemplate team owner
          xs _ _ ?_ entry hentry howner
        rw [List.lookup_cons]
        cases owner == x.Owner
        · exact h
        · simp

/-- An iteration of a repository of another owner does not change whether
an owner is in `tokenAdded`. -/
theorem processRepository_lookup_other (tokenTemplate keyTemplate titleTemplate : String)
    (team : Team) (repository : Repository) (tokenAdded : TokenAdded) (s : σ)
    (owner : String) (hne : repository.Owner ≠ owner) :
    (processRepository env tokenTemplate keyTemplate titleTemplate team repository
      tokenAdded s).1.lookup owner = tokenAdded.lookup owner := by
  rcases processRepository_token env tokenTemplate keyTemplate titleTemplate team repository
    tokenAdded s with ⟨h1, -⟩ | ⟨-, h1, -⟩
  · rw [h1]
  · rw [h1, List.lookup_cons]
    have : (owner == repository.Owner) = false := by
      simpa using fun hh : owner = repository.Owner => hne hh.symm
    rw [this]

/-- Counting the calls of an owner, entry by entry. -/
theorem ownerCalls_cons (k : Kind) (owner : String) (r : Repository) (evs : List Event)
    (trace : List (Repository × List Event)) :
    ownerCalls k owner ((r, evs) :: trace) =
      (if r.Owner = owner then evs.countP (fun e => decide (e.kind = k)) else 0) +
        ownerCalls k owner trace := by
  unfold ownerCalls
  by_cases h : r.Owner = owner <;> simp [List.filter_cons, h]

/-- Counting the stored tokens of an owner, entry by entry. -/
theorem ownerTokenStored_cons (owner : String) (r : Repository) (evs : List Event)
    (trace : List (Repository × List Event)) :
    ownerTokenStored owner ((r, evs) :: trace) =
      (if r.Owner = owner then evs.countP Event.isTokenStored else 0) +
        ownerTokenStored owner trace := by
  unfold ownerTokenStored
  by_cases h : r.Owner = owner <;> simp [List.filter_cons, h]

/-- No call of a kind in the iterations of an owner, none counted. -/
theorem ownerCalls_eq_zero (k : Kind) (owner : String) :
    ∀ (trace : List (Repository × List Event)),
      (∀ entry ∈ trace, entry.1.Owner = owner → ∀ e ∈ entry.2, e.kind ≠ k) →
      ownerCalls k owner trace = 0
  | [], _ => rfl
  | (r, evs) :: trace, h => by
    rw [ownerCalls_cons, ownerCalls_eq_zero k owner trace
      (fun entry he => h entry (List.mem_cons_of_mem _ he))]
    by_cases ho : r.Owner = owner
    · simp only [ho, if_true, add_zero]
      exact countP_kind_eq_zero k evs (h (r, evs) (List.mem_cons_self _ _) ho)
    · simp [ho]

/-- No token write in the iterations of an owner, none stored. -/
theorem ownerTokenStored_eq_zero (owner : String) :
    ∀ (trace : List (Repository × List Event)),
      (∀ entry ∈ trace, entry.1.Owner = owner → ∀ e ∈ entry.2, e.kind ≠ .writeToken) →
      ownerTokenStored owner trace = 0
  | [], _ => rfl
  | (r, evs) :: trace, h => by
    rw [ownerTokenStored_cons, ownerTokenStored_eq_zero owner trace
      (fun entry he => h entry (List.mem_cons_of_mem _ he))]
    by_cases ho : r.Owner = owner
    · simp only [ho, if_true, add_zero]
      rw [List.countP_eq_zero]
      intro e he hst
      exact h (r, evs) (List.mem_cons_self _ _) ho e he (kind_of_isTokenStored e hst)
    · simp [ho]

/-- In every run of the loop at most one token write succeeds for an owner. -/
theorem ownerTokenStored_le_one (tokenTemplate keyTemplate titleTemplate : String)
    (team : Team) (owner : String) :
    ∀ (xs : List Repository) (tokenAdded : TokenAdded) (s : σ),
      ownerTokenStored owner (processRepositories env tokenTemplate keyTemplate titleTemplate
        team xs tokenAdded s).2.2 ≤ 1
  | [], _, _ => by simp [processRepositories, ownerTokenStored]
  | x :: xs, tokenAdded, s => by
    simp only [processRepositories]
    rw [ownerTokenStored_cons]
    have ih := ownerTokenStored_le_one tokenTemplate keyTemplate titleTemplate team owner xs
      (processRepository env tokenTemplate keyTemplate titleTemplate team x tokenAdded s).1
      (processRepository env tokenTemplate keyTemplate titleTemplate team x tokenAdded s).2.1
    by_cases ho : x.Owner = owner
    · simp only [ho, if_true]
      rcases processRepository_token env tokenTemplate keyTemplate titleTemplate team x
        tokenAdded s with ⟨-, h2, -⟩ | ⟨-, h1, tokenPath, token, rest, -, hev, hrest⟩
      · rw [List.countP_eq_zero.2 (fun e he => by simp [h2 e he])]
        simpa using ih
      · have hzero : ownerTokenStored owner
            (processRepositories env tokenTemplate keyTemplate titleTemplate team xs
              (processRepository env tokenTemplate keyTemplate titleTemplate team x
                tokenAdded s).1
              (processRepository env tokenTemplate keyTemplate titleTemplate team x
                tokenAdded s).2.1).2.2 = 0 := by
          apply ownerTokenStored_eq_zero
          intro entry hentry howner e he
          refine (processRepositories_present env tokenTemplate keyTemplate titleTemplate team
            owner xs _ _ ?_ entry hentry howner e he).2
          rw [h1, List.lookup_cons, ← ho]
          simp
        rw [hzero, hev]
        have hr : rest.countP Event.isTokenStored = 0 := by
          rw [List.countP_eq_zero]
          intro e he hst
          exact (hrest e he).2 (kind_of_isTokenStored e hst)
        simp [List.countP_cons, hr, Event.isTokenStored]
    · simpa [ho] using ih

/-- When the templates of the owner's repositories resolve and the mint and
the token write succeed, a loop that starts with the owner absent and meets
one of its repositories makes exactly one call of kind `k`, for `k` the mint
or the token write. -/
theorem ownerCalls_eq_one (tokenTemplate keyTemplate titleTemplate : String)
    (team : Team) (owner : String) (k : Kind)
    (hk : k = .createAccessToken ∨ k = .writeToken)
    (hmint : ∀ t, ∃ token t1, env.manager.createAccessToken owner t = (.ok token, t1)) :
    ∀ (xs : List Repository) (tokenAdded : TokenAdded) (s : σ),
      tokenAdded.lookup owner = none →
      (∃ r ∈ xs, r.Owner = owner) →
      (∀ r ∈ xs, r.Owner = owner → ∃ tokenPath keyPath title,
        env.NewTemplate team.Name r.Name r.Owner tokenTemplate = .ok tokenPath ∧
        env.NewTemplate team.Name r.Name r.Owner keyTemplate = .ok keyPath ∧
        env.NewTemplate team.Name r.Name r.Owner titleTemplate = .ok title ∧
        ∀ token t, ∃ t1, env.manager.writeSecret tokenPath token t = (none, t1)) →
      ownerCalls k owner (processRepositories env tokenTemplate keyTemplate titleTemplate
        team xs tokenAdded s).2.2 = 1
  | [], _, _, _, hex, _ => by simp at hex
  | x :: xs, tokenAdded, s, habsent, hex, hok => by
    simp only [processRepositories]
    rw [ownerCalls_cons]
    by_cases ho : x.Owner = owner
    · obtain ⟨tokenPath, keyPath, title, hT, hK, hTi, hwrite⟩ :=
        hok x (List.mem_cons_self _ _) ho
      obtain ⟨token, s1, hm⟩ := hmint s
      obtain ⟨s2, hw⟩ := hwrite token s1
      rw [← ho] at hm habsent
      obtain ⟨h1, rest, hev, hrest⟩ := processRepository_token_stored env tokenTemplate
        keyTemplate titleTemplate team x tokenAdded s tokenPath keyPath title hT hK hTi
        habsent token s1 s2 hm hw
      have hzero : ownerCalls k owner
          (processRepositories env tokenTemplate keyTemplate titleTemplate team xs
            (processRepository env tokenTemplate keyTemplate titleTemplate team x
              tokenAdded s).1
            (processRepository env tokenTemplate keyTemplate titleTemplate team x
              tokenAdded s).2.1).2.2 = 0 := by
        apply ownerCalls_eq_zero
        intro entry hentry howner e he
        have := processRepositories_present env tokenTemplate keyTemplate titleTemplate team
          owner xs _ _ (by rw [h1, List.lookup_cons, ← ho]; simp) entry hentry howner e he
        rcases hk with rfl | rfl
        · exact this.1
        · exact this.2
      have hr : rest.countP (fun e => decide (e.kind = k)) = 0 := by
        apply countP_kind_eq_zero
        intro e he
        rcases hk with rfl | rfl
        · exact (hrest e he).1
        · exact (hrest e he).2
      rw [hzero, hev]
      simp only [ho, if_true, add_zero]
      rcases hk with rfl | rfl <;> simp [List.countP_cons, hr]
    · simp only [ho, if_false, zero_add]
      apply ownerCalls_eq_one tokenTemplate keyTemplate titleTemplate team owner k hk hmint xs
      · rw [processRepository_lookup_other env _ _ _ team x tokenAdded s owner ho]
        exact habsent
      · obtain ⟨r, hr, hro⟩ := hex
        rcases List.mem_cons.1 hr with rfl | hr
        · exact absurd hro ho
        · exact ⟨r, hr, hro⟩
      · exact fun r hr => hok r (List.mem_cons_of_mem _ hr)

/-- A list with a single event satisfying `p` splits at that event in one
way. -/
theorem split_unique_of (p : Event → Bool) :
    ∀ (xs : List Event) (d : Event) (ys pre : List Event) (d1 : Event) (post : List Event),
      (∀ e ∈ xs, p e = false) → (∀ e ∈ ys, p e = false) → p d1 = true →
      xs ++ d :: ys = pre ++ d1 :: post → pre = xs ∧ d1 = d ∧ post = ys
  | [], d, ys, pre, d1, post, _, hys, hd1, h => by
    cases pre with
    | nil =>
      simp only [List.nil_append, List.cons.injEq] at h
      exact ⟨rfl, h.1.symm, h.2.symm⟩
    | cons a pre1 =>
      simp only [List.nil_append, List.cons_append, List.cons.injEq] at h
      have := hys d1 (by rw [h.2]; simp)
      rw [hd1] at this
      cases this
  | x :: xs, d, ys, pre, d1, post, hxs, hys, hd1, h => by
    cases pre with
    | nil =>
      simp only [List.nil_append, List.cons_append, List.cons.injEq] at h
      have := hxs x (by simp)
      rw [h.1, hd1] at this
      cases this
    | cons a pre1 =>
      simp only [List.cons_append, List.cons.injEq] at h
      obtain ⟨h1, h2, h3⟩ := split_unique_of p xs d ys pre1 d1 post
        (fun e he => hxs e (List.mem_cons_of_mem _ he)) hys hd1 h.2
      exact ⟨by rw [h.1, h1], h2, h3⟩

/-- A failed step of the rotate sequence is a generate, publish, persist or
delete event. -/
theorem kind_of_isFailedStep (e : Event) (h : e.isFailedStep = true) :
    e.kind = .generateKeyPair ∨ e.kind = .createKey ∨ e.kind = .writeKey ∨
      e.kind = .deleteKey := by
  cases e with
  | writeSecret site p v ok => cases site <;> cases ok <;> simp_all [Event.isFailedStep]
  | generateKeyPair t r => simp
  | createKey r t p ok => simp
  | deleteKey r i ok => simp
  | _ => simp [Event.isFailedStep] at h

/-- The complete case split of one iteration.  Either it never reaches the
rotate sequence and consists of token calls, `listKeys`, `getLastUpdated` and
warnings; or the templates resolve, the token step passes, the keys are
listed, the scan ends with verdict `rotate`, and the events are those of the
token step, `listKeys`, the scan and the rotate sequence. -/
theorem processRepository_cases (tokenTemplate keyTemplate titleTemplate : String)
    (team : Team) (repository : Repository) (tokenAdded : TokenAdded) (s : σ) :
    (∀ e ∈ (processRepository env tokenTemplate keyTemplate titleTemplate team repository
        tokenAdded s).2.2,
      e.kind = .createAccessToken ∨ e.kind = .writeToken ∨ e.kind = .warnf ∨
      e.kind = .listKeys ∨ e.kind = .getLastUpdated) ∨
    ∃ tokenPath keyPath title added s1 evs keys s2 oldKey s3 evs2,
      env.NewTemplate team.Name repository.Name repository.Owner tokenTemplate
        = .ok tokenPath ∧
      env.NewTemplate team.Name repository.Name repository.Owner keyTemplate = .ok keyPath ∧
      env.NewTemplate team.Name repository.Name repository.Owner titleTemplate = .ok title ∧
      ensureToken env tokenPath repository tokenAdded s = (true, added, s1, evs) ∧
      env.manager.listKeys repository s1 = (.ok keys, s2) ∧
      scanKeys env repository title keyPath keys none s2 = (.rotate oldKey, s3, evs2) ∧
      (processRepository env tokenTemplate keyTemplate titleTemplate team repository
        tokenAdded s).2.2 =
        (evs ++ Event.listKeys repository true :: evs2) ++
          (rotate env repository title keyPath oldKey s3).2 ∧
      ∀ e ∈ evs ++ Event.listKeys repository true :: evs2,
        e.kind = .createAccessToken ∨ e.kind = .writeToken ∨ e.kind = .warnf ∨
        e.kind = .listKeys ∨ e.kind = .getLastUpdated := by
  rcases resolved_or_not env tokenTemplate keyTemplate titleTemplate team repository with
    ⟨tokenPath, keyPath, title, hT, hK, hTi⟩ | hfail
  · have hk := ensureToken_kind env tokenPath repository tokenAdded s
    rcases h1 : ensureToken env tokenPath repository tokenAdded s with ⟨_ | _, added, s1, evs⟩
    · left
      rw [processRepository_resolved env _ _ _ team repository tokenAdded s _ _ _ hT hK hTi, h1]
      rw [h1] at hk
      intro e he
      rcases hk e he with h | h | h <;> simp [h]
    · rw [h1] at hk
      rcases h2 : env.manager.listKeys repository s1 with ⟨err | keys, s2⟩
      · left
        rw [processRepository_resolved env _ _ _ team repository tokenAdded s _ _ _ hT hK hTi,
          h1]
        dsimp only
        unfold rotateIfNeeded
        rw [h2]
        intro e he
        rcases List.mem_append.1 he with he | he
        · rcases hk e he with h | h | h <;> simp [h]
        · simp only [List.mem_cons, List.mem_singleton, List.not_mem_nil, or_false] at he
          rcases he with rfl | rfl <;> simp
      · have hs := scanKeys_kind env repository title keyPath keys none s2
        have hres := processRepository_listed env _ _ _ team repository tokenAdded s _ _ _
          hT hK hTi added s1 evs h1 keys s2 h2
        rcases h3 : scanKeys env repository title keyPath keys none s2 with
          ⟨_ | oldKey, s3, evs2⟩
        · left
          rw [hres, h3]
          rw [h3] at hs
          intro e he
          rcases List.mem_append.1 he with he | he
          · rcases hk e he with h | h | h <;> simp [h]
          · rcases List.mem_cons.1 he with rfl | he
            · simp
            · rcases hs e he with h | h <;> simp [h]
        · right
          rw [h3] at hs
          refine ⟨tokenPath, keyPath, title, added, s1, evs, keys, s2, oldKey, s3, evs2,
            hT, hK, hTi, h1, h2, h3, ?_, ?_⟩
          · rw [hres, h3]
            simp
          · intro e he
            rcases List.mem_append.1 he with he | he
            · rcases hk e he with h | h | h <;> simp [h]
            · rcases List.mem_cons.1 he with rfl | he
              · simp
              · rcases hs e he with h | h <;> simp [h]
  · obtain ⟨message, hm⟩ :=
      processRepository_unresolved env _ _ _ team repository tokenAdded s hfail
    left
    simp [hm]

/-- The rotate sequence either has no failed step, or ends with its first
failed step followed by one warning. -/
theorem rotate_failed_shape (repository : Repository) (title keyPath : String)
    (oldKey : Option Key) (s : σ) :
    (∀ e ∈ (rotate env repository title keyPath oldKey s).2, e.isFailedStep = false) ∨
    ∃ pre f message,
      (rotate env repository title keyPath oldKey s).2 = pre ++ [f, Event.warnf message] ∧
      ∀ e ∈ pre, e.isFailedStep = false := by
  unfold rotate
  rcases h1 : env.manager.generateKeyPair title s with ⟨e | ⟨priv, pub⟩, s1⟩
  · right; exact ⟨[], _, _, rfl, by simp⟩
  · dsimp only
    rcases h2 : env.manager.createKey repository title pub s1 with ⟨_ | e, s2⟩
    · dsimp only
      rcases h3 : env.manager.writeSecret keyPath priv s2 with ⟨_ | e, s3⟩
      · cases oldKey with
        | none => left; simp [Event.isFailedStep]
        | some old =>
          dsimp only
          rcases h4 : env.manager.deleteKey repository old.ID (env.sleep (second * 1) s3)
            with ⟨_ | e, s4⟩
          · left; simp [Event.isFailedStep]
          · right
            exact ⟨[_, _, _, _], _, _, rfl, by simp [Event.isFailedStep]⟩
      · right; exact ⟨[_, _], _, _, rfl, by simp [Event.isFailedStep]⟩
    · right; exact ⟨[_], _, _, rfl, by simp [Event.isFailedStep]⟩

/-- The trace of the loop lists the repositories in order. -/
theorem processRepositories_fst (tokenTemplate keyTemplate titleTemplate : String)
    (team : Team) :
    ∀ (xs : List Repository) (tokenAdded : TokenAdded) (s : σ),
      (processRepositories env tokenTemplate keyTemplate titleTemplate team xs
        tokenAdded s).2.2.map Prod.fst = xs
  | [], _, _ => rfl
  | x :: xs, tokenAdded, s => by
    simp only [processRepositories, List.map_cons]
    rw [processRepositories_fst tokenTemplate keyTemplate titleTemplate team xs]

/-- The rotate sequence sleeps and deletes exactly when there is an old key
and generate, publish and persist succeed; otherwise it does neither. -/
theorem rotate_sleep_cases (repository : Repository) (title keyPath : String)
    (oldKey : Option Key) (s : σ) :
    (∃ old priv pub s1 s2 s3, oldKey = some old ∧
      env.manager.generateKeyPair title s = (.ok (priv, pub), s1) ∧
      env.manager.createKey repository title pub s1 = (none, s2) ∧
      env.manager.writeSecret keyPath priv s2 = (none, s3)) ∨
    ((¬ ∃ old priv pub s1 s2 s3, oldKey = some old ∧
      env.manager.generateKeyPair title s = (.ok (priv, pub), s1) ∧
      env.manager.createKey repository title pub s1 = (none, s2) ∧
      env.manager.writeSecret keyPath priv s2 = (none, s3)) ∧
      ∀ e ∈ (rotate env repository title keyPath oldKey s).2,
        e.kind ≠ .sleep ∧ e.kind ≠ .deleteKey) := by
  unfold rotate
  rcases h1 : env.manager.generateKeyPair title s with ⟨e | ⟨priv, pub⟩, s1⟩
  · right
    refine ⟨?_, by simp⟩
    rintro ⟨_, _, _, _, _, _, _, h, _⟩
    cases h
  · dsimp only
    rcases h2 : env.manager.createKey repository title pub s1 with ⟨_ | e, s2⟩
    · dsimp only
      rcases h3 : env.manager.writeSecret keyPath priv s2 with ⟨_ | e, s3⟩
      · cases oldKey with
        | none =>
          right
          refine ⟨?_, by simp⟩
          rintro ⟨_, _, _, _, _, _, h, _⟩
          cases h
        | some old =>
          left
          exact ⟨old, priv, pub, s1, s2, s3, rfl, rfl, h2, h3⟩
      · right
        refine ⟨?_, by simp⟩
        rintro ⟨_, p, q, t1, t2, t3, _, hg, hc, hw⟩
        simp only [Prod.mk.injEq, Except.ok.injEq] at hg
        obtain ⟨⟨rfl, rfl⟩, rfl⟩ := hg
        rw [h2] at hc
        simp only [Prod.mk.injEq, true_and] at hc
        subst hc
        rw [h3] at hw
        simp at hw
    · right
      refine ⟨?_, by simp⟩
      rintro ⟨_, p, q, t1, t2, t3, _, hg, hc, hw⟩
      simp only [Prod.mk.injEq, Except.ok.injEq] at hg
      obtain ⟨⟨rfl, rfl⟩, rfl⟩ := hg
      rw [h2] at hc
      simp at hc

/-- A token step without a failed call logs no warning. -/
theorem ensureToken_quiet (tokenPath : String) (repository : Repository)
    (tokenAdded : TokenAdded) (s : σ)
    (h : ∀ e ∈ (ensureToken env tokenPath repository tokenAdded s).2.2.2, e.failed = false) :
    ∀ e ∈ (ensureToken env tokenPath repository tokenAdded s).2.2.2, e.kind ≠ .warnf := by
  revert h
  unfold ensureToken
  cases tokenAdded.lookup repository.Owner with
  | some b => simp
  | none =>
    rcases h1 : env.manager.createAccessToken repository.Owner s with ⟨_ | token, s1⟩
    · simp [Event.failed]
    · dsimp only
      rcases h2 : env.manager.writeSecret tokenPath token s1 with ⟨_ | e, s2⟩ <;>
        simp [Event.failed]

/-- A scan without a failed call logs no warning. -/
theorem scanKeys_quiet (repository : Repository) (title keyPath : String) :
    ∀ (keys : List Key) (oldKey : Option Key) (s : σ),
      (∀ e ∈ (scanKeys env repository title keyPath keys oldKey s).2.2, e.failed = false) →
      ∀ e ∈ (scanKeys env repository title keyPath keys oldKey s).2.2, e.kind ≠ .warnf
  | [], _, _ => by simp [scanKeys]
  | key :: rest, oldKey, s => by
    unfold scanKeys
    by_cases ht : key.Title = title
    · by_cases hd : key.ReadOnly ≠ none ∧ key.ReadOnly ≠ some repository.ReadOnly
      · simp [ht, hd]
      · rcases h1 : env.manager.getLastUpdated keyPath s with ⟨e | updated, s1⟩
        · by_cases hc : e.code = some ErrCodeResourceNotFoundException <;>
            simp [ht, hd, hc, Event.failed]
        · by_cases hf : updated > env.AddDate 0 0 (-7) (env.now s1)
          · simp [ht, hd, hf]
          · have ih := scanKeys_quiet repository title keyPath rest (some key) s1
            simp only [ht, hd, hf, if_true, if_false, List.mem_cons]
            intro h e he
            rcases he with rfl | he
            · simp
            · exact ih (fun x hx => h x (Or.inr hx)) e he
    · simpa [ht] using scanKeys_quiet repository title keyPath rest oldKey s

/-- A rotate sequence without a failed call logs no warning. -/
theorem rotate_quiet (repository : Repository) (title keyPath : String)
    (oldKey : Option Key) (s : σ)
    (h : ∀ e ∈ (rotate env repository title keyPath oldKey s).2, e.failed = false) :
    ∀ e ∈ (rotate env repository title keyPath oldKey s).2, e.kind ≠ .warnf := by
  revert h
  unfold rotate
  rcases h1 : env.manager.generateKeyPair title s with ⟨e | ⟨priv, pub⟩, s1⟩
  · simp [Event.failed]
  · dsimp only
    rcases h2 : env.manager.createKey repository title pub s1 with ⟨_ | e, s2⟩
    · dsimp only
      rcases h3 : env.manager.writeSecret keyPath priv s2 with ⟨_ | e, s3⟩
      · cases oldKey with
        | none => simp
        | some old =>
          dsimp only
          rcases h4 : env.manager.deleteKey repository old.ID (env.sleep (second * 1) s3)
            with ⟨_ | e, s4⟩ <;> simp [Event.failed]
      · simp [Event.failed]
    · simp [Event.failed]

/-- A list-scan-rotate part without a failed call logs no warning. -/
theorem rotateIfNeeded_quiet (repository : Repository) (keyPath title : String) (s : σ)
    (h : ∀ e ∈ (rotateIfNeeded env repository keyPath title s).2, e.failed = false) :
    ∀ e ∈ (rotateIfNeeded env repository keyPath title s).2, e.kind ≠ .warnf := by
  revert h
  unfold rotateIfNeeded
  rcases h1 : env.manager.listKeys repository s with ⟨e | keys, s1⟩
  · simp [Event.failed]
  · dsimp only
    have hs := scanKeys_quiet env repository title keyPath keys none s1
    rcases h2 : scanKeys env repository title keyPath keys none s1 with ⟨_ | oldKey, s2, evs⟩
    · rw [h2] at hs
      intro h e he
      rcases List.mem_cons.1 he with rfl | he
      · simp
      · exact hs (fun x hx => h x (List.mem_cons_of_mem _ hx)) e he
    · rw [h2] at hs
      intro h e he
      rcases List.mem_cons.1 he with rfl | he
      · simp
      · rcases List.mem_append.1 he with he | he
        · exact hs (fun x hx => h x (List.mem_cons_of_mem _ (List.mem_append_left _ hx))) e he
        · exact rotate_quiet env repository title keyPath oldKey s2
            (fun x hx => h x (List.mem_cons_of_mem _ (List.mem_append_right _ hx))) e he

/-- An iteration whose templates resolve and in which no call fails logs no
warning. -/
theorem processRepository_quiet (tokenTemplate keyTemplate titleTemplate : String)
    (team : Team) (repository : Repository) (tokenAdded : TokenAdded) (s : σ)
    (tokenPath keyPath title : String)
    (hToken : env.NewTemplate team.Name repository.Name repository.Owner tokenTemplate
      = .ok tokenPath)
    (hKey : env.NewTemplate team.Name repository.Name repository.Owner keyTemplate
      = .ok keyPath)
    (hTitle : env.NewTemplate team.Name repository.Name repository.Owner titleTemplate
      = .ok title)
    (h : ∀ e ∈ (processRepository env tokenTemplate keyTemplate titleTemplate team repository
      tokenAdded s).2.2, e.failed = false) :
    ∀ e ∈ (processRepository env tokenTemplate keyTemplate titleTemplate team repository
      tokenAdded s).2.2, e.kind ≠ .warnf := by
  revert h
  rw [processRepository_resolved env _ _ _ team repository tokenAdded s _ _ _ hToken hKey hTitle]
  have ht := ensureToken_quiet env tokenPath repository tokenAdded s
  rcases h1 : ensureToken env tokenPath repository tokenAdded s with ⟨_ | _, added, s1, evs⟩
  · rw [h1] at ht
    exact ht
  · rw [h1] at ht
    dsimp only at ht ⊢
    intro h e he
    rcases List.mem_append.1 he with he | he
    · exact ht (fun x hx => h x (List.mem_append_left _ hx)) e he
    · exact rotateIfNeeded_quiet env repository keyPath title s1
        (fun x hx => h x (List.mem_append_right _ hx)) e he

/-- Every entry of the trace of the loop belongs to a repository of the list
and is the trace of one iteration from some `tokenAdded` and world. -/
theorem mem_processRepositories_repo (tokenTemplate keyTemplate titleTemplate : String)
    (team : Team) :
    ∀ (repositories : List Repository) (tokenAdded : TokenAdded) (s : σ)
      (repository : Repository) (events : List Event),
      (repository, events) ∈ (processRepositories env tokenTemplate keyTemplate titleTemplate
        team repositories tokenAdded s).2.2 →
      repository ∈ repositories ∧
      ∃ added s1, events = (processRepository env tokenTemplate keyTemplate titleTemplate
        team repository added s1).2.2
  | [], _, _, _, _ => by simp [processRepositories]
  | r :: rest, tokenAdded, s, repository, events => by
    intro h
    simp only [processRepositories, List.mem_cons, Prod.mk.injEq] at h
    rcases h with ⟨rfl, rfl⟩ | h
    · exact ⟨List.mem_cons_self _ _, tokenAdded, s, rfl⟩
    · obtain ⟨h1, h2⟩ := mem_processRepositories_repo tokenTemplate keyTemplate titleTemplate
        team rest _ _ _ _ h
      exact ⟨List.mem_cons_of_mem _ h1, h2⟩

/-- The old key the scan ends with is the incoming one or a listed key with
the title. -/
theorem scanKeys_old_mem (repository : Repository) (title keyPath : String) :
    ∀ (keys : List Key) (oldKey : Option Key) (s : σ) (k : Key),
      (scanKeys env repository title keyPath keys oldKey s).1 = .rotate (some k) →
      oldKey = some k ∨ (k ∈ keys ∧ k.Title = title)
  | [], oldKey, s, k => by
    intro h
    simp only [scanKeys, Verdict.rotate.injEq] at h
    exact Or.inl h
  | key :: rest, oldKey, s, k => by
    unfold scanKeys
    by_cases ht : key.Title = title
    · by_cases hd : key.ReadOnly ≠ none ∧ key.ReadOnly ≠ some repository.ReadOnly
      · intro h
        simp [ht, hd] at h
        subst h
        exact Or.inr ⟨List.mem_cons_self _ _, ht⟩
      · rcases h1 : env.manager.getLastUpdated keyPath s with ⟨e | updated, s1⟩
        · by_cases hc : e.code = some ErrCodeResourceNotFoundException
          · intro h
            simp [ht, hd, hc] at h
            subst h
            exact Or.inr ⟨List.mem_cons_self _ _, ht⟩
          · intro h
            simp [ht, hd, hc] at h
            subst h
            exact Or.inr ⟨List.mem_cons_self _ _, ht⟩
        · by_cases hf : updated > env.AddDate 0 0 (-7) (env.now s1)
          · simp [ht, hd, hf]
          · intro h
            simp only [ht, hd, hf, if_true, if_false] at h
            rcases scanKeys_old_mem repository title keyPath rest (some key) s1 k h with h | h
            · simp only [Option.some.injEq] at h
              subst h
              exact Or.inr ⟨List.mem_cons_self _ _, ht⟩
            · exact Or.inr ⟨List.mem_cons_of_mem _ h.1, h.2⟩
    · simp only [ht, if_false]
      intro h
      rcases scanKeys_old_mem repository title keyPath rest oldKey s k h with h | h
      · exact Or.inl h
      · exact Or.inr ⟨List.mem_cons_of_mem _ h.1, h.2⟩

/-- When a template does not resolve the events of the iteration do not
depend on `tokenAdded`. -/
theorem processRepository_unresolved_events (tokenTemplate keyTemplate titleTemplate : String)
    (team : Team) (repository : Repository) (c c1 : TokenAdded) (s : σ)
    (hfail : (∃ e, env.NewTemplate team.Name repository.Name repository.Owner tokenTemplate
        = .error e) ∨
      (∃ e, env.NewTemplate team.Name repository.Name repository.Owner keyTemplate
        = .error e) ∨
      (∃ e, env.NewTemplate team.Name repository.Name repository.Owner titleTemplate
        = .error e)) :
    (processRepository env tokenTemplate keyTemplate titleTemplate team repository c s).2.2 =
      (processRepository env tokenTemplate keyTemplate titleTemplate team repository c1 s).2.2 := by
  unfold processRepository
  rcases h1 : env.NewTemplate team.Name repository.Name repository.Owner tokenTemplate
    with e1 | tokenPath
  · rfl
  · rcases h2 : env.NewTemplate team.Name repository.Name repository.Owner keyTemplate
      with e2 | keyPath
    · rfl
    · rcases h3 : env.NewTemplate team.Name repository.Name repository.Owner titleTemplate
        with e3 | title
      · rfl
      · rcases hfail with ⟨e, h⟩ | ⟨e, h⟩ | ⟨e, h⟩
        · rw [h1] at h; cases h
        · rw [h2] at h; cases h
        · rw [h3] at h; cases h

/-- The events of an iteration depend on `tokenAdded` only through whether
the repository's owner is in it, and so does what the iteration adds to it. -/
theorem processRepository_congr (tokenTemplate keyTemplate titleTemplate : String)
    (team : Team) (repository : Repository) (c c1 : TokenAdded) (s : σ)
    (h : (c.lookup repository.Owner).isSome = (c1.lookup repository.Owner).isSome) :
    (processRepository env tokenTemplate keyTemplate titleTemplate team repository c s).2.2 =
      (processRepository env tokenTemplate keyTemplate titleTemplate team repository c1 s).2.2 ∧
    ∃ delta : TokenAdded,
      (processRepository env tokenTemplate keyTemplate titleTemplate team repository c s).1 =
        delta ++ c ∧
      (processRepository env tokenTemplate keyTemplate titleTemplate team repository c1 s).1 =
        delta ++ c1 := by
  rcases resolved_or_not env tokenTemplate keyTemplate titleTemplate team repository with
    ⟨tokenPath, keyPath, title, hT, hK, hTi⟩ | hfail
  · rw [processRepository_resolved env _ _ _ team repository c s _ _ _ hT hK hTi,
      processRepository_resolved env _ _ _ team repository c1 s _ _ _ hT hK hTi]
    unfold ensureToken
    rcases hl : c.lookup repository.Owner with _ | b <;>
      rcases hl1 : c1.lookup repository.Owner with _ | b1
    · dsimp only
      rcases h1 : env.manager.createAccessToken repository.Owner s with ⟨e | token, s1⟩
      · exact ⟨rfl, [], rfl, rfl⟩
      · dsimp only
        rcases h2 : env.manager.writeSecret tokenPath token s1 with ⟨_ | e, s2⟩
        · exact ⟨rfl, [(repository.Owner, true)], rfl, rfl⟩
        · exact ⟨rfl, [], rfl, rfl⟩
    · rw [hl, hl1] at h; simp at h
    · rw [hl, hl1] at h; simp at h
    · exact ⟨rfl, [], rfl, rfl⟩
  · obtain ⟨message, hm⟩ := processRepository_unresolved env _ _ _ team repository c s hfail
    obtain ⟨message1, hm1⟩ := processRepository_unresolved env _ _ _ team repository c1 s hfail
    exact ⟨processRepository_unresolved_events env _ _ _ team repository c c1 s hfail,
      [], by rw [hm]; rfl, by rw [hm1]; rfl⟩

/-- Two iterations of one repository from the same world have the same
events, unless the owner is in `tokenAdded` in only one of them and the
other one starts by minting. -/
theorem processRepository_events_cases (tokenTemplate keyTemplate titleTemplate : String)
    (team : Team) (repository : Repository) (c c1 : TokenAdded) (s : σ) :
    (processRepository env tokenTemplate keyTemplate titleTemplate team repository c s).2.2 =
      (processRepository env tokenTemplate keyTemplate titleTemplate team repository c1 s).2.2 ∨
    (∃ ok tail,
      (processRepository env tokenTemplate keyTemplate titleTemplate team repository c s).2.2 =
        Event.createAccessToken repository.Owner ok :: tail) ∨
    (∃ ok tail,
      (processRepository env tokenTemplate keyTemplate titleTemplate team repository c1 s).2.2 =
        Event.createAccessToken repository.Owner ok :: tail) := by
  rcases resolved_or_not env tokenTemplate keyTemplate titleTemplate team repository with
    ⟨tokenPath, keyPath, title, hT, hK, hTi⟩ | hfail
  · rcases hl : c.lookup repository.Owner with _ | b
    · exact Or.inr (Or.inl (processRepository_mints env _ _ _ team repository c s _ _ _
        hT hK hTi hl))
    · rcases hl1 : c1.lookup repository.Owner with _ | b1
      · exact Or.inr (Or.inr (processRepository_mints env _ _ _ team repository c1 s _ _ _
          hT hK hTi hl1))
      · exact Or.inl (processRepository_congr env _ _ _ team repository c c1 s
          (by rw [hl, hl1]; rfl)).1
  · exact Or.inl (processRepository_unresolved_events env _ _ _ team repository c c1 s hfail)

/-- Whether a key is in a concatenation of association lists. -/
theorem lookup_append_isSome (o : String) :
    ∀ (delta c : TokenAdded),
      ((delta ++ c).lookup o).isSome = ((delta.lookup o).isSome || (c.lookup o).isSome)
  | [], c => by simp
  | (k, v) :: delta, c => by
    rw [List.cons_append, List.lookup_cons, List.lookup_cons]
    cases o == k
    · exact lookup_append_isSome o delta c
    · simp

/-- The scripted loop over a concatenation runs the first part, then the
second from the `tokenAdded` the first ended with. -/
theorem processScripted_append (tokenTemplate keyTemplate titleTemplate : String)
    (team : Team) :
    ∀ (xs ys : List (Repository × σ)) (tokenAdded : TokenAdded),
      (processScripted env tokenTemplate keyTemplate titleTemplate team (xs ++ ys)
        tokenAdded).2 =
      (processScripted env tokenTemplate keyTemplate titleTemplate team xs tokenAdded).2 ++
      (processScripted env tokenTemplate keyTemplate titleTemplate team ys
        (processScripted env tokenTemplate keyTemplate titleTemplate team xs tokenAdded).1).2
  | [], ys, tokenAdded => by simp [processScripted]
  | (r, s) :: xs, ys, tokenAdded => by
    simp only [List.cons_append, processScripted, List.append_eq]
    rw [processScripted_append tokenTemplate keyTemplate titleTemplate team xs ys]

/-- The trace of the scripted loop has one entry per repository. -/
theorem processScripted_length (tokenTemplate keyTemplate titleTemplate : String)
    (team : Team) :
    ∀ (xs : List (Repository × σ)) (tokenAdded : TokenAdded),
      (processScripted env tokenTemplate keyTemplate titleTemplate team xs
        tokenAdded).2.length = xs.length
  | [], _ => rfl
  | (r, s) :: xs, tokenAdded => by
    simp only [processScripted, List.length_cons]
    rw [processScripted_length tokenTemplate keyTemplate titleTemplate team xs]

/-- Two scripted runs over the same repositories and worlds, from maps that
agree on every owner but one: the iterations of the repositories of the
other owners are the same, and an iteration of that owner is the same too
unless in one of the runs it starts by minting. -/
theorem processScripted_isolated (tokenTemplate keyTemplate titleTemplate : String)
    (team : Team) (owner : String) :
    ∀ (xs : List (Repository × σ)) (c c1 : TokenAdded),
      (∀ o, o ≠ owner → (c.lookup o).isSome = (c1.lookup o).isSome) →
      List.Forall₂
        (fun e1 e2 : Repository × List Event =>
          e1.1 = e2.1 ∧ (e1.1.Owner ≠ owner → e1.2 = e2.2) ∧
          (e1.2 = e2.2 ∨
            (∃ ok tail, e1.2 = Event.createAccessToken e1.1.Owner ok :: tail) ∨
            (∃ ok tail, e2.2 = Event.createAccessToken e1.1.Owner ok :: tail)))
        (processScripted env tokenTemplate keyTemplate titleTemplate team xs c).2
        (processScripted env tokenTemplate keyTemplate titleTemplate team xs c1).2
  | [], _, _, _ => List.Forall₂.nil
  | (r, s) :: xs, c, c1, hagree => by
    simp only [processScripted]
    refine List.Forall₂.cons ⟨rfl, ?_, ?_⟩ ?_
    · intro hne
      exact (processRepository_congr env _ _ _ team r c c1 s (hagree _ hne)).1
    · exact processRepository_events_cases env _ _ _ team r c c1 s
    · apply processScripted_isolated tokenTemplate keyTemplate titleTemplate team owner xs
      intro o ho
      by_cases hr : r.Owner = o
      · have hne : r.Owner ≠ owner := by rw [hr]; exact ho
        obtain ⟨-, delta, hd, hd1⟩ :=
          processRepository_congr env _ _ _ team r c c1 s (hagree _ hne)
        rw [hd, hd1, lookup_append_isSome, lookup_append_isSome, hagree o ho]
      · rw [processRepository_lookup_other env _ _ _ team r c s o hr,
          processRepository_lookup_other env _ _ _ team r c1 s o hr]
        exact hagree o ho

/-- The list-scan-rotate part calls `listKeys` exactly once, for the
repository. -/
theorem rotateIfNeeded_listKeys (repository : Repository) (keyPath title : String) (s : σ) :
    (rotateIfNeeded env repository keyPath title s).2.countP
      (fun e => decide (e.kind = .listKeys)) = 1 ∧
    ∀ r ok, Event.listKeys r ok ∈ (rotateIfNeeded env repository keyPath title s).2 →
      r = repository := by
  unfold rotateIfNeeded
  rcases h1 : env.manager.listKeys repository s with ⟨e | keys, s1⟩
  · simp [List.countP_cons]
  · dsimp only
    have hk := scanKeys_kind env repository title keyPath keys none s1
    rcases h2 : scanKeys env repository title keyPath keys none s1 with ⟨_ | oldKey, s2, evs⟩
    · rw [h2] at hk
      have hno : ∀ e ∈ evs, e.kind ≠ .listKeys := by
        intro e he
        rcases hk e he with h | h <;> simp [h]
      refine ⟨?_, ?_⟩
      · simp [List.countP_cons, countP_kind_eq_zero .listKeys evs hno]
      · intro r ok hmem
        rcases List.mem_cons.1 hmem with h | h
        · simp only [Event.listKeys.injEq] at h
          exact h.1
        · exact absurd (kind_listKeys r ok) (hno _ h)
    · rw [h2] at hk
      have hno : ∀ e ∈ evs ++ (rotate env repository title keyPath oldKey s2).2,
          e.kind ≠ .listKeys := by
        intro e he
        rcases List.mem_append.1 he with he | he
        · rcases hk e he with h | h <;> simp [h]
        · rcases rotate_kind env repository title keyPath oldKey s2 e he with
            h | h | h | h | h | h <;> simp [h]
      refine ⟨?_, ?_⟩
      · simp only [List.countP_cons, kind_listKeys, decide_True, if_true]
        rw [countP_kind_eq_zero .listKeys _ hno]
      · intro r ok hmem
        rcases List.mem_cons.1 hmem with h | h
        · simp only [Event.listKeys.injEq] at h
          exact h.1
        · exact absurd (kind_listKeys r ok) (hno _ h)

end Shape

/-! ## Ordering of the rotate sequence -/

/-- C1: in every run of the handler, whenever `deleteKey` is called in the
processing of a repository, the events before it in that same processing
contain, in this order, the successful `generateKeyPair`, the successful
`createKey` for that repository with the generated public key, and the
successful `writeSecret` of the generated private key at the repository's
resolved key path. -/
theorem delete_after_publish_and_persist {σ : Type} (env : Env σ)
    (tokenTemplate keyTemplate titleTemplate : String) (team : Team) (s : σ)
    (repository : Repository) (events : List Event)
    (hrun : (repository, events) ∈ (New env tokenTemplate keyTemplate titleTemplate team s).2.2)
    (pre post : List Event) (r : Repository) (id : Int) (ok : Bool)
    (hsplit : events = pre ++ Event.deleteKey r id ok :: post) :
    ∃ keyPath title priv pub,
      env.NewTemplate team.Name repository.Name repository.Owner keyTemplate = .ok keyPath ∧
      env.NewTemplate team.Name repository.Name repository.Owner titleTemplate = .ok title ∧
      r = repository ∧
      List.Sublist
        [Event.generateKeyPair title (some (priv, pub)),
         Event.createKey repository title pub true,
         Event.writeSecret .key keyPath priv true] pre := by
  obtain ⟨added, s1, hev⟩ := mem_processRepositories env tokenTemplate keyTemplate
    titleTemplate team team.Repositories [] s repository events hrun
  rcases processRepository_shape env tokenTemplate keyTemplate titleTemplate team repository
    added s1 with h | h
  · have hmem : Event.deleteKey r id ok ∈ events := by rw [hsplit]; simp
    rw [hev] at hmem
    exact absurd (kind_deleteKey r id ok) (h _ hmem)
  · obtain ⟨keyPath, title, priv, pub, id1, ok1, pre1, tail, hK, hTi, hshape, hpre, htail⟩ := h
    rw [← hev, hsplit] at hshape
    have hpre1 : ∀ e ∈ pre1 ++ [Event.generateKeyPair title (some (priv, pub)),
        Event.createKey repository title pub true,
        Event.writeSecret .key keyPath priv true, Event.sleep (second * 1)],
        e.kind ≠ .deleteKey := by
      intro e he
      rcases List.mem_append.1 he with he | he
      · exact hpre e he
      · simp only [List.mem_cons, List.mem_singleton, List.not_mem_nil, or_false] at he
        rcases he with rfl | rfl | rfl | rfl <;> simp
    obtain ⟨h1, h2, -⟩ := split_unique .deleteKey _ _ _ _ _ _ hpre1 htail
      (kind_deleteKey r id ok) hshape.symm
    refine ⟨keyPath, title, priv, pub, hK, hTi, ?_, ?_⟩
    · simp only [Event.deleteKey.injEq] at h2
      exact h2.1
    · rw [h1]
      refine List.Sublist.trans ?_ (List.sublist_append_right _ _)
      exact List.Sublist.cons₂ _ (List.Sublist.cons₂ _ (List.Sublist.cons₂ _ (List.nil_sublist _)))

/-- The rotation of `handler_test.go` (matching key, equal flag, secret ten
days old): the delete of key 1 comes after generate, publish and persist. -/
theorem delete_after_publish_and_persist_witness :
    (testRepository,
      [Event.createAccessToken "telia-oss" true,
       Event.writeSecret .token "/concourse/test-team/telia-oss" "token" true,
       Event.listKeys testRepository true,
       Event.getLastUpdated "/concourse/test-team/test-repository" true,
       Event.generateKeyPair "concourse-test-team-deploy-key" (some ("private", "public")),
       Event.createKey testRepository "concourse-test-team-deploy-key" "public" true,
       Event.writeSecret .key "/concourse/test-team/test-repository" "private" true,
       Event.sleep second,
       Event.deleteKey testRepository 1 true]) ∈
      (New testEnv testTokenPath testKeyPath testKeyTitle testTeam
        (testWorld (some true) 0)).2.2 ∧
    ∃ keyPath title priv pub,
      testEnv.NewTemplate testTeam.Name testRepository.Name testRepository.Owner testKeyPath
        = .ok keyPath ∧
      testEnv.NewTemplate testTeam.Name testRepository.Name testRepository.Owner testKeyTitle
        = .ok title ∧
      testRepository = testRepository ∧
      List.Sublist
        [Event.generateKeyPair title (some (priv, pub)),
         Event.createKey testRepository title pub true,
         Event.writeSecret .key keyPath priv true]
        [Event.createAccessToken "telia-oss" true,
         Event.writeSecret .token "/concourse/test-team/telia-oss" "token" true,
         Event.listKeys testRepository true,
         Event.getLastUpdated "/concourse/test-team/test-repository" true,
         Event.generateKeyPair "concourse-test-team-deploy-key" (some ("private", "public")),
         Event.createKey testRepository "concourse-test-team-deploy-key" "public" true,
         Event.writeSecret .key "/concourse/test-team/test-repository" "private" true,
         Event.sleep second] :=
  ⟨by decide,
   delete_after_publish_and_persist testEnv testTokenPath testKeyPath testKeyTitle testTeam
    (testWorld (some true) 0) testRepository _ (by decide) _ [] testRepository 1 true rfl⟩

/-! ## The rotation decision -/

/-- C2: for a repository whose templates resolve, whose token step passes and
whose keys are listed, if the first listed key with the resolved title
reports the desired read-only flag and `getLastUpdated` on the key path
answers a timestamp strictly later than now minus seven days, which the
handler computes as `time.Now().AddDate(0, 0, -7)`, the iteration is the
token step, `listKeys` and that one `getLastUpdated`: it makes no
`generateKeyPair`, `createKey`, key-path `writeSecret` or `deleteKey` call. -/
theorem fresh_key_is_skipped {σ : Type} (env : Env σ)
    (tokenTemplate keyTemplate titleTemplate : String) (team : Team)
    (repository : Repository) (tokenAdded : TokenAdded) (s : σ)
    (tokenPath keyPath title : String)
    (hToken : env.NewTemplate team.Name repository.Name repository.Owner tokenTemplate
      = .ok tokenPath)
    (hKey : env.NewTemplate team.Name repository.Name repository.Owner keyTemplate
      = .ok keyPath)
    (hTitle : env.NewTemplate team.Name repository.Name repository.Owner titleTemplate
      = .ok title)
    (added : TokenAdded) (s1 : σ) (evs : List Event)
    (htok : ensureToken env tokenPath repository tokenAdded s = (true, added, s1, evs))
    (keys : List Key) (s2 : σ)
    (hlist : env.manager.listKeys repository s1 = (.ok keys, s2))
    (key : Key) (hfirst : keys.find? (fun k => decide (k.Title = title)) = some key)
    (hflag : key.ReadOnly = some repository.ReadOnly)
    (updated : Int) (s3 : σ)
    (hupdated : env.manager.getLastUpdated keyPath s2 = (.ok updated, s3))
    (hfresh : updated > env.AddDate 0 0 (-7) (env.now s3)) :
    processRepository env tokenTemplate keyTemplate titleTemplate team repository tokenAdded s =
      (added, s3, evs ++ [.listKeys repository true, .getLastUpdated keyPath true]) ∧
    ∀ e ∈ (processRepository env tokenTemplate keyTemplate titleTemplate team repository
        tokenAdded s).2.2,
      e.kind ≠ .generateKeyPair ∧ e.kind ≠ .createKey ∧ e.kind ≠ .writeKey ∧
      e.kind ≠ .deleteKey := by
  obtain ⟨ht, rest, hscan⟩ := scanKeys_first_match env repository title keyPath keys key hfirst
  have hres : processRepository env tokenTemplate keyTemplate titleTemplate team repository
      tokenAdded s =
      (added, s3, evs ++ [.listKeys repository true, .getLastUpdated keyPath true]) := by
    rw [processRepository_listed env _ _ _ team repository tokenAdded s _ _ _ hToken hKey hTitle
      added s1 evs htok keys s2 hlist, hscan none s2]
    unfold scanKeys
    simp [ht, hflag, hupdated, hfresh]
  refine ⟨hres, ?_⟩
  rw [hres]
  have hk := ensureToken_kind env tokenPath repository tokenAdded s
  rw [htok] at hk
  intro e he
  rcases List.mem_append.1 he with he | he
  · rcases hk e he with h | h | h <;> simp [h]
  · simp only [List.mem_cons, List.mem_singleton, List.not_mem_nil, or_false] at he
    rcases he with rfl | rfl <;> simp

/-- The second case of `handler_test.go`: key 1 has the title and the desired
flag and its secret was updated now, so the repository is skipped. -/
theorem fresh_key_is_skipped_witness :
    (tenDays > testEnv.AddDate 0 0 (-7) (testEnv.now (testWorld (some true) tenDays))) ∧
    processRepository testEnv testTokenPath testKeyPath testKeyTitle testTeam testRepository []
        (testWorld (some true) tenDays) =
      ([("telia-oss", true)], testWorld (some true) tenDays,
        [Event.createAccessToken "telia-oss" true,
         Event.writeSecret .token "/concourse/test-team/telia-oss" "token" true] ++
        [Event.listKeys testRepository true,
         Event.getLastUpdated "/concourse/test-team/test-repository" true]) ∧
    ∀ e ∈ (processRepository testEnv testTokenPath testKeyPath testKeyTitle testTeam
        testRepository [] (testWorld (some true) tenDays)).2.2,
      e.kind ≠ .generateKeyPair ∧ e.kind ≠ .createKey ∧ e.kind ≠ .writeKey ∧
      e.kind ≠ .deleteKey :=
  ⟨by decide,
   fresh_key_is_skipped testEnv testTokenPath testKeyPath testKeyTitle testTeam testRepository []
    (testWorld (some true) tenDays)
    "/concourse/test-team/telia-oss" "/concourse/test-team/test-repository"
    "concourse-test-team-deploy-key" rfl rfl rfl
    [("telia-oss", true)] (testWorld (some true) tenDays) _ rfl
    [⟨1, "concourse-test-team-deploy-key", some true⟩] (testWorld (some true) tenDays) rfl
    ⟨1, "concourse-test-team-deploy-key", some true⟩ (by decide) rfl
    tenDays (testWorld (some true) tenDays) rfl (by decide)⟩

/-- The threshold is the zone's: a secret updated 6 days, 23 hours and 30
minutes ago is skipped on a UTC clock, and rotated in a week in which the
clocks were put forward, where `time.Now().AddDate(0, 0, -7)` lies only 6
days and 23 hours back. -/
theorem spring_forward_week_rotates :
    Event.generateKeyPair "concourse-test-team-deploy-key" (some ("private", "public")) ∉
      (processRepository testEnv testTokenPath testKeyPath testKeyTitle testTeam
        testRepository [] (testWorld (some true) (tenDays - 603000 * second))).2.2 ∧
    Event.generateKeyPair "concourse-test-team-deploy-key" (some ("private", "public")) ∈
      (processRepository springForwardEnv testTokenPath testKeyPath testKeyTitle testTeam
        testRepository [] (testWorld (some true) (tenDays - 603000 * second))).2.2 := by
  decide

/-- C3: for a repository whose templates resolve, whose token step passes and
whose keys are listed, if the first listed key with the resolved title
reports a read-only flag different from the desired one, no `getLastUpdated`
call is made, `generateKeyPair` is called on the title, and when generate,
`createKey` and the key-path `writeSecret` succeed `deleteKey` is called
with that key's id. -/
theorem permission_drift_rotates {σ : Type} (env : Env σ)
    (tokenTemplate keyTemplate titleTemplate : String) (team : Team)
    (repository : Repository) (tokenAdded : TokenAdded) (s : σ)
    (tokenPath keyPath title : String)
    (hToken : env.NewTemplate team.Name repository.Name repository.Owner tokenTemplate
      = .ok tokenPath)
    (hKey : env.NewTemplate team.Name repository.Name repository.Owner keyTemplate
      = .ok keyPath)
    (hTitle : env.NewTemplate team.Name repository.Name repository.Owner titleTemplate
      = .ok title)
    (added : TokenAdded) (s1 : σ) (evs : List Event)
    (htok : ensureToken env tokenPath repository tokenAdded s = (true, added, s1, evs))
    (keys : List Key) (s2 : σ)
    (hlist : env.manager.listKeys repository s1 = (.ok keys, s2))
    (key : Key) (hfirst : keys.find? (fun k => decide (k.Title = title)) = some key)
    (reported : Bool) (hreported : key.ReadOnly = some reported)
    (hdrift : reported ≠ repository.ReadOnly) :
    (∀ e ∈ (processRepository env tokenTemplate keyTemplate titleTemplate team repository
        tokenAdded s).2.2, e.kind ≠ .getLastUpdated) ∧
    (∃ result, Event.generateKeyPair title result ∈
      (processRepository env tokenTemplate keyTemplate titleTemplate team repository
        tokenAdded s).2.2) ∧
    ∀ (priv pub : String) (s3 s4 s5 : σ),
      env.manager.generateKeyPair title s2 = (.ok (priv, pub), s3) →
      env.manager.createKey repository title pub s3 = (none, s4) →
      env.manager.writeSecret keyPath priv s4 = (none, s5) →
      ∃ ok, Event.deleteKey repository key.ID ok ∈
        (processRepository env tokenTemplate keyTemplate titleTemplate team repository
          tokenAdded s).2.2 := by
  obtain ⟨ht, rest, hscan⟩ := scanKeys_first_match env repository title keyPath keys key hfirst
  have hres : (processRepository env tokenTemplate keyTemplate titleTemplate team repository
      tokenAdded s).2.2 =
      evs ++ .listKeys repository true ::
        (rotate env repository title keyPath (some key) s2).2 := by
    rw [processRepository_listed env _ _ _ team repository tokenAdded s _ _ _ hToken hKey hTitle
      added s1 evs htok keys s2 hlist, hscan none s2]
    unfold scanKeys
    simp [ht, hreported, hdrift]
  rw [hres]
  have hk := ensureToken_kind env tokenPath repository tokenAdded s
  rw [htok] at hk
  refine ⟨?_, ?_, ?_⟩
  · intro e he
    rcases List.mem_append.1 he with he | he
    · rcases hk e he with h | h | h <;> simp [h]
    · rcases List.mem_cons.1 he with rfl | he
      · simp
      · rcases rotate_kind env repository title keyPath (some key) s2 e he with
          h | h | h | h | h | h <;> simp [h]
  · obtain ⟨result, tail, hrot, -⟩ := rotate_order env repository title keyPath (some key) s2
    exact ⟨result, by simp [hrot]⟩
  · intro priv pub s3 s4 s5 hgen hcreate hwrite
    obtain ⟨ok, tail, hrot, -⟩ := rotate_success env repository title keyPath key s2 s3 s4 s5
      priv pub hgen hcreate hwrite
    exact ⟨ok, by simp [hrot]⟩

/-- The third case of `handler_test.go`: key 1 has the title but is
read-write while read-only is desired, and the secret was updated now; key 1
is replaced and deleted without the secret being inspected. -/
theorem permission_drift_rotates_witness :
    (∀ e ∈ (processRepository testEnv testTokenPath testKeyPath testKeyTitle testTeam
        testRepository [] (testWorld (some false) tenDays)).2.2, e.kind ≠ .getLastUpdated) ∧
    (∃ result, Event.generateKeyPair "concourse-test-team-deploy-key" result ∈
      (processRepository testEnv testTokenPath testKeyPath testKeyTitle testTeam
        testRepository [] (testWorld (some false) tenDays)).2.2) ∧
    ∃ ok, Event.deleteKey testRepository 1 ok ∈
      (processRepository testEnv testTokenPath testKeyPath testKeyTitle testTeam
        testRepository [] (testWorld (some false) tenDays)).2.2 :=
  have h := permission_drift_rotates testEnv testTokenPath testKeyPath testKeyTitle testTeam
    testRepository [] (testWorld (some false) tenDays)
    "/concourse/test-team/telia-oss" "/concourse/test-team/test-repository"
    "concourse-test-team-deploy-key" rfl rfl rfl
    [("telia-oss", true)] (testWorld (some false) tenDays) _ rfl
    [⟨1, "concourse-test-team-deploy-key", some false⟩] (testWorld (some false) tenDays) rfl
    ⟨1, "concourse-test-team-deploy-key", some false⟩ (by decide) false rfl (by decide)
  ⟨h.1, h.2.1, h.2.2 "private" "public" _ _ _ rfl rfl rfl⟩

/-- C5: for a repository whose templates resolve, whose token step passes and
whose listed keys, possibly none, contain no key with the resolved title, the
iteration makes no `getLastUpdated` and no `deleteKey` call, and after
`listKeys` it calls `generateKeyPair` with the title, then when that succeeds
`createKey` with the repository (carrying the desired flag), the title and
the generated public key, then when that succeeds `writeSecret` with the key
path and the generated private key. -/
theorem no_matching_key_creates {σ : Type} (env : Env σ)
    (tokenTemplate keyTemplate titleTemplate : String) (team : Team)
    (repository : Repository) (tokenAdded : TokenAdded) (s : σ)
    (tokenPath keyPath title : String)
    (hToken : env.NewTemplate team.Name repository.Name repository.Owner tokenTemplate
      = .ok tokenPath)
    (hKey : env.NewTemplate team.Name repository.Name repository.Owner keyTemplate
      = .ok keyPath)
    (hTitle : env.NewTemplate team.Name repository.Name repository.Owner titleTemplate
      = .ok title)
    (added : TokenAdded) (s1 : σ) (evs : List Event)
    (htok : ensureToken env tokenPath repository tokenAdded s = (true, added, s1, evs))
    (keys : List Key) (s2 : σ)
    (hlist : env.manager.listKeys repository s1 = (.ok keys, s2))
    (hnone : ∀ key ∈ keys, key.Title ≠ title) :
    (∀ e ∈ (processRepository env tokenTemplate keyTemplate titleTemplate team repository
        tokenAdded s).2.2, e.kind ≠ .getLastUpdated ∧ e.kind ≠ .deleteKey) ∧
    ∃ result rest,
      (processRepository env tokenTemplate keyTemplate titleTemplate team repository
        tokenAdded s).2.2 =
        evs ++ Event.listKeys repository true :: Event.generateKeyPair title result :: rest ∧
      (result.isSome = true ↔
        ∃ pair s3, env.manager.generateKeyPair title s2 = (.ok pair, s3)) ∧
      ∀ priv pub, result = some (priv, pub) →
        ∃ ok rest1, rest = Event.createKey repository title pub ok :: rest1 ∧
          (ok = true → ∃ ok1 rest2, rest1 = Event.writeSecret .key keyPath priv ok1 :: rest2) := by
  have hfind : keys.find? (fun k => decide (k.Title = title)) = none := by
    rw [List.find?_eq_none]
    intro k hk
    simpa using hnone k hk
  have hres : (processRepository env tokenTemplate keyTemplate titleTemplate team repository
      tokenAdded s).2.2 =
      evs ++ .listKeys repository true :: (rotate env repository title keyPath none s2).2 := by
    rw [processRepository_listed env _ _ _ team repository tokenAdded s _ _ _ hToken hKey hTitle
      added s1 evs htok keys s2 hlist,
      scanKeys_no_match env repository title keyPath keys none s2 hfind]
    simp
  rw [hres]
  have hk := ensureToken_kind env tokenPath repository tokenAdded s
  rw [htok] at hk
  refine ⟨?_, ?_⟩
  · intro e he
    rcases List.mem_append.1 he with he | he
    · rcases hk e he with h | h | h <;> simp [h]
    · rcases List.mem_cons.1 he with rfl | he
      · simp
      · refine ⟨?_, ?_⟩
        · rcases rotate_kind env repository title keyPath none s2 e he with
            h | h | h | h | h | h <;> simp [h]
        · rcases rotate_shape env repository title keyPath none s2 with h | h
          · exact h e he
          · obtain ⟨_, _, _, _, _, h, _⟩ := h
            cases h
  · obtain ⟨result, rest, hrot, hsome, hrest⟩ :=
      rotate_order env repository title keyPath none s2
    exact ⟨result, rest, by rw [hrot], hsome, hrest⟩

/-- A host listing only a key with another title: the handler generates,
publishes and persists, and neither inspects the secret nor deletes. -/
theorem no_matching_key_creates_witness :
    (∀ key ∈ [(⟨7, "some-other-key", some true⟩ : Key)],
      key.Title ≠ "concourse-test-team-deploy-key") ∧
    (processRepository testEnv testTokenPath testKeyPath testKeyTitle testTeam testRepository []
        ⟨[⟨7, "some-other-key", some true⟩], .ok 0, tenDays, []⟩).2.2 =
      [Event.createAccessToken "telia-oss" true,
       Event.writeSecret .token "/concourse/test-team/telia-oss" "token" true,
       Event.listKeys testRepository true,
       Event.generateKeyPair "concourse-test-team-deploy-key" (some ("private", "public")),
       Event.createKey testRepository "concourse-test-team-deploy-key" "public" true,
       Event.writeSecret .key "/concourse/test-team/test-repository" "private" true] ∧
    ∀ e ∈ (processRepository testEnv testTokenPath testKeyPath testKeyTitle testTeam
        testRepository [] ⟨[⟨7, "some-other-key", some true⟩], .ok 0, tenDays, []⟩).2.2,
      e.kind ≠ .getLastUpdated ∧ e.kind ≠ .deleteKey :=
  ⟨by decide, by decide,
   (no_matching_key_creates testEnv testTokenPath testKeyPath testKeyTitle testTeam
    testRepository [] ⟨[⟨7, "some-other-key", some true⟩], .ok 0, tenDays, []⟩
    "/concourse/test-team/telia-oss" "/concourse/test-team/test-repository"
    "concourse-test-team-deploy-key" rfl rfl rfl
    [("telia-oss", true)] ⟨[⟨7, "some-other-key", some true⟩], .ok 0, tenDays, []⟩ _ rfl
    [⟨7, "some-other-key", some true⟩] ⟨[⟨7, "some-other-key", some true⟩], .ok 0, tenDays, []⟩
    rfl (by decide)).1⟩

/-- C4: for a repository whose templates resolve, whose token step passes and
whose keys are listed, if a listed key has the resolved title and the desired
read-only flag and `getLastUpdated` on the key path reports a timestamp that
is not after now minus seven days (`time.Now().AddDate(0, 0, -7)`, that
instant itself included), then `generateKeyPair` is called exactly once, and
when generate, `createKey` and the key-path `writeSecret` succeed `deleteKey`
is called exactly once.  The report is that of the queries the scan makes:
one per listed key with the title, each in the world the previous one left;
with a single key of the title it is the one query after `listKeys`. -/
theorem stale_key_rotates {σ : Type} (env : Env σ)
    (tokenTemplate keyTemplate titleTemplate : String) (team : Team)
    (repository : Repository) (tokenAdded : TokenAdded) (s : σ)
    (tokenPath keyPath title : String)
    (hToken : env.NewTemplate team.Name repository.Name repository.Owner tokenTemplate
      = .ok tokenPath)
    (hKey : env.NewTemplate team.Name repository.Name repository.Owner keyTemplate
      = .ok keyPath)
    (hTitle : env.NewTemplate team.Name repository.Name repository.Owner titleTemplate
      = .ok title)
    (added : TokenAdded) (s1 : σ) (evs : List Event)
    (htok : ensureToken env tokenPath repository tokenAdded s = (true, added, s1, evs))
    (keys : List Key) (s2 : σ)
    (hlist : env.manager.listKeys repository s1 = (.ok keys, s2))
    (hkey : ∃ key ∈ keys, key.Title = title ∧ key.ReadOnly = some repository.ReadOnly)
    (hstale : ∀ i, i < keys.countP (fun k => decide (k.Title = title)) →
      ∃ updated t1,
        env.manager.getLastUpdated keyPath
          ((fun t => (env.manager.getLastUpdated keyPath t).2)^[i] s2) = (.ok updated, t1) ∧
        updated ≤ env.AddDate 0 0 (-7) (env.now t1)) :
    (processRepository env tokenTemplate keyTemplate titleTemplate team repository
        tokenAdded s).2.2.countP (fun e => decide (e.kind = .generateKeyPair)) = 1 ∧
    ∀ (priv pub : String) (s4 s5 s6 : σ),
      env.manager.generateKeyPair title
        (scanKeys env repository title keyPath keys none s2).2.1 = (.ok (priv, pub), s4) →
      env.manager.createKey repository title pub s4 = (none, s5) →
      env.manager.writeSecret keyPath priv s5 = (none, s6) →
      (processRepository env tokenTemplate keyTemplate titleTemplate team repository
        tokenAdded s).2.2.countP (fun e => decide (e.kind = .deleteKey)) = 1 := by
  obtain ⟨old, hverdict, hold⟩ :=
    scanKeys_stale env repository title keyPath keys none s2 hstale
  obtain ⟨key, hmem, htitle, -⟩ := hkey
  obtain ⟨oldKey, rfl⟩ := Option.isSome_iff_exists.1 (hold (Or.inr ⟨key, hmem, htitle⟩))
  have hscan := scanKeys_kind env repository title keyPath keys none s2
  have hk := ensureToken_kind env tokenPath repository tokenAdded s
  rw [htok] at hk
  rw [processRepository_listed env _ _ _ team repository tokenAdded s _ _ _ hToken hKey hTitle
    added s1 evs htok keys s2 hlist]
  rcases hsc : scanKeys env repository title keyPath keys none s2 with ⟨verdict, s3, evs2⟩
  rw [hsc] at hverdict hscan
  dsimp only at hverdict hscan ⊢
  subst hverdict
  dsimp only
  have hevs : ∀ k, k = Kind.generateKeyPair ∨ k = Kind.deleteKey →
      (evs ++ Event.listKeys repository true :: evs2).countP
        (fun e => decide (e.kind = k)) = 0 := by
    intro k hkind
    apply countP_kind_eq_zero
    intro e he
    rcases List.mem_append.1 he with he | he
    · rcases hk e he with h | h | h <;> rcases hkind with rfl | rfl <;> simp [h]
    · rcases List.mem_cons.1 he with rfl | he
      · rcases hkind with rfl | rfl <;> simp
      · rcases hscan e he with h | h <;> rcases hkind with rfl | rfl <;> simp [h]
  have happ : ∀ l : List Event, evs ++ Event.listKeys repository true :: (evs2 ++ l) =
      (evs ++ Event.listKeys repository true :: evs2) ++ l := by
    intro l; simp
  rw [happ]
  refine ⟨?_, ?_⟩
  · rw [List.countP_append, hevs _ (Or.inl rfl), rotate_count_generate]
  · intro priv pub s4 s5 s6 hgen hcreate hwrite
    obtain ⟨ok, tail, hrot, htail⟩ := rotate_success env repository title keyPath oldKey s3 s4
      s5 s6 priv pub hgen hcreate hwrite
    rw [List.countP_append, hevs _ (Or.inr rfl), hrot, List.countP_append,
      countP_kind_eq_zero .deleteKey tail (fun e he => by simp [htail e he])]
    simp [List.countP_cons]

/-- The first case of `handler_test.go` at the boundary: key 1 has the title
and the desired flag and its secret was updated exactly seven days before
now; one generate and one delete. -/
theorem stale_key_rotates_witness :
    (addDateUTC 0 0 (-7) tenDays ≤
      testEnv.AddDate 0 0 (-7) (testEnv.now (testWorld (some true) (addDateUTC 0 0 (-7) tenDays)))) ∧
    (processRepository testEnv testTokenPath testKeyPath testKeyTitle testTeam testRepository
        [] (testWorld (some true) (addDateUTC 0 0 (-7) tenDays))).2.2.countP
      (fun e => decide (e.kind = .generateKeyPair)) = 1 ∧
    (processRepository testEnv testTokenPath testKeyPath testKeyTitle testTeam testRepository
        [] (testWorld (some true) (addDateUTC 0 0 (-7) tenDays))).2.2.countP
      (fun e => decide (e.kind = .deleteKey)) = 1 :=
  have h := stale_key_rotates testEnv testTokenPath testKeyPath testKeyTitle testTeam
    testRepository [] (testWorld (some true) (addDateUTC 0 0 (-7) tenDays))
    "/concourse/test-team/telia-oss" "/concourse/test-team/test-repository"
    "concourse-test-team-deploy-key" rfl rfl rfl
    [("telia-oss", true)] (testWorld (some true) (addDateUTC 0 0 (-7) tenDays)) _ rfl
    [⟨1, "concourse-test-team-deploy-key", some true⟩]
    (testWorld (some true) (addDateUTC 0 0 (-7) tenDays)) rfl
    ⟨⟨1, "concourse-test-team-deploy-key", some true⟩, by decide, rfl, rfl⟩
    (fun i _ => ⟨addDateUTC 0 0 (-7) tenDays,
      testWorld (some true) (addDateUTC 0 0 (-7) tenDays),
      by rw [Function.iterate_fixed rfl]; rfl, le_refl _⟩)
  ⟨le_refl _, h.1,
   h.2 "private" "public" (testWorld (some true) (addDateUTC 0 0 (-7) tenDays))
    (testWorld (some true) (addDateUTC 0 0 (-7) tenDays))
    (testWorld (some true) (addDateUTC 0 0 (-7) tenDays)) rfl rfl rfl⟩

/-- C6: with two listed keys of the resolved title, both with the desired
flag, and a secret ten days old, the handler inspects the secret once for
each of the two keys and deletes key 2, the last one, not key 1. -/
theorem duplicate_titles_delete_last :
    (processRepository testEnv testTokenPath testKeyPath testKeyTitle testTeam testRepository []
        duplicateWorld).2.2 =
      [Event.createAccessToken "telia-oss" true,
       Event.writeSecret .token "/concourse/test-team/telia-oss" "token" true,
       Event.listKeys testRepository true,
       Event.getLastUpdated "/concourse/test-team/test-repository" true,
       Event.getLastUpdated "/concourse/test-team/test-repository" true,
       Event.generateKeyPair "concourse-test-team-deploy-key" (some ("private", "public")),
       Event.createKey testRepository "concourse-test-team-deploy-key" "public" true,
       Event.writeSecret .key "/concourse/test-team/test-repository" "private" true,
       Event.sleep second,
       Event.deleteKey testRepository 2 true] := by
  decide

/-! ## The owner token -/

/-- C7, the claim as stated fails: with two repositories of one owner and a
failing `createAccessToken`, the run mints twice and writes no token. -/
theorem one_token_per_owner_counterexample :
    ¬ (ownerCalls .createAccessToken "telia-oss"
        (New testEnv testTokenPath testKeyPath testKeyTitle sharedTeam mintFailsWorld).2.2 = 1 ∧
      ownerCalls .writeToken "telia-oss"
        (New testEnv testTokenPath testKeyPath testKeyTitle sharedTeam mintFailsWorld).2.2 = 1) := by
  decide

/-- C7, amended: in every run at most one token write succeeds for an owner;
and for an owner of one or more repositories of the team, when the templates
of its repositories resolve and `createAccessToken` and the token
`writeSecret` succeed, the run makes exactly one `createAccessToken` call and
exactly one token write for that owner, however many repositories share it. -/
theorem one_token_per_owner {σ : Type} (env : Env σ)
    (tokenTemplate keyTemplate titleTemplate : String) (team : Team) (s : σ)
    (owner : String) :
    ownerTokenStored owner (New env tokenTemplate keyTemplate titleTemplate team s).2.2 ≤ 1 ∧
    ((∃ r ∈ team.Repositories, r.Owner = owner) →
      (∀ t, ∃ token t1, env.manager.createAccessToken owner t = (.ok token, t1)) →
      (∀ r ∈ team.Repositories, r.Owner = owner → ∃ tokenPath keyPath title,
        env.NewTemplate team.Name r.Name r.Owner tokenTemplate = .ok tokenPath ∧
        env.NewTemplate team.Name r.Name r.Owner keyTemplate = .ok keyPath ∧
        env.NewTemplate team.Name r.Name r.Owner titleTemplate = .ok title ∧
        ∀ token t, ∃ t1, env.manager.writeSecret tokenPath token t = (none, t1)) →
      ownerCalls .createAccessToken owner
        (New env tokenTemplate keyTemplate titleTemplate team s).2.2 = 1 ∧
      ownerCalls .writeToken owner
        (New env tokenTemplate keyTemplate titleTemplate team s).2.2 = 1) := by
  refine ⟨ownerTokenStored_le_one env tokenTemplate keyTemplate titleTemplate team owner
    team.Repositories [] s, fun hex hmint hok => ⟨?_, ?_⟩⟩
  · exact ownerCalls_eq_one env tokenTemplate keyTemplate titleTemplate team owner _
      (Or.inl rfl) hmint team.Repositories [] s rfl hex hok
  · exact ownerCalls_eq_one env tokenTemplate keyTemplate titleTemplate team owner _
      (Or.inr rfl) hmint team.Repositories [] s rfl hex hok

/-- Two repositories of `telia-oss` with every call succeeding: one mint and
one token write. -/
theorem one_token_per_owner_witness :
    (∃ r ∈ sharedTeam.Repositories, r.Owner = "telia-oss") ∧
    ownerTokenStored "telia-oss"
      (New (boundaryEnv []) testTokenPath testKeyPath testKeyTitle sharedTeam tenDays).2.2 ≤ 1 ∧
    ownerCalls .createAccessToken "telia-oss"
      (New (boundaryEnv []) testTokenPath testKeyPath testKeyTitle sharedTeam tenDays).2.2 = 1 ∧
    ownerCalls .writeToken "telia-oss"
      (New (boundaryEnv []) testTokenPath testKeyPath testKeyTitle sharedTeam tenDays).2.2 = 1 :=
  have h := one_token_per_owner (boundaryEnv []) testTokenPath testKeyPath testKeyTitle
    sharedTeam tenDays "telia-oss"
  have hex : ∃ r ∈ sharedTeam.Repositories, r.Owner = "telia-oss" :=
    ⟨⟨"repository-a", "telia-oss", true⟩, by decide, rfl⟩
  ⟨hex, h.1,
   h.2 hex (fun t => ⟨"token", t, rfl⟩)
    (fun r hr _ => by
      simp only [sharedTeam, List.mem_cons, List.mem_singleton, List.not_mem_nil,
        or_false] at hr
      rcases hr with rfl | rfl
      · exact ⟨"/concourse/test-team/telia-oss", "/concourse/test-team/repository-a",
          "concourse-test-team-deploy-key", rfl, rfl, rfl, fun _ t => ⟨t, rfl⟩⟩
      · exact ⟨"/concourse/test-team/telia-oss", "/concourse/test-team/repository-b",
          "concourse-test-team-deploy-key", rfl, rfl, rfl, fun _ t => ⟨t, rfl⟩⟩)⟩

/-- C10: (1) an owner absent from `tokenAdded` is present after an iteration
only if it is the repository's owner and the iteration started with a
successful `createAccessToken` and a successful token `writeSecret`; (2) once
an owner is present, no later iteration of a repository of that owner makes
a `createAccessToken` call or a token write; (3) if the mint or the token
write fails, `tokenAdded` is unchanged and the iteration consists of token
calls and a final warning, so `listKeys` is not called; (4) after such a
failure the next repository of that owner whose templates resolve starts by
calling `createAccessToken` again. -/
theorem token_marked_after_success {σ : Type} (env : Env σ)
    (tokenTemplate keyTemplate titleTemplate : String) (team : Team) :
    (∀ (repository : Repository) (tokenAdded : TokenAdded) (s : σ) (owner : String),
      tokenAdded.lookup owner = none →
      (processRepository env tokenTemplate keyTemplate titleTemplate team repository
        tokenAdded s).1.lookup owner ≠ none →
      owner = repository.Owner ∧ ∃ tokenPath token rest,
        env.NewTemplate team.Name repository.Name repository.Owner tokenTemplate
          = .ok tokenPath ∧
        (processRepository env tokenTemplate keyTemplate titleTemplate team repository
          tokenAdded s).2.2 =
          Event.createAccessToken owner true ::
            Event.writeSecret .token tokenPath token true :: rest) ∧
    (∀ (repositories : List Repository) (tokenAdded : TokenAdded) (s : σ) (owner : String),
      tokenAdded.lookup owner ≠ none →
      ∀ entry ∈ (processRepositories env tokenTemplate keyTemplate titleTemplate team
        repositories tokenAdded s).2.2, entry.1.Owner = owner →
        ∀ e ∈ entry.2, e.kind ≠ .createAccessToken ∧ e.kind ≠ .writeToken) ∧
    (∀ (repository : Repository) (tokenAdded : TokenAdded) (s : σ)
      (tokenPath keyPath title : String),
      env.NewTemplate team.Name repository.Name repository.Owner tokenTemplate
        = .ok tokenPath →
      env.NewTemplate team.Name repository.Name repository.Owner keyTemplate = .ok keyPath →
      env.NewTemplate team.Name repository.Name repository.Owner titleTemplate = .ok title →
      tokenAdded.lookup repository.Owner = none →
      ((∃ e s1, env.manager.createAccessToken repository.Owner s = (.error e, s1)) ∨
        ∃ token s1 e s2, env.manager.createAccessToken repository.Owner s = (.ok token, s1) ∧
          env.manager.writeSecret tokenPath token s1 = (some e, s2)) →
      (processRepository env tokenTemplate keyTemplate titleTemplate team repository
        tokenAdded s).1 = tokenAdded ∧
      (∀ e ∈ (processRepository env tokenTemplate keyTemplate titleTemplate team repository
        tokenAdded s).2.2,
        e.kind = .createAccessToken ∨ e.kind = .writeToken ∨ e.kind = .warnf) ∧
      ∃ pre message, (processRepository env tokenTemplate keyTemplate titleTemplate team
        repository tokenAdded s).2.2 = pre ++ [Event.warnf message]) ∧
    (∀ (first : Repository) (middle : List Repository) (next : Repository)
      (rest : List Repository) (tokenAdded : TokenAdded) (s : σ)
      (tokenPath keyPath title tokenPath1 keyPath1 title1 : String),
      env.NewTemplate team.Name first.Name first.Owner tokenTemplate = .ok tokenPath →
      env.NewTemplate team.Name first.Name first.Owner keyTemplate = .ok keyPath →
      env.NewTemplate team.Name first.Name first.Owner titleTemplate = .ok title →
      tokenAdded.lookup first.Owner = none →
      ((∃ e s1, env.manager.createAccessToken first.Owner s = (.error e, s1)) ∨
        ∃ token s1 e s2, env.manager.createAccessToken first.Owner s = (.ok token, s1) ∧
          env.manager.writeSecret tokenPath token s1 = (some e, s2)) →
      (∀ r ∈ middle, r.Owner ≠ first.Owner ∨
        ((∃ e, env.NewTemplate team.Name r.Name r.Owner tokenTemplate = .error e) ∨
         (∃ e, env.NewTemplate team.Name r.Name r.Owner keyTemplate = .error e) ∨
         (∃ e, env.NewTemplate team.Name r.Name r.Owner titleTemplate = .error e))) →
      next.Owner = first.Owner →
      env.NewTemplate team.Name next.Name next.Owner tokenTemplate = .ok tokenPath1 →
      env.NewTemplate team.Name next.Name next.Owner keyTemplate = .ok keyPath1 →
      env.NewTemplate team.Name next.Name next.Owner titleTemplate = .ok title1 →
      ∃ ok tail,
        (processRepositories env tokenTemplate keyTemplate titleTemplate team
          (first :: (middle ++ next :: rest)) tokenAdded s).2.2[middle.length + 1]? =
          some (next, Event.createAccessToken first.Owner ok :: tail)) := by
  refine ⟨?_, ?_, ?_, ?_⟩
  · intro repository tokenAdded s owner habsent hpresent
    rcases processRepository_token env tokenTemplate keyTemplate titleTemplate team repository
      tokenAdded s with ⟨h1, -⟩ | ⟨-, h1, tokenPath, token, rest, hT, hev, -⟩
    · rw [h1] at hpresent
      exact absurd habsent hpresent
    · rw [h1, List.lookup_cons] at hpresent
      have ho : owner = repository.Owner := by
        by_contra hne
        have : (owner == repository.Owner) = false := by simpa using hne
        rw [this] at hpresent
        exact hpresent habsent
      subst ho
      exact ⟨rfl, tokenPath, token, rest, hT, hev⟩
  · intro repositories tokenAdded s owner hpresent
    exact processRepositories_present env tokenTemplate keyTemplate titleTemplate team owner
      repositories tokenAdded s hpresent
  · intro repository tokenAdded s tokenPath keyPath title hT hK hTi habsent hfail
    exact processRepository_token_failed env tokenTemplate keyTemplate titleTemplate team
      repository tokenAdded s tokenPath keyPath title hT hK hTi habsent hfail
  · intro first middle next rest tokenAdded s tokenPath keyPath title tokenPath1 keyPath1
      title1 hT hK hTi habsent hfail hmid hnext hT1 hK1 hTi1
    obtain ⟨hsame, -, -⟩ := processRepository_token_failed env tokenTemplate keyTemplate
      titleTemplate team first tokenAdded s tokenPath keyPath title hT hK hTi habsent hfail
    have hmidabs := processRepositories_absent env tokenTemplate keyTemplate titleTemplate team
      first.Owner middle tokenAdded
      (processRepository env tokenTemplate keyTemplate titleTemplate team first
        tokenAdded s).2.1 habsent hmid
    rw [← hnext] at hmidabs
    obtain ⟨ok, tail, hev⟩ := processRepository_mints env tokenTemplate keyTemplate
      titleTemplate team next _
      (processRepositories env tokenTemplate keyTemplate titleTemplate team middle tokenAdded
        (processRepository env tokenTemplate keyTemplate titleTemplate team first
          tokenAdded s).2.1).2.1 tokenPath1 keyPath1 title1 hT1 hK1 hTi1 hmidabs
    refine ⟨ok, tail, ?_⟩
    conv_lhs => unfold processRepositories
    dsimp only
    rw [hsame, processRepositories_append]
    dsimp only
    rw [List.getElem?_cons_succ, List.getElem?_append_right
      (by rw [processRepositories_length]),
      processRepositories_length, Nat.sub_self]
    conv_lhs => arg 1; unfold processRepositories
    dsimp only
    rw [hev, hnext]
    simp

/-- A failing mint on two repositories of one owner: the first iteration
leaves `tokenAdded` empty without listing keys and the second mints again;
with every call succeeding the owner is added after mint and write, and an
owner already present triggers no token call. -/
theorem token_marked_after_success_witness :
    (∃ tokenPath token rest,
      testEnv.NewTemplate sharedTeam.Name "repository-a" "telia-oss" testTokenPath
        = .ok tokenPath ∧
      (processRepository testEnv testTokenPath testKeyPath testKeyTitle sharedTeam
        ⟨"repository-a", "telia-oss", true⟩ [] (testWorld (some true) tenDays)).2.2 =
        Event.createAccessToken "telia-oss" true ::
          Event.writeSecret .token tokenPath token true :: rest) ∧
    (∀ entry ∈ (processRepositories testEnv testTokenPath testKeyPath testKeyTitle sharedTeam
        sharedTeam.Repositories [("telia-oss", true)] (testWorld (some true) tenDays)).2.2,
      entry.1.Owner = "telia-oss" →
      ∀ e ∈ entry.2, e.kind ≠ .createAccessToken ∧ e.kind ≠ .writeToken) ∧
    ((processRepository testEnv testTokenPath testKeyPath testKeyTitle sharedTeam
        ⟨"repository-a", "telia-oss", true⟩ [] mintFailsWorld).1 = [] ∧
      ∀ e ∈ (processRepository testEnv testTokenPath testKeyPath testKeyTitle sharedTeam
        ⟨"repository-a", "telia-oss", true⟩ [] mintFailsWorld).2.2,
        e.kind = .createAccessToken ∨ e.kind = .writeToken ∨ e.kind = .warnf) ∧
    ∃ ok tail,
      (processRepositories testEnv testTokenPath testKeyPath testKeyTitle sharedTeam
        (⟨"repository-a", "telia-oss", true⟩ :: ([] ++ ⟨"repository-b", "telia-oss", true⟩ :: []))
        [] mintFailsWorld).2.2[0 + 1]? =
        some (⟨"repository-b", "telia-oss", true⟩,
          Event.createAccessToken "telia-oss" ok :: tail) :=
  have h := token_marked_after_success testEnv testTokenPath testKeyPath testKeyTitle sharedTeam
  have h3 := h.2.2.1 ⟨"repository-a", "telia-oss", true⟩ [] mintFailsWorld
    "/concourse/test-team/telia-oss" "/concourse/test-team/repository-a"
    "concourse-test-team-deploy-key" rfl rfl rfl rfl
    (Or.inl ⟨⟨none, "mint"⟩, mintFailsWorld, rfl⟩)
  ⟨(h.1 ⟨"repository-a", "telia-oss", true⟩ [] (testWorld (some true) tenDays) "telia-oss" rfl
      (by decide)).2,
   h.2.1 sharedTeam.Repositories [("telia-oss", true)] (testWorld (some true) tenDays)
      "telia-oss" (by decide),
   ⟨h3.1, h3.2.1⟩,
   h.2.2.2 ⟨"repository-a", "telia-oss", true⟩ [] ⟨"repository-b", "telia-oss", true⟩ [] []
      mintFailsWorld
      "/concourse/test-team/telia-oss" "/concourse/test-team/repository-a"
      "concourse-test-team-deploy-key"
      "/concourse/test-team/telia-oss" "/concourse/test-team/repository-b"
      "concourse-test-team-deploy-key" rfl rfl rfl rfl
      (Or.inl ⟨⟨none, "mint"⟩, mintFailsWorld, rfl⟩) (by simp) rfl rfl rfl rfl⟩

/-! ## Template failures -/

/-- C9: when the token path, key path or title template of a repository does
not resolve, its iteration is one warning: no collaborator is called, the
world and `tokenAdded` are unchanged, and the loop goes on with the remaining
repositories from that same `tokenAdded` and world. -/
theorem unresolved_template_skips {σ : Type} (env : Env σ)
    (tokenTemplate keyTemplate titleTemplate : String) (team : Team)
    (repository : Repository) (rest : List Repository) (tokenAdded : TokenAdded) (s : σ)
    (hfail : (∃ e, env.NewTemplate team.Name repository.Name repository.Owner tokenTemplate
        = .error e) ∨
      (∃ e, env.NewTemplate team.Name repository.Name repository.Owner keyTemplate
        = .error e) ∨
      (∃ e, env.NewTemplate team.Name repository.Name repository.Owner titleTemplate
        = .error e)) :
    ∃ message,
      processRepository env tokenTemplate keyTemplate titleTemplate team repository
        tokenAdded s = (tokenAdded, s, [Event.warnf message]) ∧
      processRepositories env tokenTemplate keyTemplate titleTemplate team (repository :: rest)
        tokenAdded s =
        ((processRepositories env tokenTemplate keyTemplate titleTemplate team rest
            tokenAdded s).1,
         (processRepositories env tokenTemplate keyTemplate titleTemplate team rest
            tokenAdded s).2.1,
         (repository, [Event.warnf message]) ::
          (processRepositories env tokenTemplate keyTemplate titleTemplate team rest
            tokenAdded s).2.2) := by
  obtain ⟨message, hm⟩ :=
    processRepository_unresolved env _ _ _ team repository tokenAdded s hfail
  refine ⟨message, hm, ?_⟩
  conv_lhs => unfold processRepositories
  dsimp only
  rw [hm]

/-- The failing template of `models_test.go` as key template: the test
repository is skipped with a warning and nothing is called. -/
theorem unresolved_template_skips_witness :
    (∃ e, testEnv.NewTemplate testTeam.Name testRepository.Name testRepository.Owner
      unknownFieldTemplate = .error e) ∧
    ∃ message,
      processRepository testEnv testTokenPath unknownFieldTemplate testKeyTitle testTeam
        testRepository [] (testWorld (some true) 0) =
        ([], testWorld (some true) 0, [Event.warnf message]) ∧
      processRepositories testEnv testTokenPath unknownFieldTemplate testKeyTitle testTeam
        (testRepository :: []) [] (testWorld (some true) 0) =
        ((processRepositories testEnv testTokenPath unknownFieldTemplate testKeyTitle testTeam
            [] [] (testWorld (some true) 0)).1,
         (processRepositories testEnv testTokenPath unknownFieldTemplate testKeyTitle testTeam
            [] [] (testWorld (some true) 0)).2.1,
         (testRepository, [Event.warnf message]) ::
          (processRepositories testEnv testTokenPath unknownFieldTemplate testKeyTitle testTeam
            [] [] (testWorld (some true) 0)).2.2) :=
  ⟨⟨⟨none, "can't evaluate field Something"⟩, rfl⟩,
   unresolved_template_skips testEnv testTokenPath unknownFieldTemplate testKeyTitle testTeam
    testRepository [] [] (testWorld (some true) 0)
    (Or.inr (Or.inl ⟨⟨none, "can't evaluate field Something"⟩, rfl⟩))⟩

/-! ## Failures in the rotate sequence -/

/-- C11: in every run each repository of the team has its iteration, in
order, and in an iteration a failed `generateKeyPair`, `createKey`, key-path
`writeSecret` or `deleteKey` is followed by exactly one warning and nothing
else: no later step of the rotate sequence and no rollback call is made. -/
theorem rotate_steps_are_hard_stops {σ : Type} (env : Env σ)
    (tokenTemplate keyTemplate titleTemplate : String) (team : Team) (s : σ) :
    (New env tokenTemplate keyTemplate titleTemplate team s).2.2.map Prod.fst
      = team.Repositories ∧
    ∀ (repository : Repository) (events : List Event),
      (repository, events) ∈ (New env tokenTemplate keyTemplate titleTemplate team s).2.2 →
      ∀ (pre : List Event) (e : Event) (post : List Event),
        events = pre ++ e :: post → e.isFailedStep = true →
        ∃ message, post = [Event.warnf message] := by
  refine ⟨processRepositories_fst env tokenTemplate keyTemplate titleTemplate team
    team.Repositories [] s, ?_⟩
  intro repository events hrun pre e post hsplit hfailed
  obtain ⟨added, s1, hev⟩ := mem_processRepositories env tokenTemplate keyTemplate
    titleTemplate team team.Repositories [] s repository events hrun
  have hmem : e ∈ events := by rw [hsplit]; simp
  have hkind := kind_of_isFailedStep e hfailed
  have hhead : ∀ l : List Event, (∀ x ∈ l,
      x.kind = .createAccessToken ∨ x.kind = .writeToken ∨ x.kind = .warnf ∨
      x.kind = .listKeys ∨ x.kind = .getLastUpdated) → ∀ x ∈ l, x.isFailedStep = false := by
    intro l hl x hx
    by_contra hne
    have hx1 := kind_of_isFailedStep x (by simpa using hne)
    rcases hl x hx with h | h | h | h | h <;> rw [h] at hx1 <;> simp at hx1
  rcases processRepository_cases env tokenTemplate keyTemplate titleTemplate team repository
    added s1 with h | ⟨tokenPath, keyPath, title, added1, s2, evs, keys, s3, oldKey, s4, evs2,
      -, -, -, -, -, -, hshape, hpre⟩
  · rw [← hev] at h
    have := hhead events h e hmem
    rw [hfailed] at this
    cases this
  · rw [← hev] at hshape
    rcases rotate_failed_shape env repository title keyPath oldKey s4 with hno | hyes
    · rw [hshape] at hmem
      rcases List.mem_append.1 hmem with he | he
      · have := hhead _ hpre e he
        rw [hfailed] at this
        cases this
      · have := hno e he
        rw [hfailed] at this
        cases this
    · obtain ⟨pre1, f, message, hrot, hpre1⟩ := hyes
      rw [hrot, hsplit, ← List.append_assoc] at hshape
      have hxs : ∀ x ∈ (evs ++ Event.listKeys repository true :: evs2) ++ pre1,
          x.isFailedStep = false := by
        intro x hx
        rcases List.mem_append.1 hx with hx | hx
        · exact hhead _ hpre x hx
        · exact hpre1 x hx
      obtain ⟨-, -, h3⟩ := split_unique_of Event.isFailedStep _ f [Event.warnf message] pre e
        post hxs (by simp [Event.isFailedStep]) hfailed hshape.symm
      exact ⟨message, h3⟩

/-- A failing `createKey` for the test repository: the iteration ends with
the failed call and one warning. -/
theorem rotate_steps_are_hard_stops_witness :
    (testRepository,
      [Event.createAccessToken "telia-oss" true,
       Event.writeSecret .token "/concourse/test-team/telia-oss" "token" true,
       Event.listKeys testRepository true,
       Event.generateKeyPair "concourse-test-team-deploy-key" (some ("private", "public"))] ++
       Event.createKey testRepository "concourse-test-team-deploy-key" "public" false ::
      [Event.warnf "failed to create key on github: create"]) ∈
      (New testEnv testTokenPath testKeyPath testKeyTitle testTeam createFailsWorld).2.2 ∧
    ∃ message, [Event.warnf "failed to create key on github: create"] =
      [Event.warnf message] :=
  ⟨by decide,
   (rotate_steps_are_hard_stops testEnv testTokenPath testKeyPath testKeyTitle testTeam
    createFailsWorld).2 testRepository
    ([Event.createAccessToken "telia-oss" true,
       Event.writeSecret .token "/concourse/test-team/telia-oss" "token" true,
       Event.listKeys testRepository true,
       Event.generateKeyPair "concourse-test-team-deploy-key" (some ("private", "public"))] ++
       Event.createKey testRepository "concourse-test-team-deploy-key" "public" false ::
      [Event.warnf "failed to create key on github: create"])
    (by decide) _
    (Event.createKey testRepository "concourse-test-team-deploy-key" "public" false) _ rfl rfl⟩

/-- C12: for a repository whose templates resolve, whose token step passes
and whose keys are listed, if the first listed key with the resolved title
reports the desired flag and `getLastUpdated` fails, the events after
`listKeys` are the failed `getLastUpdated`, then no warning when the error
has the not-found code and exactly one warning otherwise, then the rotate
sequence with that key as the old key: `generateKeyPair` on the title, on
success `createKey` with the public key, on success `writeSecret` of the
private key at the key path, and when the three succeed the one-second sleep
and `deleteKey` with that key's id. -/
theorem inspection_failure_rotates {σ : Type} (env : Env σ)
    (tokenTemplate keyTemplate titleTemplate : String) (team : Team)
    (repository : Repository) (tokenAdded : TokenAdded) (s : σ)
    (tokenPath keyPath title : String)
    (hToken : env.NewTemplate team.Name repository.Name repository.Owner tokenTemplate
      = .ok tokenPath)
    (hKey : env.NewTemplate team.Name repository.Name repository.Owner keyTemplate
      = .ok keyPath)
    (hTitle : env.NewTemplate team.Name repository.Name repository.Owner titleTemplate
      = .ok title)
    (added : TokenAdded) (s1 : σ) (evs : List Event)
    (htok : ensureToken env tokenPath repository tokenAdded s = (true, added, s1, evs))
    (keys : List Key) (s2 : σ)
    (hlist : env.manager.listKeys repository s1 = (.ok keys, s2))
    (key : Key) (hfirst : keys.find? (fun k => decide (k.Title = title)) = some key)
    (hflag : key.ReadOnly = some repository.ReadOnly)
    (err : Err) (s3 : σ)
    (hupdated : env.manager.getLastUpdated keyPath s2 = (.error err, s3)) :
    ∃ warnings result rest,
      (processRepository env tokenTemplate keyTemplate titleTemplate team repository
        tokenAdded s).2.2 =
        evs ++ Event.listKeys repository true :: Event.getLastUpdated keyPath false ::
          (warnings ++ Event.generateKeyPair title result :: rest) ∧
      (err.code = some ErrCodeResourceNotFoundException → warnings = []) ∧
      (err.code ≠ some ErrCodeResourceNotFoundException →
        warnings = [Event.warnf ("failed to get last updated for secret: " ++ err.msg)]) ∧
      (result.isSome = true ↔
        ∃ pair s4, env.manager.generateKeyPair title s3 = (.ok pair, s4)) ∧
      (∀ priv pub, result = some (priv, pub) →
        ∃ ok rest1, rest = Event.createKey repository title pub ok :: rest1 ∧
          (ok = true →
            ∃ ok1 rest2, rest1 = Event.writeSecret .key keyPath priv ok1 :: rest2)) ∧
      ∀ (priv pub : String) (s4 s5 s6 : σ),
        env.manager.generateKeyPair title s3 = (.ok (priv, pub), s4) →
        env.manager.createKey repository title pub s4 = (none, s5) →
        env.manager.writeSecret keyPath priv s5 = (none, s6) →
        ∃ ok tail, result = some (priv, pub) ∧
          rest = [Event.createKey repository title pub true,
            Event.writeSecret .key keyPath priv true, Event.sleep (second * 1),
            Event.deleteKey repository key.ID ok] ++ tail ∧
          ∀ e ∈ tail, e.kind = .warnf := by
  obtain ⟨ht, others, hscan⟩ :=
    scanKeys_first_match env repository title keyPath keys key hfirst
  have hres := processRepository_listed env _ _ _ team repository tokenAdded s _ _ _
    hToken hKey hTitle added s1 evs htok keys s2 hlist
  rw [hscan none s2] at hres
  obtain ⟨result, rest, hrot, hsome, horder⟩ :=
    rotate_order env repository title keyPath (some key) s3
  have hsuccess : ∀ (priv pub : String) (s4 s5 s6 : σ),
      env.manager.generateKeyPair title s3 = (.ok (priv, pub), s4) →
      env.manager.createKey repository title pub s4 = (none, s5) →
      env.manager.writeSecret keyPath priv s5 = (none, s6) →
      ∃ ok tail, result = some (priv, pub) ∧
        rest = [Event.createKey repository title pub true,
          Event.writeSecret .key keyPath priv true, Event.sleep (second * 1),
          Event.deleteKey repository key.ID ok] ++ tail ∧
        ∀ e ∈ tail, e.kind = .warnf := by
    intro priv pub s4 s5 s6 hg hc hw
    obtain ⟨ok, tail, hshape, htail⟩ := rotate_success env repository title keyPath key s3 s4
      s5 s6 priv pub hg hc hw
    rw [hrot] at hshape
    simp only [List.cons_append, List.nil_append, List.cons.injEq,
      Event.generateKeyPair.injEq, true_and] at hshape
    exact ⟨ok, tail, hshape.1, by rw [hshape.2]; rfl, htail⟩
  by_cases hcode : err.code = some ErrCodeResourceNotFoundException
  · refine ⟨[], result, rest, ?_, fun _ => rfl, fun h => absurd hcode h, hsome, horder,
      hsuccess⟩
    rw [hres]
    unfold scanKeys
    simp [ht, hflag, hupdated, hcode, hrot]
  · refine ⟨[Event.warnf ("failed to get last updated for secret: " ++ err.msg)], result, rest,
      ?_, fun h => absurd h hcode, fun _ => rfl, hsome, horder, hsuccess⟩
    rw [hres]
    unfold scanKeys
    simp [ht, hflag, hupdated, hcode, hrot]

/-- Key 1 has the title and the desired flag.  When its secret does not
exist the handler goes from the failed inspection straight to generate,
publish, persist, sleep and delete of key 1; when the store refuses to
describe the secret the same happens after one warning. -/
theorem inspection_failure_rotates_witness :
    (processRepository testEnv testTokenPath testKeyPath testKeyTitle testTeam testRepository
        [] secretMissingWorld).2.2 =
      [Event.createAccessToken "telia-oss" true,
       Event.writeSecret .token "/concourse/test-team/telia-oss" "token" true,
       Event.listKeys testRepository true,
       Event.getLastUpdated "/concourse/test-team/test-repository" false,
       Event.generateKeyPair "concourse-test-team-deploy-key" (some ("private", "public")),
       Event.createKey testRepository "concourse-test-team-deploy-key" "public" true,
       Event.writeSecret .key "/concourse/test-team/test-repository" "private" true,
       Event.sleep second,
       Event.deleteKey testRepository 1 true] ∧
    (processRepository testEnv testTokenPath testKeyPath testKeyTitle testTeam testRepository
        [] secretUnreadableWorld).2.2 =
      [Event.createAccessToken "telia-oss" true,
       Event.writeSecret .token "/concourse/test-team/telia-oss" "token" true,
       Event.listKeys testRepository true,
       Event.getLastUpdated "/concourse/test-team/test-repository" false,
       Event.warnf "failed to get last updated for secret: access denied",
       Event.generateKeyPair "concourse-test-team-deploy-key" (some ("private", "public")),
       Event.createKey testRepository "concourse-test-team-deploy-key" "public" true,
       Event.writeSecret .key "/concourse/test-team/test-repository" "private" true,
       Event.sleep second,
       Event.deleteKey testRepository 1 true] ∧
    (∃ warnings result rest,
      (processRepository testEnv testTokenPath testKeyPath testKeyTitle testTeam
        testRepository [] secretMissingWorld).2.2 =
        [Event.createAccessToken "telia-oss" true,
         Event.writeSecret .token "/concourse/test-team/telia-oss" "token" true] ++
        Event.listKeys testRepository true ::
        Event.getLastUpdated "/concourse/test-team/test-repository" false ::
          (warnings ++ Event.generateKeyPair "concourse-test-team-deploy-key" result :: rest) ∧
      warnings = [] ∧
      ∃ ok tail, result = some ("private", "public") ∧
        rest = [Event.createKey testRepository "concourse-test-team-deploy-key" "public" true,
          Event.writeSecret .key "/concourse/test-team/test-repository" "private" true,
          Event.sleep (second * 1), Event.deleteKey testRepository 1 ok] ++ tail ∧
        ∀ e ∈ tail, e.kind = .warnf) ∧
    ∃ warnings result rest,
      (processRepository testEnv testTokenPath testKeyPath testKeyTitle testTeam
        testRepository [] secretUnreadableWorld).2.2 =
        [Event.createAccessToken "telia-oss" true,
         Event.writeSecret .token "/concourse/test-team/telia-oss" "token" true] ++
        Event.listKeys testRepository true ::
        Event.getLastUpdated "/concourse/test-team/test-repository" false ::
          (warnings ++ Event.generateKeyPair "concourse-test-team-deploy-key" result :: rest) ∧
      warnings = [Event.warnf "failed to get last updated for secret: access denied"] ∧
      ∃ ok tail, result = some ("private", "public") ∧
        rest = [Event.createKey testRepository "concourse-test-team-deploy-key" "public" true,
          Event.writeSecret .key "/concourse/test-team/test-repository" "private" true,
          Event.sleep (second * 1), Event.deleteKey testRepository 1 ok] ++ tail ∧
        ∀ e ∈ tail, e.kind = .warnf :=
  have hmissing := inspection_failure_rotates testEnv testTokenPath testKeyPath testKeyTitle
    testTeam testRepository [] secretMissingWorld
    "/concourse/test-team/telia-oss" "/concourse/test-team/test-repository"
    "concourse-test-team-deploy-key" rfl rfl rfl
    [("telia-oss", true)] secretMissingWorld _ rfl
    [⟨1, "concourse-test-team-deploy-key", some true⟩] secretMissingWorld rfl
    ⟨1, "concourse-test-team-deploy-key", some true⟩ (by decide) rfl
    ⟨some ErrCodeResourceNotFoundException, "secret not found"⟩ secretMissingWorld rfl
  have hunreadable := inspection_failure_rotates testEnv testTokenPath testKeyPath testKeyTitle
    testTeam testRepository [] secretUnreadableWorld
    "/concourse/test-team/telia-oss" "/concourse/test-team/test-repository"
    "concourse-test-team-deploy-key" rfl rfl rfl
    [("telia-oss", true)] secretUnreadableWorld _ rfl
    [⟨1, "concourse-test-team-deploy-key", some true⟩] secretUnreadableWorld rfl
    ⟨1, "concourse-test-team-deploy-key", some true⟩ (by decide) rfl
    ⟨some "AccessDeniedException", "access denied"⟩ secretUnreadableWorld rfl
  ⟨by decide, by decide,
   (let ⟨warnings, result, rest, h1, h2, _, _, _, h6⟩ := hmissing
    ⟨warnings, result, rest, h1, h2 rfl,
      h6 "private" "public" secretMissingWorld secretMissingWorld secretMissingWorld
        rfl rfl rfl⟩),
   (let ⟨warnings, result, rest, h1, _, h3, _, _, h6⟩ := hunreadable
    ⟨warnings, result, rest, h1, h3 (by decide),
      h6 "private" "public" secretUnreadableWorld secretUnreadableWorld secretUnreadableWorld
        rfl rfl rfl⟩)⟩

/-! ## The grace delay -/

/-- C13: an iteration sleeps if and only if its templates resolve, its token
step passes, its keys are listed, the scan ends with an old key, and
generate, `createKey` and the key-path `writeSecret` succeed; and a sleep, of
one second, comes right after the successful generate, `createKey` and
`writeSecret` and right before the `deleteKey` call, the only sleep and the
only delete of the iteration. -/
theorem sleep_only_before_delete {σ : Type} (env : Env σ)
    (tokenTemplate keyTemplate titleTemplate : String) (team : Team)
    (repository : Repository) (tokenAdded : TokenAdded) (s : σ) :
    ((∃ d, Event.sleep d ∈ (processRepository env tokenTemplate keyTemplate titleTemplate team
        repository tokenAdded s).2.2) ↔
      ∃ tokenPath keyPath title added s1 evs keys s2 old s3 evs2 priv pub s4 s5 s6,
        env.NewTemplate team.Name repository.Name repository.Owner tokenTemplate
          = .ok tokenPath ∧
        env.NewTemplate team.Name repository.Name repository.Owner keyTemplate
          = .ok keyPath ∧
        env.NewTemplate team.Name repository.Name repository.Owner titleTemplate
          = .ok title ∧
        ensureToken env tokenPath repository tokenAdded s = (true, added, s1, evs) ∧
        env.manager.listKeys repository s1 = (.ok keys, s2) ∧
        scanKeys env repository title keyPath keys none s2 = (.rotate (some old), s3, evs2) ∧
        env.manager.generateKeyPair title s3 = (.ok (priv, pub), s4) ∧
        env.manager.createKey repository title pub s4 = (none, s5) ∧
        env.manager.writeSecret keyPath priv s5 = (none, s6)) ∧
    ∀ (pre : List Event) (d : Int) (post : List Event),
      (processRepository env tokenTemplate keyTemplate titleTemplate team repository
        tokenAdded s).2.2 = pre ++ Event.sleep d :: post →
      d = second * 1 ∧
      ∃ pre0 title keyPath priv pub id ok tail,
        pre = pre0 ++ [Event.generateKeyPair title (some (priv, pub)),
          Event.createKey repository title pub true,
          Event.writeSecret .key keyPath priv true] ∧
        post = Event.deleteKey repository id ok :: tail ∧
        (∀ e ∈ pre0, e.kind ≠ .sleep ∧ e.kind ≠ .deleteKey) ∧
        ∀ e ∈ tail, e.kind = .warnf := by
  have hhead : ∀ l : List Event, (∀ x ∈ l,
      x.kind = .createAccessToken ∨ x.kind = .writeToken ∨ x.kind = .warnf ∨
      x.kind = .listKeys ∨ x.kind = .getLastUpdated) →
      ∀ x ∈ l, x.kind ≠ .sleep ∧ x.kind ≠ .deleteKey := by
    intro l hl x hx
    rcases hl x hx with h | h | h | h | h <;> simp [h]
  refine ⟨⟨?_, ?_⟩, ?_⟩
  · rintro ⟨d, hd⟩
    rcases processRepository_cases env tokenTemplate keyTemplate titleTemplate team repository
      tokenAdded s with h | ⟨tokenPath, keyPath, title, added, s1, evs, keys, s2, oldKey, s3,
        evs2, hT, hK, hTi, htok, hlist, hscan, hshape, hpre⟩
    · exact absurd (kind_sleep d) (hhead _ h _ hd).1
    · rw [hshape] at hd
      rcases List.mem_append.1 hd with hd | hd
      · exact absurd (kind_sleep d) (hhead _ hpre _ hd).1
      · rcases rotate_sleep_cases env repository title keyPath oldKey s3 with
          ⟨old, priv, pub, s4, s5, s6, rfl, hg, hc, hw⟩ | ⟨-, hno⟩
        · exact ⟨tokenPath, keyPath, title, added, s1, evs, keys, s2, old, s3, evs2, priv, pub,
            s4, s5, s6, hT, hK, hTi, htok, hlist, hscan, hg, hc, hw⟩
        · exact absurd (kind_sleep d) (hno _ hd).1
  · rintro ⟨tokenPath, keyPath, title, added, s1, evs, keys, s2, old, s3, evs2, priv, pub,
      s4, s5, s6, hT, hK, hTi, htok, hlist, hscan, hg, hc, hw⟩
    obtain ⟨ok, tail, hrot, -⟩ := rotate_success env repository title keyPath old s3 s4 s5 s6
      priv pub hg hc hw
    refine ⟨second * 1, ?_⟩
    rw [processRepository_listed env _ _ _ team repository tokenAdded s _ _ _ hT hK hTi
      added s1 evs htok keys s2 hlist, hscan]
    dsimp only
    rw [hrot]
    simp
  · intro pre d post hsplit
    have hd : Event.sleep d ∈ (processRepository env tokenTemplate keyTemplate titleTemplate
        team repository tokenAdded s).2.2 := by rw [hsplit]; simp
    rcases processRepository_cases env tokenTemplate keyTemplate titleTemplate team repository
      tokenAdded s with h | ⟨tokenPath, keyPath, title, added, s1, evs, keys, s2, oldKey, s3,
        evs2, hT, hK, hTi, htok, hlist, hscan, hshape, hpre⟩
    · exact absurd (kind_sleep d) (hhead _ h _ hd).1
    · rcases rotate_sleep_cases env repository title keyPath oldKey s3 with
        ⟨old, priv, pub, s4, s5, s6, rfl, hg, hc, hw⟩ | ⟨-, hno⟩
      · obtain ⟨ok, tail, hrot, htail⟩ := rotate_success env repository title keyPath old s3
          s4 s5 s6 priv pub hg hc hw
        rw [hshape, hrot] at hsplit
        have hsplit1 : ((evs ++ Event.listKeys repository true :: evs2) ++
            [Event.generateKeyPair title (some (priv, pub)),
             Event.createKey repository title pub true,
             Event.writeSecret .key keyPath priv true]) ++
            Event.sleep (second * 1) :: (Event.deleteKey repository old.ID ok :: tail) =
            pre ++ Event.sleep d :: post := by
          rw [← hsplit]; simp
        have hxs : ∀ e ∈ (evs ++ Event.listKeys repository true :: evs2) ++
            [Event.generateKeyPair title (some (priv, pub)),
             Event.createKey repository title pub true,
             Event.writeSecret .key keyPath priv true], e.kind ≠ .sleep := by
          intro e he
          rcases List.mem_append.1 he with he | he
          · exact (hhead _ hpre e he).1
          · simp only [List.mem_cons, List.mem_singleton, List.not_mem_nil, or_false] at he
            rcases he with rfl | rfl | rfl <;> simp
        have hys : ∀ e ∈ Event.deleteKey repository old.ID ok :: tail, e.kind ≠ .sleep := by
          intro e he
          rcases List.mem_cons.1 he with rfl | he
          · simp
          · simp [htail e he]
        obtain ⟨h1, h2, h3⟩ := split_unique .sleep _ _ _ _ _ _ hxs hys (kind_sleep d) hsplit1
        simp only [Event.sleep.injEq] at h2
        refine ⟨h2, evs ++ Event.listKeys repository true :: evs2, title, keyPath, priv, pub,
          old.ID, ok, tail, h1, h3, hhead _ hpre, htail⟩
      · rw [hshape] at hd
        rcases List.mem_append.1 hd with hd | hd
        · exact absurd (kind_sleep d) (hhead _ hpre _ hd).1
        · exact absurd (kind_sleep d) (hno _ hd).1

/-- The rotation of `handler_test.go`: the one-second sleep sits between the
successful key write and the delete of key 1. -/
theorem sleep_only_before_delete_witness :
    second = second * 1 ∧
    ∃ pre0 title keyPath priv pub id ok tail,
      [Event.createAccessToken "telia-oss" true,
       Event.writeSecret .token "/concourse/test-team/telia-oss" "token" true,
       Event.listKeys testRepository true,
       Event.getLastUpdated "/concourse/test-team/test-repository" true,
       Event.generateKeyPair "concourse-test-team-deploy-key" (some ("private", "public")),
       Event.createKey testRepository "concourse-test-team-deploy-key" "public" true,
       Event.writeSecret .key "/concourse/test-team/test-repository" "private" true] =
        pre0 ++ [Event.generateKeyPair title (some (priv, pub)),
          Event.createKey testRepository title pub true,
          Event.writeSecret .key keyPath priv true] ∧
      [Event.deleteKey testRepository 1 true] = Event.deleteKey testRepository id ok :: tail ∧
      (∀ e ∈ pre0, e.kind ≠ .sleep ∧ e.kind ≠ .deleteKey) ∧
      ∀ e ∈ tail, e.kind = .warnf :=
  (sleep_only_before_delete testEnv testTokenPath testKeyPath testKeyTitle testTeam
    testRepository [] (testWorld (some true) 0)).2
    [Event.createAccessToken "telia-oss" true,
     Event.writeSecret .token "/concourse/test-team/telia-oss" "token" true,
     Event.listKeys testRepository true,
     Event.getLastUpdated "/concourse/test-team/test-repository" true,
     Event.generateKeyPair "concourse-test-team-deploy-key" (some ("private", "public")),
     Event.createKey testRepository "concourse-test-team-deploy-key" "public" true,
     Event.writeSecret .key "/concourse/test-team/test-repository" "private" true]
    second [Event.deleteKey testRepository 1 true] (by decide)

/-! ## Warnings -/

/-- C14: for every team, if the templates of every repository resolve and
every collaborator call made during the run returns success, the run logs
no warning, whether a repository is rotated or skipped. -/
theorem no_warning_without_failure {σ : Type} (env : Env σ)
    (tokenTemplate keyTemplate titleTemplate : String) (team : Team) (s : σ)
    (hresolve : ∀ r ∈ team.Repositories, ∃ tokenPath keyPath title,
      env.NewTemplate team.Name r.Name r.Owner tokenTemplate = .ok tokenPath ∧
      env.NewTemplate team.Name r.Name r.Owner keyTemplate = .ok keyPath ∧
      env.NewTemplate team.Name r.Name r.Owner titleTemplate = .ok title)
    (hsuccess : ∀ entry ∈ (New env tokenTemplate keyTemplate titleTemplate team s).2.2,
      ∀ e ∈ entry.2, e.failed = false) :
    ∀ entry ∈ (New env tokenTemplate keyTemplate titleTemplate team s).2.2,
      ∀ e ∈ entry.2, e.kind ≠ .warnf := by
  rintro ⟨repository, events⟩ hentry
  obtain ⟨hrepo, added, s1, hev⟩ := mem_processRepositories_repo env tokenTemplate keyTemplate
    titleTemplate team team.Repositories [] s repository events hentry
  obtain ⟨tokenPath, keyPath, title, hT, hK, hTi⟩ := hresolve repository hrepo
  have h := hsuccess _ hentry
  dsimp only at h ⊢
  rw [hev] at h ⊢
  exact processRepository_quiet env tokenTemplate keyTemplate titleTemplate team repository
    added s1 tokenPath keyPath title hT hK hTi h

/-- Two repositories of one owner, each with a stale matching key, and every
call succeeding: both are rotated and no warning is logged. -/
theorem no_warning_without_failure_witness :
    (∀ entry ∈ (New testEnv testTokenPath testKeyPath testKeyTitle sharedTeam
        (testWorld (some true) 0)).2.2, ∀ e ∈ entry.2, e.failed = false) ∧
    ∀ entry ∈ (New testEnv testTokenPath testKeyPath testKeyTitle sharedTeam
        (testWorld (some true) 0)).2.2, ∀ e ∈ entry.2, e.kind ≠ .warnf :=
  ⟨by decide,
   no_warning_without_failure testEnv testTokenPath testKeyPath testKeyTitle sharedTeam
    (testWorld (some true) 0)
    (fun r hr => by
      simp only [sharedTeam, List.mem_cons, List.mem_singleton, List.not_mem_nil,
        or_false] at hr
      rcases hr with rfl | rfl
      · exact ⟨"/concourse/test-team/telia-oss", "/concourse/test-team/repository-a",
          "concourse-test-team-deploy-key", rfl, rfl, rfl⟩
      · exact ⟨"/concourse/test-team/telia-oss", "/concourse/test-team/repository-b",
          "concourse-test-team-deploy-key", rfl, rfl, rfl⟩)
    (by decide)⟩

/-! ## What is deleted -/

/-- C16: an iteration calls `deleteKey` at most once, and only for its own
repository with the id of a key that is in the list its `listKeys` call
returned and whose title is the resolved title; when the listed ids are
distinct, no listed key with another title has that id. -/
theorem delete_targets_listed_key {σ : Type} (env : Env σ)
    (tokenTemplate keyTemplate titleTemplate : String) (team : Team)
    (repository : Repository) (tokenAdded : TokenAdded) (s : σ) :
    (processRepository env tokenTemplate keyTemplate titleTemplate team repository
        tokenAdded s).2.2.countP (fun e => decide (e.kind = .deleteKey)) ≤ 1 ∧
    ∀ (r : Repository) (id : Int) (ok : Bool),
      Event.deleteKey r id ok ∈ (processRepository env tokenTemplate keyTemplate titleTemplate
        team repository tokenAdded s).2.2 →
      r = repository ∧
      ∃ tokenPath keyPath title added s1 evs keys s2,
        env.NewTemplate team.Name repository.Name repository.Owner tokenTemplate
          = .ok tokenPath ∧
        env.NewTemplate team.Name repository.Name repository.Owner keyTemplate
          = .ok keyPath ∧
        env.NewTemplate team.Name repository.Name repository.Owner titleTemplate
          = .ok title ∧
        ensureToken env tokenPath repository tokenAdded s = (true, added, s1, evs) ∧
        env.manager.listKeys repository s1 = (.ok keys, s2) ∧
        (∃ key ∈ keys, key.ID = id ∧ key.Title = title) ∧
        ((keys.map Key.ID).Nodup → ∀ other ∈ keys, other.Title ≠ title → other.ID ≠ id) := by
  have hhead : ∀ l : List Event, (∀ x ∈ l,
      x.kind = .createAccessToken ∨ x.kind = .writeToken ∨ x.kind = .warnf ∨
      x.kind = .listKeys ∨ x.kind = .getLastUpdated) → ∀ x ∈ l, x.kind ≠ .deleteKey := by
    intro l hl x hx
    rcases hl x hx with h | h | h | h | h <;> simp [h]
  rcases processRepository_cases env tokenTemplate keyTemplate titleTemplate team repository
    tokenAdded s with h | ⟨tokenPath, keyPath, title, added, s1, evs, keys, s2, oldKey, s3,
      evs2, hT, hK, hTi, htok, hlist, hscan, hshape, hpre⟩
  · refine ⟨?_, ?_⟩
    · rw [countP_kind_eq_zero .deleteKey _ (hhead _ h)]
      exact Nat.zero_le _
    · intro r id ok hmem
      exact absurd (kind_deleteKey r id ok) (hhead _ h _ hmem)
  · rw [hshape]
    rcases rotate_shape env repository title keyPath oldKey s3 with hno |
      ⟨priv, pub, old, ok1, tail, rfl, hrot, htail⟩
    · refine ⟨?_, ?_⟩
      · rw [List.countP_append, countP_kind_eq_zero .deleteKey _ (hhead _ hpre),
          countP_kind_eq_zero .deleteKey _ hno]
        exact Nat.zero_le _
      · intro r id ok hmem
        rcases List.mem_append.1 hmem with hm | hm
        · exact absurd (kind_deleteKey r id ok) (hhead _ hpre _ hm)
        · exact absurd (kind_deleteKey r id ok) (hno _ hm)
    · refine ⟨?_, ?_⟩
      · have ht0 := countP_kind_eq_zero .deleteKey _ htail
        rw [List.countP_append, countP_kind_eq_zero .deleteKey _ (hhead _ hpre), hrot,
          List.countP_append]
        simp [List.countP_cons, ht0]
      · intro r id ok hmem
        have hdel : Event.deleteKey r id ok = Event.deleteKey repository old.ID ok1 := by
          rcases List.mem_append.1 hmem with hm | hm
          · exact absurd (kind_deleteKey r id ok) (hhead _ hpre _ hm)
          · rw [hrot] at hm
            rcases List.mem_append.1 hm with hm | hm
            · simp at hm
            · rcases List.mem_cons.1 hm with hm | hm
              · exact hm
              · exact absurd (kind_deleteKey r id ok) (htail _ hm)
        simp only [Event.deleteKey.injEq] at hdel
        obtain ⟨rfl, rfl, -⟩ := hdel
        have hold := scanKeys_old_mem env r title keyPath keys none s2 old (by rw [hscan])
        rcases hold with hold | ⟨hmemk, htitle⟩
        · cases hold
        · refine ⟨rfl, tokenPath, keyPath, title, added, s1, evs, keys, s2, hT, hK, hTi, htok,
            hlist, ⟨old, hmemk, rfl, htitle⟩, ?_⟩
          intro hnodup other hother hne heq
          have := List.inj_on_of_nodup_map hnodup hother hmemk heq
          rw [this] at hne
          exact hne htitle

/-- The rotation of `handler_test.go`: the one delete has the id of the
listed key 1, which carries the resolved title. -/
theorem delete_targets_listed_key_witness :
    Event.deleteKey testRepository 1 true ∈
      (processRepository testEnv testTokenPath testKeyPath testKeyTitle testTeam testRepository
        [] (testWorld (some true) 0)).2.2 ∧
    testRepository = testRepository ∧
    ∃ tokenPath keyPath title added s1 evs keys s2,
      testEnv.NewTemplate testTeam.Name testRepository.Name testRepository.Owner testTokenPath
        = .ok tokenPath ∧
      testEnv.NewTemplate testTeam.Name testRepository.Name testRepository.Owner testKeyPath
        = .ok keyPath ∧
      testEnv.NewTemplate testTeam.Name testRepository.Name testRepository.Owner testKeyTitle
        = .ok title ∧
      ensureToken testEnv tokenPath testRepository [] (testWorld (some true) 0)
        = (true, added, s1, evs) ∧
      testEnv.manager.listKeys testRepository s1 = (.ok keys, s2) ∧
      (∃ key ∈ keys, key.ID = 1 ∧ key.Title = title) ∧
      ((keys.map Key.ID).Nodup → ∀ other ∈ keys, other.Title ≠ title → other.ID ≠ 1) :=
  ⟨by decide,
   (delete_targets_listed_key testEnv testTokenPath testKeyPath testKeyTitle testTeam
    testRepository [] (testWorld (some true) 0)).2 testRepository 1 true (by decide)⟩

/-! ## Unreported read-only flag -/

/-- C17: for a repository whose templates resolve, whose token step passes
and whose keys are listed, if the first listed key with the resolved title
reports no read-only flag, then whatever the desired flag is `getLastUpdated`
is queried right after `listKeys`, and when it answers a timestamp strictly
later than now minus seven days, which the handler computes as
`time.Now().AddDate(0, 0, -7)`, the repository is skipped: no generate,
`createKey`, key-path `writeSecret` or `deleteKey` call is made. -/
theorem unreported_flag_is_not_drift {σ : Type} (env : Env σ)
    (tokenTemplate keyTemplate titleTemplate : String) (team : Team)
    (repository : Repository) (tokenAdded : TokenAdded) (s : σ)
    (tokenPath keyPath title : String)
    (hToken : env.NewTemplate team.Name repository.Name repository.Owner tokenTemplate
      = .ok tokenPath)
    (hKey : env.NewTemplate team.Name repository.Name repository.Owner keyTemplate
      = .ok keyPath)
    (hTitle : env.NewTemplate team.Name repository.Name repository.Owner titleTemplate
      = .ok title)
    (added : TokenAdded) (s1 : σ) (evs : List Event)
    (htok : ensureToken env tokenPath repository tokenAdded s = (true, added, s1, evs))
    (keys : List Key) (s2 : σ)
    (hlist : env.manager.listKeys repository s1 = (.ok keys, s2))
    (key : Key) (hfirst : keys.find? (fun k => decide (k.Title = title)) = some key)
    (hunreported : key.ReadOnly = none)
    (answer : Except Err Int) (s3 : σ)
    (hupdated : env.manager.getLastUpdated keyPath s2 = (answer, s3)) :
    (∃ ok rest,
      (processRepository env tokenTemplate keyTemplate titleTemplate team repository
        tokenAdded s).2.2 =
        evs ++ Event.listKeys repository true :: Event.getLastUpdated keyPath ok :: rest) ∧
    ∀ updated, answer = .ok updated → updated > env.AddDate 0 0 (-7) (env.now s3) →
      processRepository env tokenTemplate keyTemplate titleTemplate team repository
          tokenAdded s =
        (added, s3, evs ++ [.listKeys repository true, .getLastUpdated keyPath true]) ∧
      ∀ e ∈ (processRepository env tokenTemplate keyTemplate titleTemplate team repository
          tokenAdded s).2.2,
        e.kind ≠ .generateKeyPair ∧ e.kind ≠ .createKey ∧ e.kind ≠ .writeKey ∧
        e.kind ≠ .deleteKey := by
  obtain ⟨ht, rest, hscan⟩ := scanKeys_first_match env repository title keyPath keys key hfirst
  have hres := processRepository_listed env _ _ _ team repository tokenAdded s _ _ _
    hToken hKey hTitle added s1 evs htok keys s2 hlist
  rw [hscan none s2] at hres
  refine ⟨?_, ?_⟩
  · have hfirstev : ∃ ok tail,
        (scanKeys env repository title keyPath (key :: rest) none s2).2.2 =
          Event.getLastUpdated keyPath ok :: tail := by
      unfold scanKeys
      rcases answer with err | updated
      · by_cases hc : err.code = some ErrCodeResourceNotFoundException
        · exact ⟨false, [], by simp [ht, hunreported, hupdated, hc]⟩
        · exact ⟨false,
            [Event.warnf ("failed to get last updated for secret: " ++ err.msg)],
            by simp [ht, hunreported, hupdated, hc]⟩
      · by_cases hf : updated > env.AddDate 0 0 (-7) (env.now s3)
        · exact ⟨true, [], by simp [ht, hunreported, hupdated, hf]⟩
        · exact ⟨true, (scanKeys env repository title keyPath rest (some key) s3).2.2,
            by simp [ht, hunreported, hupdated, hf]⟩
    rw [hres]
    rcases hsc : scanKeys env repository title keyPath (key :: rest) none s2 with
      ⟨_ | old, s4, evs2⟩
    · rw [hsc] at hfirstev
      obtain ⟨ok, tail, h⟩ := hfirstev
      dsimp only at h ⊢
      subst h
      exact ⟨ok, tail, rfl⟩
    · rw [hsc] at hfirstev
      obtain ⟨ok, tail, h⟩ := hfirstev
      dsimp only at h ⊢
      subst h
      exact ⟨ok, tail ++ (rotate env repository title keyPath old s4).2, rfl⟩
  · rintro updated rfl hfresh
    have hskip : processRepository env tokenTemplate keyTemplate titleTemplate team repository
        tokenAdded s =
        (added, s3, evs ++ [.listKeys repository true, .getLastUpdated keyPath true]) := by
      rw [hres]
      unfold scanKeys
      simp [ht, hunreported, hupdated, hfresh]
    refine ⟨hskip, ?_⟩
    rw [hskip]
    have hk := ensureToken_kind env tokenPath repository tokenAdded s
    rw [htok] at hk
    intro e he
    rcases List.mem_append.1 he with he | he
    · rcases hk e he with h | h | h <;> simp [h]
    · simp only [List.mem_cons, List.mem_singleton, List.not_mem_nil, or_false] at he
      rcases he with rfl | rfl <;> simp

/-- Key 1 has the title and reports no flag, read-only is desired, and the
secret was updated now: the repository is skipped. -/
theorem unreported_flag_is_not_drift_witness :
    (tenDays > testEnv.AddDate 0 0 (-7) (testEnv.now (testWorld none tenDays))) ∧
    processRepository testEnv testTokenPath testKeyPath testKeyTitle testTeam testRepository []
        (testWorld none tenDays) =
      ([("telia-oss", true)], testWorld none tenDays,
        [Event.createAccessToken "telia-oss" true,
         Event.writeSecret .token "/concourse/test-team/telia-oss" "token" true] ++
        [Event.listKeys testRepository true,
         Event.getLastUpdated "/concourse/test-team/test-repository" true]) ∧
    ∀ e ∈ (processRepository testEnv testTokenPath testKeyPath testKeyTitle testTeam
        testRepository [] (testWorld none tenDays)).2.2,
      e.kind ≠ .generateKeyPair ∧ e.kind ≠ .createKey ∧ e.kind ≠ .writeKey ∧
      e.kind ≠ .deleteKey :=
  ⟨by decide,
   (unreported_flag_is_not_drift testEnv testTokenPath testKeyPath testKeyTitle testTeam
    testRepository [] (testWorld none tenDays)
    "/concourse/test-team/telia-oss" "/concourse/test-team/test-repository"
    "concourse-test-team-deploy-key" rfl rfl rfl
    [("telia-oss", true)] (testWorld none tenDays) _ rfl
    [⟨1, "concourse-test-team-deploy-key", none⟩] (testWorld none tenDays) rfl
    ⟨1, "concourse-test-team-deploy-key", none⟩ (by decide) rfl
    (.ok tenDays) (testWorld none tenDays) rfl).2 tenDays rfl (by decide)⟩

/-! ## Isolation of failures -/

/-- C15, the claim as stated fails: two runs over two repositories of one
owner that differ only in what the first repository's calls are answered (its
mint succeeds in one run and fails in the other), while the mint fails
whenever the second repository calls it.  In the first run the second
repository finds its owner's token stored and lists, generates, publishes
and persists; in the second run it mints, fails and makes none of these
calls. -/
theorem failures_are_isolated_counterexample :
    ¬ (∀ events1 events2 : List Event,
      (repositoryB, events1) ∈ (processScripted testEnv testTokenPath testKeyPath testKeyTitle
        sharedTeam [(repositoryA, emptyWorld), (repositoryB, mintFailsWorld)] []).2 →
      (repositoryB, events2) ∈ (processScripted testEnv testTokenPath testKeyPath testKeyTitle
        sharedTeam [(repositoryA, mintFailsWorld), (repositoryB, mintFailsWorld)] []).2 →
      otherCalls events1 = otherCalls events2) := by
  intro h
  have h1 := h
    [Event.listKeys repositoryB true,
     Event.generateKeyPair "concourse-test-team-deploy-key" (some ("private", "public")),
     Event.createKey repositoryB "concourse-test-team-deploy-key" "public" true,
     Event.writeSecret .key "/concourse/test-team/repository-b" "private" true]
    [Event.createAccessToken "telia-oss" false,
     Event.warnf "failed to get access token: mint"]
    (by decide) (by decide)
  revert h1
  decide

/-- C15, amended: for two runs over the same repositories in which only the
world of one repository differs, the iterations before that repository are
the same, the iterations of the later repositories of another owner are the
same, and the iteration of a later repository of the same owner is the same
too unless in one of the runs it starts with `createAccessToken`; in every
run of `New` the iterations follow the team's list order; and an iteration
whose templates resolve and whose token step passes calls `listKeys` exactly
once, for its own repository. -/
theorem failures_are_isolated {σ : Type} (env : Env σ)
    (tokenTemplate keyTemplate titleTemplate : String) (team : Team) :
    (∀ (pre : List (Repository × σ)) (r : Repository) (s s1 : σ)
      (post : List (Repository × σ)) (tokenAdded : TokenAdded),
      ∃ tpre ev ev1 tpost tpost1,
        (processScripted env tokenTemplate keyTemplate titleTemplate team
          (pre ++ (r, s) :: post) tokenAdded).2 = tpre ++ (r, ev) :: tpost ∧
        (processScripted env tokenTemplate keyTemplate titleTemplate team
          (pre ++ (r, s1) :: post) tokenAdded).2 = tpre ++ (r, ev1) :: tpost1 ∧
        tpre.length = pre.length ∧
        List.Forall₂
          (fun e1 e2 : Repository × List Event =>
            e1.1 = e2.1 ∧ (e1.1.Owner ≠ r.Owner → e1.2 = e2.2) ∧
            (e1.2 = e2.2 ∨
              (∃ ok tail, e1.2 = Event.createAccessToken e1.1.Owner ok :: tail) ∨
              (∃ ok tail, e2.2 = Event.createAccessToken e1.1.Owner ok :: tail)))
          tpost tpost1) ∧
    (∀ s : σ, (New env tokenTemplate keyTemplate titleTemplate team s).2.2.map Prod.fst
      = team.Repositories) ∧
    (∀ (repository : Repository) (tokenAdded : TokenAdded) (s : σ)
      (tokenPath keyPath title : String) (added : TokenAdded) (s1 : σ) (evs : List Event),
      env.NewTemplate team.Name repository.Name repository.Owner tokenTemplate
        = .ok tokenPath →
      env.NewTemplate team.Name repository.Name repository.Owner keyTemplate = .ok keyPath →
      env.NewTemplate team.Name repository.Name repository.Owner titleTemplate = .ok title →
      ensureToken env tokenPath repository tokenAdded s = (true, added, s1, evs) →
      (processRepository env tokenTemplate keyTemplate titleTemplate team repository
        tokenAdded s).2.2.countP (fun e => decide (e.kind = .listKeys)) = 1 ∧
      ∀ r ok, Event.listKeys r ok ∈ (processRepository env tokenTemplate keyTemplate
        titleTemplate team repository tokenAdded s).2.2 → r = repository) := by
  refine ⟨?_, ?_, ?_⟩
  · intro pre r s s1 post tokenAdded
    refine ⟨(processScripted env tokenTemplate keyTemplate titleTemplate team pre
        tokenAdded).2,
      (processRepository env tokenTemplate keyTemplate titleTemplate team r
        (processScripted env tokenTemplate keyTemplate titleTemplate team pre tokenAdded).1
        s).2.2,
      (processRepository env tokenTemplate keyTemplate titleTemplate team r
        (processScripted env tokenTemplate keyTemplate titleTemplate team pre tokenAdded).1
        s1).2.2,
      (processScripted env tokenTemplate keyTemplate titleTemplate team post
        (processRepository env tokenTemplate keyTemplate titleTemplate team r
          (processScripted env tokenTemplate keyTemplate titleTemplate team pre tokenAdded).1
          s).1).2,
      (processScripted env tokenTemplate keyTemplate titleTemplate team post
        (processRepository env tokenTemplate keyTemplate titleTemplate team r
          (processScripted env tokenTemplate keyTemplate titleTemplate team pre tokenAdded).1
          s1).1).2,
      ?_, ?_, processScripted_length env _ _ _ team pre tokenAdded, ?_⟩
    · rw [processScripted_append]
      conv_lhs => arg 2; unfold processScripted
    · rw [processScripted_append]
      conv_lhs => arg 2; unfold processScripted
    · apply processScripted_isolated env tokenTemplate keyTemplate titleTemplate team r.Owner
      intro o ho
      rw [processRepository_lookup_other env _ _ _ team r _ s o (fun h => ho h.symm),
        processRepository_lookup_other env _ _ _ team r _ s1 o (fun h => ho h.symm)]
  · intro s
    exact processRepositories_fst env tokenTemplate keyTemplate titleTemplate team
      team.Repositories [] s
  · intro repository tokenAdded s tokenPath keyPath title added s1 evs hT hK hTi htok
    rw [processRepository_resolved env _ _ _ team repository tokenAdded s _ _ _ hT hK hTi, htok]
    dsimp only
    have hk := ensureToken_kind env tokenPath repository tokenAdded s
    rw [htok] at hk
    have hno : ∀ e ∈ evs, e.kind ≠ .listKeys := by
      intro e he
      rcases hk e he with h | h | h <;> simp [h]
    obtain ⟨hcount, hrepo⟩ := rotateIfNeeded_listKeys env repository keyPath title s1
    refine ⟨?_, ?_⟩
    · rw [List.countP_append, countP_kind_eq_zero .listKeys evs hno, hcount]
    · intro r ok hmem
      rcases List.mem_append.1 hmem with h | h
      · exact absurd (kind_listKeys r ok) (hno _ h)
      · exact hrepo r ok h

/-- The two runs of the counterexample, and the rotation of
`handler_test.go`, which lists the keys of the test repository once. -/
theorem failures_are_isolated_witness :
    (∃ tpre ev ev1 tpost tpost1,
      (processScripted testEnv testTokenPath testKeyPath testKeyTitle sharedTeam
        ([] ++ (repositoryA, emptyWorld) :: [(repositoryB, mintFailsWorld)]) []).2 =
        tpre ++ (repositoryA, ev) :: tpost ∧
      (processScripted testEnv testTokenPath testKeyPath testKeyTitle sharedTeam
        ([] ++ (repositoryA, mintFailsWorld) :: [(repositoryB, mintFailsWorld)]) []).2 =
        tpre ++ (repositoryA, ev1) :: tpost1 ∧
      tpre.length = ([] : List (Repository × World)).length ∧
      List.Forall₂
        (fun e1 e2 : Repository × List Event =>
          e1.1 = e2.1 ∧ (e1.1.Owner ≠ repositoryA.Owner → e1.2 = e2.2) ∧
          (e1.2 = e2.2 ∨
            (∃ ok tail, e1.2 = Event.createAccessToken e1.1.Owner ok :: tail) ∨
            (∃ ok tail, e2.2 = Event.createAccessToken e1.1.Owner ok :: tail)))
        tpost tpost1) ∧
    (processRepository testEnv testTokenPath testKeyPath testKeyTitle testTeam testRepository
        [] (testWorld (some true) 0)).2.2.countP (fun e => decide (e.kind = .listKeys)) = 1 ∧
    ∀ r ok, Event.listKeys r ok ∈ (processRepository testEnv testTokenPath testKeyPath
      testKeyTitle testTeam testRepository [] (testWorld (some true) 0)).2.2 →
      r = testRepository :=
  ⟨(failures_are_isolated testEnv testTokenPath testKeyPath testKeyTitle sharedTeam).1
      [] repositoryA emptyWorld mintFailsWorld [(repositoryB, mintFailsWorld)] [],
   (failures_are_isolated testEnv testTokenPath testKeyPath testKeyTitle testTeam).2.2
      testRepository [] (testWorld (some true) 0)
      "/concourse/test-team/telia-oss" "/concourse/test-team/test-repository"
      "concourse-test-team-deploy-key" [("telia-oss", true)] (testWorld (some true) 0) _
      rfl rfl rfl rfl⟩

/-! ## Return value -/

/-- C8: for every team, also one without repositories, and whatever the
collaborators answer, the function returned by `New` returns a nil error. -/
theorem New_returns_nil {σ : Type} (env : Env σ)
    (tokenTemplate keyTemplate titleTemplate : String) (team : Team) (s : σ) :
    (New env tokenTemplate keyTemplate titleTemplate team s).1 = none := rfl

end Handler
